import Mathlib

/-!
Zoic camera shader: a verification development.

Shallow embedding of `src/zoic.cpp` (bokeh image importance sampler, concentric
disk sampler, lens prescription loader, geometric optics primitives, lens ray
tracer, image-distance solver and camera ray generator), followed by theorems
about the embedded functions.

Conventions of the embedding

* `float`/`double` values are exact numbers: rationals for the image sampler, an
  arbitrary linearly ordered field `K` for the optics, with the library functions
  `sqrt`, `cos`, `sin` passed as parameters.
* A division whose divisor can be zero in the source and whose quotient reaches a
  result is a checked division: the embedded function returns `none` where the
  `float` code would produce an infinity or a NaN.
* Raw array reads that the source performs through pointers obtained from the
  tables (`cdfRow`, `rowIndices`, ...) are `Option`-valued: reading outside a
  table yields `none`.
* Image dimensions are natural numbers (the loaders only ever store the
  non-negative sizes reported for a decoded image, or `0`).
-/

set_option autoImplicit false

namespace Zoic

/-! ## Library contracts -/

/-- The comparator `arrayCompare(values)`: index `lhs` goes before index `rhs`
when `values[lhs] > values[rhs]`. -/
def arrayCompare (values : List ℚ) (lhs rhs : Nat) : Bool :=
  decide (values.getD lhs 0 > values.getD rhs 0)

/-- Contract of `std::sort(first, last, arrayCompare(values))` on a range of
indices: the result is a permutation of the range in which no later element
compares before an earlier one.  The order of equal keys is left to the
implementation, so every theorem quantifies over all conforming sorts. -/
structure StdSort where
  sort : List ℚ → List Nat → List Nat
  perm : ∀ values l, (sort values l).Perm l
  sorted : ∀ values l, (sort values l).Pairwise (fun a b => arrayCompare values b a = false)

/-- One conforming implementation: stable insertion sort (what the common
standard libraries run on short ranges). -/
def insertionStdSort : StdSort where
  sort := fun values l =>
    List.insertionSort (fun a b => values.getD b 0 ≤ values.getD a 0) l
  perm := fun values l => List.perm_insertionSort _ l
  sorted := by
    intro values l
    have hT : IsTotal Nat (fun a b => values.getD b 0 ≤ values.getD a 0) :=
      ⟨fun a b => le_total _ _⟩
    have hR : IsTrans Nat (fun a b => values.getD b 0 ≤ values.getD a 0) :=
      ⟨fun a b c hab hbc => le_trans hbc hab⟩
    have h := List.sorted_insertionSort (fun a b => values.getD b 0 ≤ values.getD a 0) l
    refine List.Pairwise.imp ?_ h
    intro a b hab
    simp only [arrayCompare, decide_eq_false_iff_not, gt_iff_lt, not_lt]
    exact hab

/-- The loop of `std::upper_bound` (binary search): `first` and `len` delimit
the window still to search; `fuel` bounds the number of iterations. -/
def upperBoundLoop (a : List ℚ) (value : ℚ) : Nat → Nat → Nat → Nat
  | 0, first, _ => first
  | fuel + 1, first, len =>
    if len = 0 then first
    else
      let half := len / 2
      let middle := first + half
      if value < a.getD middle 0 then upperBoundLoop a value fuel first half
      else upperBoundLoop a value fuel (middle + 1) (len - half - 1)

/-- The call `std::upper_bound(a, a + n, value) - a` for a range `a` of `n`
elements: offset of the first element greater than `value` when the range is
sorted.  The window at least halves per iteration, so `n` iterations suffice. -/
def upper_bound (a : List ℚ) (value : ℚ) : Nat :=
  upperBoundLoop a value a.length 0 a.length

/-- The range `[table + first, table + first + len)` of a table; `none` when the
range is not inside the table. -/
def slice (table : List ℚ) (first len : Nat) : Option (List ℚ) :=
  if first + len ≤ table.length then some ((table.drop first).take len) else none

/-- A `float` division whose divisor may be zero: `none` stands for the
infinity or NaN the machine division produces. -/
def checkedDiv {K : Type} [Field K] [DecidableEq K] (a b : K) : Option K :=
  if b = 0 then none else some (a / b)

/-! ## Bokeh image importance sampler (`class imageData`) -/

/-- The members of `class imageData`; a null table pointer is the empty list. -/
structure imageData where
  x : Nat
  y : Nat
  nchannels : Nat
  pixelData : List ℚ
  cdfRow : List ℚ
  cdfColumn : List ℚ
  rowIndices : List Nat
  columnIndices : List Nat

namespace imageData

/-- The default constructor `imageData()`. -/
def new : imageData :=
  { x := 0, y := 0, nchannels := 0, pixelData := [], cdfRow := [], cdfColumn := [],
    rowIndices := [], columnIndices := [] }

/-- Member `isValid()`. -/
def isValid (img : imageData) : Bool :=
  decide (img.x * img.y * img.nchannels > 0) && decide (img.nchannels ≥ 3)

/-- Member `invalidate()`: frees every buffer and zeroes the dimensions. -/
def invalidate (_img : imageData) : imageData :=
  { x := 0, y := 0, nchannels := 0, pixelData := [], cdfRow := [], cdfColumn := [],
    rowIndices := [], columnIndices := [] }

/-- The value stored in `pixelValues[i]`: the luminance
`0.3 R + 0.59 G + 0.11 B` of pixel `i` of the interleaved buffer. -/
def pixelLuminance (img : imageData) (i : Nat) : ℚ :=
  let o1 := if img.nchannels ≥ 2 then 1 else 0
  let o2 := if img.nchannels ≥ 3 then 2 else o1
  let j := i * img.nchannels
  img.pixelData.getD j 0 * (3 / 10) + img.pixelData.getD (j + o1) 0 * (59 / 100)
    + img.pixelData.getD (j + o2) 0 * (11 / 100)

/-- The temporary `pixelValues`. -/
def pixelValues (img : imageData) : List ℚ :=
  (List.range (img.x * img.y)).map (pixelLuminance img)

/-- Luminance of the pixel in row `r`, column `c` (row-major buffer). -/
def luminance (img : imageData) (r c : Nat) : ℚ :=
  pixelLuminance img (r * img.x + c)

/-- Luminance of row `r`: the sum over its `x` pixels. -/
def rowLuminance (img : imageData) (r : Nat) : ℚ :=
  ((List.range img.x).map fun c => luminance img r c).sum

/-- The accumulator `totalValue` after the luminance loop. -/
def totalValue (img : imageData) : ℚ :=
  (pixelValues img).foldl (· + ·) 0

/-- The temporary `normalizedPixelValues`. -/
def normalizedPixelValues (invTotalValue : ℚ) (img : imageData) : List ℚ :=
  (pixelValues img).map fun v => v * invTotalValue

/-- The temporary `summedRowValues`: the sum of each row of normalized values. -/
def summedRowValues (invTotalValue : ℚ) (img : imageData) : List ℚ :=
  (List.range img.y).map fun i =>
    ((List.range img.x).map fun j =>
      (normalizedPixelValues invTotalValue img).getD (i * img.x + j) 0).foldl (· + ·) 0

/-- A running-sum loop `out[i] = prevVal + in[i]; prevVal = out[i]`. -/
def cumulative : ℚ → List ℚ → List ℚ
  | _, [] => []
  | prevVal, v :: vs => (prevVal + v) :: cumulative (prevVal + v) vs

/-- The table `rowIndices` after `std::sort`. -/
def buildRowIndices (S : StdSort) (invTotalValue : ℚ) (img : imageData) : List Nat :=
  S.sort (summedRowValues invTotalValue img) (List.range img.y)

/-- The table `cdfRow`. -/
def buildCdfRow (S : StdSort) (invTotalValue : ℚ) (img : imageData) : List ℚ :=
  cumulative 0 ((List.range img.y).map fun i =>
    (summedRowValues invTotalValue img).getD
      ((buildRowIndices S invTotalValue img).getD i 0) 0)

/-- The temporary `normalizedValuesPerRow`, with its guard against a zero row
sum. -/
def normalizedValuesPerRow (invTotalValue : ℚ) (img : imageData) : List ℚ :=
  (List.range img.y).flatMap fun r =>
    (List.range img.x).map fun c =>
      let i := r * img.x + c
      if (normalizedPixelValues invTotalValue img).getD i 0 ≠ 0
          ∧ (summedRowValues invTotalValue img).getD r 0 ≠ 0 then
        (normalizedPixelValues invTotalValue img).getD i 0
          / (summedRowValues invTotalValue img).getD r 0
      else 0

/-- The table `columnIndices`: each row's own pixel indices, sorted per row. -/
def buildColumnIndices (S : StdSort) (invTotalValue : ℚ) (img : imageData) : List Nat :=
  (List.range img.y).flatMap fun r =>
    S.sort (normalizedValuesPerRow invTotalValue img) (List.range' (r * img.x) img.x)

/-- The table `cdfColumn`: per row, the running sum in sorted column order. -/
def buildCdfColumn (S : StdSort) (invTotalValue : ℚ) (img : imageData) : List ℚ :=
  (List.range img.y).flatMap fun r =>
    cumulative 0 ((List.range img.x).map fun c =>
      (normalizedValuesPerRow invTotalValue img).getD
        ((buildColumnIndices S invTotalValue img).getD (r * img.x + c) 0) 0)

/-- Everything `bokehProbability` does after `invTotalValue` is known. -/
def buildTables (S : StdSort) (invTotalValue : ℚ) (img : imageData) : imageData :=
  { img with
    rowIndices := buildRowIndices S invTotalValue img
    cdfRow := buildCdfRow S invTotalValue img
    columnIndices := buildColumnIndices S invTotalValue img
    cdfColumn := buildCdfColumn S invTotalValue img }

/-- Member `bokehProbability()`.  An invalid image is left untouched.  The
division `1.0f / totalValue` is unguarded in the source: with a zero total
every normalized value is `0 * inf = NaN`, which is `none` here. -/
def bokehProbability (S : StdSort) (img : imageData) : Option imageData :=
  if !img.isValid then some img
  else do
    let invTotalValue ← checkedDiv 1 (totalValue img)
    some (buildTables S invTotalValue img)

/-- First half of `bokehSample`: the row search, returning `actualPixelRow`. -/
def bokehSampleRow (img : imageData) (randomNumberRow : ℚ) : Option Nat := do
  let rows ← slice img.cdfRow 0 img.y
  let pUpperBound := upper_bound rows randomNumberRow
  let r := if pUpperBound ≥ img.y then img.y - 1 else pUpperBound
  img.rowIndices[r]?

/-- Second half of `bokehSample`: the column search inside the slice of
`actualPixelRow`, returning `actualPixelColumn` (an index into the whole image). -/
def bokehSampleColumn (img : imageData) (actualPixelRow : Nat) (randomNumberColumn : ℚ) :
    Option Nat := do
  let startPixel := actualPixelRow * img.x
  let cols ← slice img.cdfColumn startPixel img.x
  let pUpperBoundColumn := startPixel + upper_bound cols randomNumberColumn
  let c := if pUpperBoundColumn ≥ startPixel + img.x then startPixel + img.x - 1
    else pUpperBoundColumn
  img.columnIndices[c]?

/-- The recentring, flip and normalization at the end of `bokehSample`, for a
selected `actualPixelRow` and `actualPixelColumn`; `int` arithmetic with the
truncating division of the source. -/
def bokehCoordinates (img : imageData) (actualPixelRow actualPixelColumn : Nat) : ℚ × ℚ :=
  let recalulatedPixelRow : Int := (actualPixelRow : Int) - ((img.x : Int) - 1).tdiv 2
  let startPixel : Int := (actualPixelRow : Int) * (img.x : Int)
  let relativePixelColumn : Int := (actualPixelColumn : Int) - startPixel
  let recalulatedPixelColumn : Int := relativePixelColumn - ((img.y : Int) - 1).tdiv 2
  let flippedRow : ℚ := (recalulatedPixelColumn : ℚ)
  let flippedColumn : ℚ := (recalulatedPixelRow : ℚ) * (-1)
  (flippedRow / (img.x : ℚ) * 2, flippedColumn / (img.y : ℚ) * 2)

/-- The searches of `bokehSample` together: the selected `actualPixelRow` and
`actualPixelColumn`.  Pixel `(r, c)` is selected when the result is
`(r, r * x + c)`. -/
def bokehSamplePixel (img : imageData) (randomNumberRow randomNumberColumn : ℚ) :
    Option (Nat × Nat) := do
  let actualPixelRow ← bokehSampleRow img randomNumberRow
  let actualPixelColumn ← bokehSampleColumn img actualPixelRow randomNumberColumn
  some (actualPixelRow, actualPixelColumn)

/-- Member `bokehSample(randomNumberRow, randomNumberColumn, &dx, &dy)`; the
result is the pair `(dx, dy)`. -/
def bokehSample (img : imageData) (randomNumberRow randomNumberColumn : ℚ) : Option (ℚ × ℚ) :=
  if !img.isValid then some (0, 0)
  else do
    let pixel ← bokehSamplePixel img randomNumberRow randomNumberColumn
    some (bokehCoordinates img pixel.1 pixel.2)

/-- A 2×2 RGB image whose only lit pixel is row 0, column 1. -/
def singleBright : imageData :=
  { x := 2, y := 2, nchannels := 3,
    pixelData := [0, 0, 0, 1, 1, 1, 0, 0, 0, 0, 0, 0],
    cdfRow := [], cdfColumn := [], rowIndices := [], columnIndices := [] }

/-- The RGB image one pixel wide and two pixels high with pixel data
`(1, 1, 0)`, `(0, 0, 0)`, with the tables that `bokehProbability` leaves when
its `float` operations round to nearest in binary32: the luminance
`0.3f + 0.59f` and the total are `0.89f`, `invTotalValue` is the rounded
`1 / 0.89f`, and their product rounds to `1 - 2^-24 = 16777215 / 16777216`, which
is every entry of `cdfRow`. -/
def roundedTables : imageData :=
  { x := 1, y := 2, nchannels := 3,
    pixelData := [1, 1, 0, 0, 0, 0],
    rowIndices := [0, 1], cdfRow := [16777215 / 16777216, 16777215 / 16777216],
    columnIndices := [0, 1], cdfColumn := [1, 0] }

/-- A 3×2 RGB image (three columns, two rows) of grey pixels. -/
def greyRamp : imageData :=
  { x := 3, y := 2, nchannels := 3,
    pixelData := [1, 1, 1, 2, 2, 2, 1, 1, 1, 0, 0, 0, 3, 3, 3, 1, 1, 1],
    cdfRow := [], cdfColumn := [], rowIndices := [], columnIndices := [] }

/-- A black RGB image one pixel wide and four pixels high. -/
def blackColumn : imageData :=
  { x := 1, y := 4, nchannels := 3,
    pixelData := [0, 0, 0, 0, 0, 0, 0, 0, 0, 0, 0, 0],
    cdfRow := [], cdfColumn := [], rowIndices := [], columnIndices := [] }

/-- The local `r` of `bokehSample`: the position in `cdfRow` that the row
search settles on (the first part of `bokehSampleRow`). -/
def bokehRowPosition (img : imageData) (randomNumberRow : ℚ) : Option Nat := do
  let rows ← slice img.cdfRow 0 img.y
  let pUpperBound := upper_bound rows randomNumberRow
  some (if pUpperBound ≥ img.y then img.y - 1 else pUpperBound)

/-- The local `c` of `bokehSample`: the position in `cdfColumn` that the column
search settles on (the first part of `bokehSampleColumn`). -/
def bokehColumnPosition (img : imageData) (actualPixelRow : Nat) (randomNumberColumn : ℚ) :
    Option Nat := do
  let startPixel := actualPixelRow * img.x
  let cols ← slice img.cdfColumn startPixel img.x
  let pUpperBoundColumn := startPixel + upper_bound cols randomNumberColumn
  some (if pUpperBoundColumn ≥ startPixel + img.x then startPixel + img.x - 1
    else pUpperBoundColumn)

/-- An RGB image one pixel wide and two pixels high, both pixels equally lit. -/
def twoLit : imageData :=
  { x := 1, y := 2, nchannels := 3,
    pixelData := [1, 1, 1, 1, 1, 1],
    cdfRow := [], cdfColumn := [], rowIndices := [], columnIndices := [] }

/-- The image `twoLit` with tables as `bokehProbability` builds them: both rows
carry half of the total, each row holds its whole mass in its only column. -/
def twoLitTables : imageData :=
  { twoLit with
    rowIndices := [0, 1], cdfRow := [1 / 2, 1],
    columnIndices := [0, 1], cdfColumn := [1, 1] }

/-- An RGB image one pixel wide and three pixels high whose only lit pixel is
the centre one. -/
def litCentre : imageData :=
  { x := 1, y := 3, nchannels := 3,
    pixelData := [0, 0, 0, 1, 1, 1, 0, 0, 0],
    cdfRow := [], cdfColumn := [], rowIndices := [], columnIndices := [] }

/-- An RGB image one pixel wide and four pixels high whose only lit pixel is
the top one. -/
def litColumn : imageData :=
  { x := 1, y := 4, nchannels := 3,
    pixelData := [1, 1, 1, 0, 0, 0, 0, 0, 0, 0, 0, 0],
    cdfRow := [], cdfColumn := [], rowIndices := [], columnIndices := [] }

end imageData

/-! ## Concentric disk sampler -/

/-- Function `ConcentricSampleDisk(u1, u2, &dx, &dy)`; the result is the pair `(dx, dy)`
stored last.  `cos`, `sin` and the constant `AI_PI` are parameters.  The
degenerate branch `if (sx == 0 && sy == 0)` stores `(0, 0)` but does not return,
so control continues into the region code, whose stores overwrite it; each
`sy/radius`, `sx/radius` is a checked division. -/
def ConcentricSampleDisk {K : Type} [LinearOrderedField K] (cos sin : K → K) (AI_PI : K)
    (u1 u2 : K) : Option (K × K) :=
  let sx := 2 * u1 - 1
  let sy := 2 * u2 - 1
  let _handled : Option (K × K) := if sx = 0 ∧ sy = 0 then some (0, 0) else none
  let polar : Option (K × K) :=
    if sx ≥ -sy then
      if sx > sy then
        (checkedDiv sy sx).map fun q => (sx, if sy > 0 then q else 8 + q)
      else
        (checkedDiv sx sy).map fun q => (sy, 2 - q)
    else
      if sx ≤ sy then
        (checkedDiv sy (-sx)).map fun q => (-sx, 4 - q)
      else
        (checkedDiv sx (-sy)).map fun q => (-sy, 6 + q)
  polar.map fun p =>
    let radius := p.1
    let theta := p.2 * (AI_PI / 4)
    (radius * cos theta, radius * sin theta)

/-! ## Lens prescription data -/

/-- The global `struct Lensdata`. -/
structure Lensdata (K : Type) where
  lensRadiusCurvature : List K
  lensThickness : List K
  lensIOR : List K
  lensAperture : List K
  apertureDistance : K
  vignettedRays : Int
  succesRays : Int
  xres : K
  yres : K

/-- Successive `getline(iss, token, tab)` calls on a stream holding the
characters of one line: the pieces between tab characters; at the end of the
stream a piece is produced only if it is not empty.  `acc` holds the characters
of the current piece, last first. -/
def getlineTokens : List Char → List Char → List String
  | acc, [] => if acc = [] then [] else [String.mk acc.reverse]
  | acc, c :: cs =>
    if c = Char.ofNat 9 then String.mk acc.reverse :: getlineTokens [] cs
    else getlineTokens (c :: acc) cs

/-- The body of the token loop of `readTabularLensData`, on the pair
`(lensDataCounter, ld)`.  `stod` is `std::stod`; `none` is a thrown exception. -/
def readToken {K : Type} [LinearOrderedField K] (stod : String → Option K)
    (st : Nat × Lensdata K) (token : String) : Option (Nat × Lensdata K) := do
  let lensDataCounter := st.1
  let ld := st.2
  let ld ← if lensDataCounter = 1 then
      (stod token).map fun v => { ld with lensRadiusCurvature := ld.lensRadiusCurvature ++ [v] }
    else some ld
  let ld ← if lensDataCounter = 2 then
      (stod token).map fun v => { ld with lensThickness := ld.lensThickness ++ [v] }
    else some ld
  let ld ← if lensDataCounter = 3 then
      (stod token).map fun number =>
        let number := if number = 0 then 1 else number
        { ld with lensIOR := ld.lensIOR ++ [number] }
    else some ld
  let st ← if lensDataCounter = 4 then
      (stod token).map fun v =>
        ((0 : Nat), { ld with lensAperture := ld.lensAperture ++ [v] })
    else some (lensDataCounter, ld)
  some (st.1 + 1, st.2)

/-- The test `line.length() == 0 || line[0] == '#'`. -/
def isCommentOrEmpty (line : String) : Bool :=
  match line.toList with
  | [] => true
  | c :: _ => c == '#'

/-- The body of the line loop of `readTabularLensData`. -/
def readLine {K : Type} [LinearOrderedField K] (stod : String → Option K)
    (st : Nat × Lensdata K) (line : String) : Option (Nat × Lensdata K) :=
  if isCommentOrEmpty line then some st
  else (getlineTokens [] line.toList).foldlM (readToken stod) st

/-- Function `readTabularLensData(lensDataFileName, ld)`, on the lines that `getline`
reads from the file.  The reset at the top clears `lensAperture` (twice),
`lensIOR` and `lensRadiusCurvature`, and leaves `lensThickness` alone. -/
def readTabularLensData {K : Type} [LinearOrderedField K] (stod : String → Option K)
    (lines : List String) (ld : Lensdata K) : Option (Lensdata K) := do
  let ld := { ld with lensAperture := [], lensIOR := [], lensRadiusCurvature := [] }
  let st ← lines.foldlM (readLine stod) (1, ld)
  let ld := st.2
  some { ld with
    lensRadiusCurvature := ld.lensRadiusCurvature.reverse
    lensThickness := ld.lensThickness.reverse
    lensIOR := ld.lensIOR.reverse
    lensAperture := ld.lensAperture.reverse }

/-- Specification helper: `ld` with one entry per row appended to each of the
four sequences, an index of refraction `0` being stored as `1`. -/
def Lensdata.appendRows {K : Type} [LinearOrderedField K] (ld : Lensdata K)
    (rows : List (K × K × K × K)) : Lensdata K :=
  { ld with
    lensRadiusCurvature := ld.lensRadiusCurvature ++ rows.map fun r => r.1
    lensThickness := ld.lensThickness ++ rows.map fun r => r.2.1
    lensIOR := ld.lensIOR ++ rows.map fun r => if r.2.2.1 = 0 then 1 else r.2.2.1
    lensAperture := ld.lensAperture ++ rows.map fun r => r.2.2.2 }

/-- Specification helper: `line` is a data line holding exactly the four
tab-separated fields of `row`, each accepted by `stod`. -/
def IsDataLine {K : Type} (stod : String → Option K) (line : String)
    (row : K × K × K × K) : Prop :=
  ∃ a b c d : String, getlineTokens [] line.toList = [a, b, c, d] ∧
    stod a = some row.1 ∧ stod b = some row.2.1 ∧ stod c = some row.2.2.1 ∧
    stod d = some row.2.2.2

/-- A `stod` that knows the numerals of `exampleLensFile`. -/
def exampleStod (s : String) : Option ℚ :=
  if s = "35.5" then some (71 / 2)
  else if s = "1.25" then some (5 / 4)
  else if s = "1.5" then some (3 / 2)
  else if s = "23.0" then some 23
  else if s = "0.0" then some 0
  else if s = "4.0" then some 4
  else if s = "18.0" then some 18
  else if s = "-40.0" then some (-40)
  else if s = "2.0" then some 2
  else if s = "1.0" then some 1
  else if s = "20.0" then some 20
  else none

/-- A lens file of three data lines (front to back), a comment line and an
empty line; the middle surface is an aperture stop with index of refraction
`0.0`. -/
def exampleLensFile : List String :=
  ["# radius thickness ior aperture",
   "35.5\t1.25\t1.5\t23.0",
   "",
   "0.0\t4.0\t0.0\t18.0",
   "-40.0\t2.0\t1.0\t20.0"]

/-- A `Lensdata` whose sequences are empty. -/
def Lensdata.new {K : Type} [LinearOrderedField K] : Lensdata K :=
  { lensRadiusCurvature := [], lensThickness := [], lensIOR := [], lensAperture := [],
    apertureDistance := 0, vignettedRays := 0, succesRays := 0, xres := 0, yres := 0 }

/-! ## Geometric optics primitives -/

/-- Arnold's `AtVector` (also used for `AtPoint`). -/
structure AtVector (K : Type) where
  x : K
  y : K
  z : K

namespace AtVector

variable {K : Type} [LinearOrderedField K]

instance : Add (AtVector K) := ⟨fun a b => ⟨a.x + b.x, a.y + b.y, a.z + b.z⟩⟩

instance : Sub (AtVector K) := ⟨fun a b => ⟨a.x - b.x, a.y - b.y, a.z - b.z⟩⟩

instance : HMul (AtVector K) K (AtVector K) := ⟨fun a s => ⟨a.x * s, a.y * s, a.z * s⟩⟩

end AtVector

section Optics

variable {K : Type} [LinearOrderedField K]

/-- What the theorems assume of the `sqrt` parameter: on non-negative
arguments it is the non-negative square root. -/
def IsSqrt (sqrt : K → K) : Prop :=
  ∀ x : K, 0 ≤ x → 0 ≤ sqrt x ∧ sqrt x * sqrt x = x

/-- Arnold's `AiV3Dot`. -/
def AiV3Dot (a b : AtVector K) : K :=
  a.x * b.x + a.y * b.y + a.z * b.z

/-- Arnold's `AiV3Normalize`: scales by the reciprocal of the length, leaving a
vector of length zero as it is. -/
def AiV3Normalize (sqrt : K → K) (a : AtVector K) : AtVector K :=
  let tmp := sqrt (AiV3Dot a a)
  let tmp := if tmp ≠ 0 then 1 / tmp else tmp
  a * tmp

/-- The call `copysign(1.0, r)`: `-1` for a negative `r`, else `1`. -/
def copysignOne (r : K) : K :=
  if r < 0 then -1 else 1

/-- The local `tca` of `raySphereIntersection`: the projection of the vector
from the origin to the centre onto the normalized direction. -/
def rayTca (sqrt : K → K) (ray_direction ray_origin sphere_center : AtVector K) : K :=
  AiV3Dot (sphere_center - ray_origin) (AiV3Normalize sqrt ray_direction)

/-- The local `d2` of `raySphereIntersection`: the squared distance from the
centre to the line of the ray. -/
def rayD2 (sqrt : K → K) (ray_direction ray_origin sphere_center : AtVector K) : K :=
  AiV3Dot (sphere_center - ray_origin) (sphere_center - ray_origin)
    - rayTca sqrt ray_direction ray_origin sphere_center
      * rayTca sqrt ray_direction ray_origin sphere_center

/-- Function `raySphereIntersection(ray_direction, ray_origin, sphere_center,
sphere_radius, reverse)`. -/
def raySphereIntersection (sqrt : K → K) (ray_direction ray_origin sphere_center : AtVector K)
    (sphere_radius : K) (reverse : Bool) : AtVector K :=
  let ray_direction := AiV3Normalize sqrt ray_direction
  let L := sphere_center - ray_origin
  let tca := AiV3Dot L ray_direction
  let radius2 := sphere_radius * sphere_radius
  let d2 := AiV3Dot L L - tca * tca
  let thc := sqrt (radius2 - d2)
  if !reverse then
    ray_origin + ray_direction * (tca + thc * copysignOne sphere_radius)
  else
    ray_origin + ray_direction * (tca - thc * copysignOne sphere_radius)

/-- Function `intersectionNormal(hit_point, sphere_center, sphere_radius)`. -/
def intersectionNormal (sqrt : K → K) (hit_point sphere_center : AtVector K)
    (sphere_radius : K) : AtVector K :=
  AiV3Normalize sqrt (sphere_center - hit_point) * copysignOne sphere_radius

/-- Function `calculateTransmissionVector(ior1, ior2, incidentVector, normalVector)`. -/
def calculateTransmissionVector (sqrt : K → K) (ior1 ior2 : K)
    (incidentVector normalVector : AtVector K) : AtVector K :=
  let incidentVector := AiV3Normalize sqrt incidentVector
  let normalVector := AiV3Normalize sqrt normalVector
  let eta := ior1 / ior2
  let c1 := -AiV3Dot incidentVector normalVector
  let cs2 := eta * eta * (1 - c1 * c1)
  let cosT := sqrt |1 - cs2|
  (incidentVector * eta) + (normalVector * ((eta * c1) - cosT))

/-! ## Lens ray tracer -/

/-- The values `traceThroughLensElements` reads without having written them:
the locals `summedThickness`, `lensElementAperture` and (one per iteration)
`tmpRayDirection` are declared without initializer, and `lensIOR[i+1]` is read
one past the end at the last surface. -/
structure Indeterminate (K : Type) where
  summedThickness : K
  lensElementAperture : Bool
  tmpRayDirection : Nat → AtVector K
  lensIORPastEnd : K

/-- The variables live across the iterations of the loop of
`traceThroughLensElements`. -/
structure TraceState (K : Type) where
  ray_origin : AtVector K
  ray_direction : AtVector K
  weight : K
  ld : Lensdata K
  summedThickness : K
  lensElementAperture : Bool

/-- The part of iteration `i` up to the first vignetting test: updates
`summedThickness`, replaces a radius `0` by the flat sentinel, and intersects. -/
def traceHit (sqrt : K → K) (i : Nat) (s : TraceState K) : TraceState K × AtVector K :=
  let summedThickness :=
    if i = 0 then s.ld.lensThickness.getD 0 0
    else s.summedThickness + s.ld.lensThickness.getD i 0
  let isStop : Bool := decide (s.ld.lensRadiusCurvature.getD i 0 = 0
    ∨ s.ld.lensRadiusCurvature.getD i 0 = 99999)
  let ld := if isStop then
      { s.ld with lensRadiusCurvature := s.ld.lensRadiusCurvature.set i 99999 }
    else s.ld
  let lensElementAperture := if isStop then true else s.lensElementAperture
  let sphere_center : AtVector K :=
    ⟨0, 0, summedThickness - ld.lensRadiusCurvature.getD i 0⟩
  let hit_point := raySphereIntersection sqrt s.ray_direction s.ray_origin sphere_center
    (ld.lensRadiusCurvature.getD i 0) false
  ({ s with ray_origin := hit_point, ld := ld, summedThickness := summedThickness,
            lensElementAperture := lensElementAperture }, sphere_center)

/-- The local `hitPointHypotenuse` of iteration `i`, started in state `s`. -/
def hitPointHypotenuse (sqrt : K → K) (i : Nat) (s : TraceState K) : K :=
  let hit_point := (traceHit sqrt i s).1.ray_origin
  sqrt (hit_point.x * hit_point.x + hit_point.y * hit_point.y)

/-- One iteration of the loop of `traceThroughLensElements`. -/
def traceBody (sqrt : K → K) (U : Indeterminate K) (i : Nat) (s : TraceState K) :
    TraceState K :=
  let s1 := (traceHit sqrt i s).1
  let sphere_center := (traceHit sqrt i s).2
  let hit_point := s1.ray_origin
  let hitPointHypotenuse := hitPointHypotenuse sqrt i s
  let apertureRadius : K := 20
  let s2 :=
    if hitPointHypotenuse > s1.ld.lensAperture.getD i 0 / 2 then
      { s1 with ld := { s1.ld with vignettedRays := s1.ld.vignettedRays + 1 }, weight := 0 }
    else s1
  let s3 :=
    if s2.lensElementAperture = true ∧ hitPointHypotenuse > apertureRadius then
      { s2 with ld := { s2.ld with vignettedRays := s2.ld.vignettedRays + 1 }, weight := 0 }
    else s2
  let hit_point_normal := intersectionNormal sqrt hit_point sphere_center
    (s3.ld.lensRadiusCurvature.getD i 0)
  let tmpRayDirection := U.tmpRayDirection i
  let tmpRayDirection :=
    if s3.ld.lensIOR.getD i U.lensIORPastEnd ≠ s3.ld.lensIOR.getD (i + 1) U.lensIORPastEnd then
      calculateTransmissionVector sqrt (s3.ld.lensIOR.getD i U.lensIORPastEnd)
        (s3.ld.lensIOR.getD (i + 1) U.lensIORPastEnd) s.ray_direction hit_point_normal
    else tmpRayDirection
  let tmpRayDirection :=
    if i = s3.ld.lensRadiusCurvature.length - 1 then
      calculateTransmissionVector sqrt (s3.ld.lensIOR.getD i U.lensIORPastEnd) 1
        s.ray_direction hit_point_normal
    else tmpRayDirection
  { s3 with ray_direction := tmpRayDirection,
            ld := { s3.ld with succesRays := s3.ld.succesRays + 1 } }

/-- The state after the first `n` iterations of the loop. -/
def traceLoop (sqrt : K → K) (U : Indeterminate K) : Nat → TraceState K → TraceState K
  | 0, s => s
  | n + 1, s => traceBody sqrt U n (traceLoop sqrt U n s)

/-- The state in which the loop of `traceThroughLensElements` starts. -/
def traceInit (U : Indeterminate K) (ray_origin ray_direction : AtVector K) (weight : K)
    (ld : Lensdata K) : TraceState K :=
  { ray_origin := ray_origin, ray_direction := ray_direction, weight := weight, ld := ld,
    summedThickness := U.summedThickness, lensElementAperture := U.lensElementAperture }

/-- Function `traceThroughLensElements(&ray_origin, &ray_direction, &weight, &ld, lensx,
lensy)`: one iteration per entry of `lensRadiusCurvature`; the result holds the
ray, the weight and `ld` as the call leaves them. -/
def traceThroughLensElements (sqrt : K → K) (U : Indeterminate K)
    (ray_origin ray_direction : AtVector K) (weight : K) (ld : Lensdata K)
    (_lensx _lensy : K) : TraceState K :=
  traceLoop sqrt U ld.lensRadiusCurvature.length
    (traceInit U ray_origin ray_direction weight ld)

/-- One iteration of the loop of `traceThroughLensElements` with every vector
subscript of the body bounds-checked: `lensThickness[i]` (`[0]` when `i = 0`),
`lensRadiusCurvature[i]`, `lensAperture[i]`, `lensIOR[i]` and the `lensIOR[i+1]`
of the comparison, which is evaluated at every surface.  `none` stands for a
subscript outside the vector. -/
def traceBodyChecked (sqrt : K → K) (U : Indeterminate K) (i : Nat) (s : TraceState K) :
    Option (TraceState K) := do
  let _ ← s.ld.lensThickness[i]?
  let _ ← s.ld.lensRadiusCurvature[i]?
  let _ ← s.ld.lensAperture[i]?
  let _ ← s.ld.lensIOR[i]?
  let _ ← s.ld.lensIOR[i + 1]?
  some (traceBody sqrt U i s)

/-- The first `n` iterations with bounds-checked subscripts. -/
def traceLoopChecked (sqrt : K → K) (U : Indeterminate K) :
    Nat → TraceState K → Option (TraceState K)
  | 0, s => some s
  | n + 1, s => (traceLoopChecked sqrt U n s).bind (traceBodyChecked sqrt U n)

/-- Function `traceThroughLensElements` with bounds-checked subscripts. -/
def traceThroughLensElementsChecked (sqrt : K → K) (U : Indeterminate K)
    (ray_origin ray_direction : AtVector K) (weight : K) (ld : Lensdata K)
    (_lensx _lensy : K) : Option (TraceState K) :=
  traceLoopChecked sqrt U ld.lensRadiusCurvature.length
    (traceInit U ray_origin ray_direction weight ld)

end Optics

/-! ## Image-distance solver -/

section Solver

variable {K : Type} [LinearOrderedField K]

/-- Arnold's `AtVector2` (also used for `AtPoint2`). -/
structure AtVector2 (K : Type) where
  x : K
  y : K

/-- The coefficient `A` of the line through the points `p` and `q`. -/
def lineA (p q : AtVector K) : K := q.y - p.y

/-- The coefficient `B` of the line through the points `p` and `q`. -/
def lineB (p q : AtVector K) : K := p.x - q.x

/-- The coefficient `C` of the line through the points `p` and `q`. -/
def lineC (p q : AtVector K) : K := lineA p q * p.x + lineB p q * p.y

/-- Function `lineLineIntersection(line1_origin, line1_direction, line2_origin,
line2_direction)`: each line is given by two of its points (the parameters
named `direction` are second points).  The two quotients by `delta` are
checked divisions. -/
def lineLineIntersection (line1_origin line1_direction line2_origin line2_direction :
    AtVector K) : Option (AtVector2 K) :=
  let A1 := line1_direction.y - line1_origin.y
  let B1 := line1_origin.x - line1_direction.x
  let C1 := A1 * line1_origin.x + B1 * line1_origin.y
  let A2 := line2_direction.y - line2_origin.y
  let B2 := line2_origin.x - line2_direction.x
  let C2 := A2 * line2_origin.x + B2 * line2_origin.y
  let delta := A1 * B2 - A2 * B1
  (checkedDiv (B2 * C1 - B1 * C2) delta).bind fun px =>
    (checkedDiv (A1 * C2 - A2 * C1) delta).map fun py => ⟨px, py⟩

/-- The values `calculateImageDistance` reads without having written them: the
local `imageDistance` (returned as it is when there is no surface) and the
local `axialEnd` (the source assigns `axialStart` twice and `axialEnd` never). -/
structure FocusIndeterminate (K : Type) where
  imageDistance : K
  axialEnd : AtVector K

/-- The variables live across the iterations of the loop of
`calculateImageDistance`; `imageDistance` is `none` once a division by a zero
`delta` produced it. -/
structure FocusState (K : Type) where
  ray_origin_focus : AtVector K
  ray_direction_focus : AtVector K
  summedThickness_focus : K
  ld : Lensdata K
  imageDistance : Option K

/-- The radius read for the surface processed by iteration `i` of
`calculateImageDistance`, started in state `s`: entry `size - 1 - i`, read after
the test-and-replace of entry `i`. -/
def focusRadius (i : Nat) (s : FocusState K) : K :=
  let n := s.ld.lensRadiusCurvature.length
  let lensRadiusCurvature :=
    if s.ld.lensRadiusCurvature.getD i 0 = 0 then s.ld.lensRadiusCurvature.set i 99999
    else s.ld.lensRadiusCurvature
  lensRadiusCurvature.getD (n - 1 - i) 0

/-- One iteration of the loop of `calculateImageDistance`. -/
def focusBody (sqrt : K → K) (U : FocusIndeterminate K) (i : Nat) (s : FocusState K) :
    FocusState K :=
  let n := s.ld.lensRadiusCurvature.length
  let summedThickness_focus :=
    if i = 0 then
      ((List.range n).map fun k => s.ld.lensThickness.getD k 0).foldl (· + ·)
        s.summedThickness_focus
    else s.summedThickness_focus
  let summedThickness_focus :=
    if i = 0 then summedThickness_focus
    else summedThickness_focus - s.ld.lensThickness.getD (n - i) 0
  let ld :=
    if s.ld.lensRadiusCurvature.getD i 0 = 0 then
      { s.ld with lensRadiusCurvature := s.ld.lensRadiusCurvature.set i 99999 }
    else s.ld
  let radius := focusRadius i s
  let sphere_center : AtVector K := ⟨summedThickness_focus - radius, 0, 0⟩
  let hit_point := raySphereIntersection sqrt s.ray_direction_focus s.ray_origin_focus
    sphere_center radius true
  let hit_point_normal := intersectionNormal sqrt hit_point sphere_center (-radius)
  let ray_direction_focus :=
    if i = 0 then
      calculateTransmissionVector sqrt 1 (ld.lensIOR.getD (n - 1 - i) 0)
        s.ray_direction_focus hit_point_normal
    else
      calculateTransmissionVector sqrt (ld.lensIOR.getD (n - i) 0)
        (ld.lensIOR.getD (n - i - 1) 0) s.ray_direction_focus hit_point_normal
  let ray_origin_focus := hit_point
  if i = n - 1 then
    let ray_direction_focus := calculateTransmissionVector sqrt
      (ld.lensIOR.getD (n - 1 - i) 0) 1 ray_direction_focus hit_point_normal
    let axialStart : AtVector K := ⟨99999, 0, 0⟩
    let axialEnd : AtVector K := U.axialEnd
    let lineDirection : AtVector K :=
      ⟨ray_origin_focus.x + ray_direction_focus.x,
       ray_origin_focus.y + ray_direction_focus.y, 0⟩
    { ray_origin_focus := ray_origin_focus, ray_direction_focus := ray_direction_focus,
      summedThickness_focus := summedThickness_focus, ld := ld,
      imageDistance :=
        (lineLineIntersection axialStart axialEnd ray_origin_focus lineDirection).map
          fun p => p.x }
  else
    { ray_origin_focus := ray_origin_focus, ray_direction_focus := ray_direction_focus,
      summedThickness_focus := summedThickness_focus, ld := ld,
      imageDistance := s.imageDistance }

/-- The state after the first `n` iterations of the loop. -/
def focusLoop (sqrt : K → K) (U : FocusIndeterminate K) : Nat → FocusState K → FocusState K
  | 0, s => s
  | n + 1, s => focusBody sqrt U n (focusLoop sqrt U n s)

/-- The state in which the loop of `calculateImageDistance` starts. -/
def focusInit (U : FocusIndeterminate K) (objectDistance : K) (ld : Lensdata K) :
    FocusState K :=
  { ray_origin_focus := ⟨objectDistance, 0, 0⟩,
    ray_direction_focus := ⟨-objectDistance, 20, 0⟩,
    summedThickness_focus := 0, ld := ld, imageDistance := some U.imageDistance }

/-- Function `calculateImageDistance(objectDistance, ld)`: the returned
`imageDistance` (`none` for a division by a zero `delta`) and `ld` as the call
leaves it. -/
def calculateImageDistance (sqrt : K → K) (U : FocusIndeterminate K) (objectDistance : K)
    (ld : Lensdata K) : Option K × Lensdata K :=
  let s := focusLoop sqrt U ld.lensRadiusCurvature.length (focusInit U objectDistance ld)
  (s.imageDistance, s.ld)

end Solver

/-! ## Camera ray generator -/

section Camera

variable {K : Type} [LinearOrderedField K]

/-- The node parameters read through the `params[...]` macros. -/
structure CameraParams (K : Type) where
  sensorWidth : K
  sensorHeight : K
  focalLength : K
  useDof : Bool
  fStop : K
  focalDistance : K
  opticalVignettingDistance : K
  opticalVignettingRadius : K
  highlightWidth : K
  highlightStrength : K
  useImage : Bool
  exposureControl : K
  kolb : Bool

/-- The scalar members of `struct cameraData`. -/
structure cameraData (K : Type) where
  fov : K
  tan_fov : K
  apertureRadius : K

/-- The members of Arnold's `AtCameraInput` that `camera_create_ray` reads. -/
structure AtCameraInput (K : Type) where
  sx : K
  sy : K
  lensx : K
  lensy : K

/-- The members of Arnold's `AtCameraOutput` that `camera_create_ray` touches. -/
structure AtCameraOutput (K : Type) where
  origin : AtVector K
  dir : AtVector K
  weight : K

/-- The exposure step at the end of `camera_create_ray`: the new value of
`output->weight`. -/
def exposureStep (exposureControl weight : K) : K :=
  let e2 := exposureControl * exposureControl
  if exposureControl > 0 then weight * (1 + e2)
  else if exposureControl < 0 then weight * (1 / (1 + e2))
  else weight

/-- The macro `camera_create_ray`: the output and the global `ld` as the call
leaves them.  The block under `if (tmpUseDof == true)` is passed as the
parameter `dofBlock`: `tmpUseDof` is the constant `false`, so the block is
never run; the parameter `_useDof` is not read.  `none` stands for the NaN
direction that `ConcentricSampleDisk` produces at the centre of the square. -/
def camera_create_ray (sqrt cos sin : K → K) (AI_PI : K) (U : Indeterminate K)
    (dofBlock : AtCameraOutput K → AtCameraOutput K)
    (params : CameraParams K) (camera : cameraData K) (ld : Lensdata K)
    (input : AtCameraInput K) (output : AtCameraOutput K) :
    Option (AtCameraOutput K × Lensdata K) :=
  let output :=
    if !params.kolb then
      let p : AtVector K := ⟨input.sx * camera.tan_fov, input.sy * camera.tan_fov, 1⟩
      let dir := AiV3Normalize sqrt (p - output.origin)
      let output := { output with dir := ⟨dir.x, dir.y, dir.z * (-1)⟩ }
      let tmpUseDof := false
      if tmpUseDof = true then dofBlock output else output
    else output
  let traced : Option (AtCameraOutput K × Lensdata K) :=
    if params.kolb then
      let origin : AtVector K := ⟨input.sx * 36, input.sy * 24, 0⟩
      (ConcentricSampleDisk cos sin AI_PI input.lensx input.lensy).map fun lens =>
        let dir : AtVector K := ⟨lens.1, lens.2, ld.apertureDistance⟩
        let s := traceThroughLensElements sqrt U origin dir output.weight ld
          input.lensx input.lensy
        ({ origin := s.ray_origin, dir := s.ray_direction * (-1 : K), weight := s.weight }, s.ld)
    else some (output, ld)
  traced.map fun r =>
    ({ r.1 with weight := exposureStep params.exposureControl r.1.weight }, r.2)

end Camera


section Examples

variable {K : Type} [LinearOrderedField K]

/-- Indeterminate values that are all zero. -/
def zeroIndeterminate : Indeterminate K :=
  { summedThickness := 0, lensElementAperture := false,
    tmpRayDirection := fun _ => ⟨0, 0, 0⟩, lensIORPastEnd := 0 }

/-- One spherical surface of radius 10 and clear aperture 10, centred at the
origin. -/
def singleLens : Lensdata K :=
  { lensRadiusCurvature := [10], lensThickness := [10], lensIOR := [3 / 2],
    lensAperture := [10], apertureDistance := 0, vignettedRays := 0, succesRays := 0,
    xres := 0, yres := 0 }

/-- An aperture stop (stored radius 0, clear aperture 100) at the rear datum,
followed by a spherical surface of radius 65 and clear aperture 60. -/
def stopThenLens : Lensdata K :=
  { lensRadiusCurvature := [0, 65], lensThickness := [0, 65], lensIOR := [1, 39 / 25],
    lensAperture := [100, 60], apertureDistance := 0, vignettedRays := 0, succesRays := 0,
    xres := 0, yres := 0 }

/-- A spherical surface of radius 65 at the rear, followed by a flat surface
(stored radius 0) at the front. -/
def lensThenStop : Lensdata K :=
  { lensRadiusCurvature := [65, 0], lensThickness := [65, 0], lensIOR := [39 / 25, 1],
    lensAperture := [60, 100], apertureDistance := 0, vignettedRays := 0, succesRays := 0,
    xres := 0, yres := 0 }

/-- One spherical surface of radius 5 and clear aperture 40, centred at the
origin. -/
def smallLens : Lensdata K :=
  { lensRadiusCurvature := [5], lensThickness := [5], lensIOR := [3 / 2],
    lensAperture := [40], apertureDistance := 0, vignettedRays := 0, succesRays := 0,
    xres := 0, yres := 0 }

/-- One spherical surface of radius -5 with index of refraction 1, its vertex
at axial position 5. -/
def airSurface : Lensdata K :=
  { lensRadiusCurvature := [-5], lensThickness := [5], lensIOR := [1],
    lensAperture := [40], apertureDistance := 0, vignettedRays := 0, succesRays := 0,
    xres := 0, yres := 0 }

/-- A single aperture stop (stored radius 0) with clear aperture 30 at the rear
datum. -/
def narrowStop : Lensdata K :=
  { lensRadiusCurvature := [0], lensThickness := [0], lensIOR := [1],
    lensAperture := [30], apertureDistance := 0, vignettedRays := 0, succesRays := 0,
    xres := 0, yres := 0 }

/-- Two spherical surfaces with the same index of refraction behind them. -/
def equalIndexPair : Lensdata K :=
  { lensRadiusCurvature := [10, 10], lensThickness := [10, 5], lensIOR := [3 / 2, 3 / 2],
    lensAperture := [40, 40], apertureDistance := 0, vignettedRays := 0, succesRays := 0,
    xres := 0, yres := 0 }

/-- A function that is `v` on negative arguments and `sqrt` elsewhere: every
value the square root of a negative discriminant could be replaced by. -/
def sqrtOr (sqrt : K → K) (v : K) (x : K) : K :=
  if x < 0 then v else sqrt x

end Examples

section CameraExamples

variable {K : Type} [LinearOrderedField K]

/-- Thin-lens mode with exposure control `e`. -/
def thinLensParams (e : K) : CameraParams K :=
  { sensorWidth := 36 / 10, sensorHeight := 24 / 10, focalLength := 65, useDof := true,
    fStop := 14 / 10, focalDistance := 110, opticalVignettingDistance := 0,
    opticalVignettingRadius := 0, highlightWidth := 2 / 10, highlightStrength := 10,
    useImage := false, exposureControl := e, kolb := false }

/-- Camera data with a unit field-of-view tangent. -/
def unitCamera : cameraData K :=
  { fov := 0, tan_fov := 1, apertureRadius := 1 }

/-- The sample at the centre of the sensor and of the lens square. -/
def centreInput : AtCameraInput K :=
  { sx := 0, sy := 0, lensx := 1 / 2, lensy := 1 / 2 }

/-- The output record as the renderer hands it over: origin at the camera
position, weight `1`. -/
def freshOutput : AtCameraOutput K :=
  { origin := ⟨0, 0, 0⟩, dir := ⟨0, 0, 0⟩, weight := 1 }

end CameraExamples

/-! # Theorems -/

namespace imageData

/-! ### Indexing lemmas -/

theorem getD_map_range {α : Type} (f : Nat → α) (n i : Nat) (d : α) (h : i < n) :
    ((List.range n).map f).getD i d = f i := by
  rw [List.getD_eq_getElem _ _ (by simpa using h)]
  simp

theorem foldl_add_eq_sum (l : List ℚ) : l.foldl (· + ·) 0 = l.sum :=
  List.sum_eq_foldl.symm

theorem length_cumulative (l : List ℚ) : ∀ p, (cumulative p l).length = l.length := by
  induction l with
  | nil => intro p; rfl
  | cons v vs ih => intro p; simp [cumulative, ih]

theorem getD_cumulative (l : List ℚ) : ∀ (p : ℚ) (k : Nat), k < l.length →
    (cumulative p l).getD k 0 = p + (l.take (k + 1)).sum := by
  induction l with
  | nil => intro p k hk; simp at hk
  | cons v vs ih =>
    intro p k hk
    cases k with
    | zero => simp [cumulative]
    | succ k =>
      have hk2 : k < vs.length := by simpa using hk
      simp only [cumulative, List.getD_cons_succ, List.take_succ_cons, List.sum_cons]
      rw [ih (p + v) k hk2]
      ring

theorem sum_take_le_sum_take (l : List ℚ) (hl : ∀ v ∈ l, 0 ≤ v) :
    ∀ i j : Nat, i ≤ j → (l.take i).sum ≤ (l.take j).sum := by
  induction l with
  | nil => intro i j _; simp
  | cons v vs ih =>
    intro i j hij
    have hv : 0 ≤ v := hl v (List.mem_cons_self _ _)
    have hvs : ∀ w ∈ vs, 0 ≤ w := fun w hw => hl w (List.mem_cons_of_mem _ hw)
    cases i with
    | zero =>
      simp only [List.take_zero, List.sum_nil]
      exact List.sum_nonneg (fun w hw => hl w (List.mem_of_mem_take hw))
    | succ i =>
      cases j with
      | zero => omega
      | succ j =>
        simp only [List.take_succ_cons, List.sum_cons]
        have := ih hvs i j (by omega)
        linarith

theorem sum_take_succ (l : List ℚ) (i : Nat) (h : i < l.length) :
    (l.take (i + 1)).sum = (l.take i).sum + l.getD i 0 := by
  rw [List.take_succ, List.sum_append, List.getD_eq_getElem _ _ h]
  simp [List.getElem?_eq_getElem h]


/-! ### The binary search on a non-decreasing range -/

theorem upperBoundLoop_spec (a : List ℚ) (v : ℚ)
    (hmono : ∀ i j : Nat, i ≤ j → j < a.length → a.getD i 0 ≤ a.getD j 0) :
    ∀ (fuel first len : Nat), len ≤ fuel → first + len ≤ a.length →
      (∀ i, i < first → a.getD i 0 ≤ v) →
      (∀ i, first + len ≤ i → i < a.length → v < a.getD i 0) →
      upperBoundLoop a v fuel first len ≤ a.length
        ∧ (∀ i, i < upperBoundLoop a v fuel first len → a.getD i 0 ≤ v)
        ∧ (∀ i, upperBoundLoop a v fuel first len ≤ i → i < a.length → v < a.getD i 0) := by
  intro fuel
  induction fuel with
  | zero =>
    intro first len hlen hwin hlo hhi
    have h0 : len = 0 := by omega
    subst h0
    simp only [upperBoundLoop]
    exact ⟨by omega, hlo, fun i hi hia => hhi i (by omega) hia⟩
  | succ fuel ih =>
    intro first len hlen hwin hlo hhi
    unfold upperBoundLoop
    by_cases h0 : len = 0
    · subst h0
      simp only [if_true]
      exact ⟨by omega, hlo, fun i hi hia => hhi i (by omega) hia⟩
    · simp only [h0, if_false]
      have hhalf : len / 2 < len := Nat.div_lt_self (Nat.pos_of_ne_zero h0) (by norm_num)
      by_cases hv : v < a.getD (first + len / 2) 0
      · simp only [hv, if_true]
        apply ih first (len / 2) (by omega) (by omega) hlo
        intro i hi hia
        exact lt_of_lt_of_le hv (hmono _ _ hi hia)
      · simp only [hv, if_false]
        apply ih (first + len / 2 + 1) (len - len / 2 - 1) (by omega) (by omega)
        · intro i hi
          exact le_trans (hmono i (first + len / 2) (by omega) (by omega)) (not_lt.mp hv)
        · intro i hi hia
          exact hhi i (by omega) hia

theorem upper_bound_spec (a : List ℚ) (v : ℚ)
    (hmono : ∀ i j : Nat, i ≤ j → j < a.length → a.getD i 0 ≤ a.getD j 0) :
    upper_bound a v ≤ a.length
      ∧ (∀ i, i < upper_bound a v → a.getD i 0 ≤ v)
      ∧ (∀ i, upper_bound a v ≤ i → i < a.length → v < a.getD i 0) := by
  unfold upper_bound
  apply upperBoundLoop_spec a v hmono a.length 0 a.length (le_refl _) (by omega)
  · intro i hi; omega
  · intro i hi hia; omega

/-- On a non-decreasing range the search returns the unique partition point. -/
theorem upper_bound_eq_iff (a : List ℚ) (v : ℚ)
    (hmono : ∀ i j : Nat, i ≤ j → j < a.length → a.getD i 0 ≤ a.getD j 0)
    (p : Nat) (hp : p ≤ a.length) :
    upper_bound a v = p ↔
      (∀ i, i < p → a.getD i 0 ≤ v) ∧ (∀ i, p ≤ i → i < a.length → v < a.getD i 0) := by
  obtain ⟨h1, h2, h3⟩ := upper_bound_spec a v hmono
  constructor
  · intro h; subst h; exact ⟨h2, h3⟩
  · rintro ⟨hlo, hhi⟩
    rcases Nat.lt_trichotomy (upper_bound a v) p with h | h | h
    · have := hlo _ h
      have := h3 _ (le_refl _) (by omega)
      linarith
    · exact h
    · have := h2 _ h
      have := hhi _ (le_refl _) (by omega)
      linarith


/-! ### Inverting a cumulative table -/

theorem cumulative_mono (w : List ℚ) (hw : ∀ v ∈ w, 0 ≤ v) :
    ∀ i j : Nat, i ≤ j → j < (cumulative 0 w).length →
      (cumulative 0 w).getD i 0 ≤ (cumulative 0 w).getD j 0 := by
  intro i j hij hj
  rw [length_cumulative] at hj
  rw [getD_cumulative w 0 i (by omega), getD_cumulative w 0 j hj]
  have := sum_take_le_sum_take w hw (i + 1) (j + 1) (by omega)
  linarith

theorem upper_bound_cumulative_lt (w : List ℚ) (hw : ∀ v ∈ w, 0 ≤ v) (u : ℚ)
    (hu0 : 0 ≤ u) (hu : u < w.sum) : upper_bound (cumulative 0 w) u < w.length := by
  obtain ⟨h1, h2, _⟩ := upper_bound_spec (cumulative 0 w) u (cumulative_mono w hw)
  rw [length_cumulative] at h1
  by_contra hcon
  have hp : upper_bound (cumulative 0 w) u = w.length := by omega
  rcases Nat.eq_zero_or_pos w.length with h0 | hpos
  · have hnil : w = [] := List.length_eq_zero.mp h0
    subst hnil
    simp only [List.sum_nil] at hu
    linarith
  · have h := h2 (w.length - 1) (by omega)
    rw [getD_cumulative w 0 _ (by omega)] at h
    have e : w.length - 1 + 1 = w.length := by omega
    rw [e, List.take_length] at h
    linarith

theorem upper_bound_cumulative_eq_iff (w : List ℚ) (hw : ∀ v ∈ w, 0 ≤ v) (u : ℚ)
    (hu0 : 0 ≤ u) (i : Nat) (hi : i < w.length) :
    upper_bound (cumulative 0 w) u = i ↔
      (w.take i).sum ≤ u ∧ u < (w.take (i + 1)).sum := by
  rw [upper_bound_eq_iff (cumulative 0 w) u (cumulative_mono w hw) i
    (by rw [length_cumulative]; omega)]
  rw [length_cumulative]
  constructor
  · rintro ⟨hlo, hhi⟩
    constructor
    · cases i with
      | zero => simpa using hu0
      | succ k =>
        have := hlo k (by omega)
        rw [getD_cumulative w 0 k (by omega)] at this
        linarith
    · have := hhi i (le_refl _) hi
      rw [getD_cumulative w 0 i hi] at this
      linarith
  · rintro ⟨hlo, hhi⟩
    constructor
    · intro k hk
      rw [getD_cumulative w 0 k (by omega)]
      have := sum_take_le_sum_take w hw (k + 1) i (by omega)
      linarith
    · intro k hk hkl
      rw [getD_cumulative w 0 k hkl]
      have := sum_take_le_sum_take w hw (i + 1) (k + 1) (by omega)
      linarith

/-- The values of `u` that make the search over the running sums of
`idx.map key` land on the position holding `ρ` form the interval `[a, b)` with
`b - a = key ρ`. -/
theorem select_interval (idx : List Nat) (key : Nat → ℚ) (hnd : idx.Nodup)
    (hkey : ∀ k ∈ idx, 0 ≤ key k) (ρ : Nat) (hρ : ρ ∈ idx) :
    ∃ a b : ℚ, 0 ≤ a ∧ a ≤ b ∧ b ≤ (idx.map key).sum ∧ b - a = key ρ ∧
      ∀ u : ℚ, 0 ≤ u → u < (idx.map key).sum →
        (idx[upper_bound (cumulative 0 (idx.map key)) u]? = some ρ ↔ a ≤ u ∧ u < b) := by
  obtain ⟨i, hi, hiρ⟩ := List.getElem_of_mem hρ
  have hw : ∀ v ∈ idx.map key, 0 ≤ v := by
    intro v hv
    obtain ⟨k, hk, rfl⟩ := List.mem_map.mp hv
    exact hkey k hk
  have hlen : (idx.map key).length = idx.length := List.length_map _ _
  have hsucc := sum_take_succ (idx.map key) i (by omega)
  have hget : (idx.map key).getD i 0 = key ρ := by
    rw [List.getD_eq_getElem _ _ (by omega)]
    simp [hiρ]
  refine ⟨((idx.map key).take i).sum, ((idx.map key).take (i + 1)).sum, ?_, ?_, ?_, ?_, ?_⟩
  · exact List.sum_nonneg (fun v hv => hw v (List.mem_of_mem_take hv))
  · exact sum_take_le_sum_take _ hw i (i + 1) (by omega)
  · have := sum_take_le_sum_take _ hw (i + 1) (idx.map key).length (by omega)
    rwa [List.take_length] at this
  · rw [hsucc, hget]; ring
  · intro u hu0 hu1
    have hp := upper_bound_cumulative_lt (idx.map key) hw u hu0 hu1
    rw [hlen] at hp
    rw [List.getElem?_eq_getElem hp, ← upper_bound_cumulative_eq_iff (idx.map key) hw u hu0 i
      (by omega)]
    constructor
    · intro h
      have h2 : idx[upper_bound (cumulative 0 (idx.map key)) u] = idx[i] := by
        rw [hiρ]; exact Option.some.inj h
      exact (List.Nodup.getElem_inj_iff hnd).mp h2
    · intro h
      simp only [h, hiρ]


/-! ### Flat row-major tables -/

theorem length_flatMap_range {α : Type} (f : Nat → List α) (W : Nat) :
    ∀ H : Nat, (∀ r, r < H → (f r).length = W) →
      ((List.range H).flatMap f).length = H * W := by
  intro H
  induction H with
  | zero => intro _; simp
  | succ H ih =>
    intro hf
    rw [List.range_succ, List.flatMap_append, List.length_append,
      ih (fun r hr => hf r (by omega))]
    simp only [List.flatMap_cons, List.flatMap_nil, List.append_nil]
    rw [hf H (by omega)]
    ring

theorem slice_flatMap_range {α : Type} (f : Nat → List α) (W : Nat) :
    ∀ H : Nat, (∀ r, r < H → (f r).length = W) → ∀ r, r < H →
      (((List.range H).flatMap f).drop (r * W)).take W = f r := by
  intro H
  induction H with
  | zero => intro _ r hr; omega
  | succ H ih =>
    intro hf r hr
    have hlen := length_flatMap_range f W H (fun r hr => hf r (by omega))
    rw [List.range_succ, List.flatMap_append]
    simp only [List.flatMap_cons, List.flatMap_nil, List.append_nil]
    by_cases hrH : r < H
    · have hle : r * W + W ≤ ((List.range H).flatMap f).length := by
        rw [hlen]
        have : (r + 1) * W ≤ H * W := Nat.mul_le_mul_right W (by omega)
        linarith [Nat.succ_mul r W]
      rw [List.drop_append_of_le_length (by omega),
        List.take_append_of_le_length (by rw [List.length_drop]; omega)]
      exact ih (fun r hr => hf r (by omega)) r hrH
    · have hrr : r = H := by omega
      subst hrr
      rw [← hlen, List.drop_left, ← hf r (by omega), List.take_length]

theorem getD_of_slice {α : Type} (l s : List α) (first W k : Nat) (d : α)
    (hs : (l.drop first).take W = s) (hk : k < s.length) :
    l.getD (first + k) d = s.getD k d := by
  subst hs
  have hk2 : k < W ∧ k < l.length - first := by
    simpa [List.length_take, List.length_drop] using hk
  rw [List.getD_eq_getElem?_getD, List.getD_eq_getElem?_getD, List.getElem?_take,
    if_pos hk2.1, List.getElem?_drop]

theorem getElem?_of_slice {α : Type} (l s : List α) (first W k : Nat)
    (hs : (l.drop first).take W = s) (hk : k < s.length) :
    l[first + k]? = s[k]? := by
  subst hs
  have hk2 : k < W ∧ k < l.length - first := by
    simpa [List.length_take, List.length_drop] using hk
  simp [List.getElem?_take, hk2.1, List.getElem?_drop]

theorem map_range_getD {α : Type} (l : List Nat) (g : Nat → α) (n : Nat) (hn : n = l.length) :
    (List.range n).map (fun i => g (l.getD i 0)) = l.map g := by
  subst hn
  apply List.ext_getElem
  · simp
  · intro i h1 h2
    have hi : i < l.length := by simpa using h2
    simp [List.getElem?_eq_getElem hi]

/-- Summing a row-major table row by row gives the sum of the table. -/
theorem sum_rows (f : Nat → ℚ) (W : Nat) : ∀ H : Nat,
    ((List.range H).map fun r => ((List.range W).map fun c => f (r * W + c)).sum).sum
      = ((List.range (W * H)).map f).sum := by
  intro H
  induction H with
  | zero => simp
  | succ H ih =>
    rw [List.range_succ, List.map_append, List.sum_append, ih]
    have e : W * (H + 1) = W * H + W := by ring
    rw [e, List.range_add, List.map_append, List.sum_append]
    simp only [List.map_cons, List.map_nil, List.sum_cons, List.sum_nil, add_zero,
      List.map_map]
    congr 2
    apply List.map_congr_left
    intro c _
    simp only [Function.comp]
    congr 1
    ring


/-! ### Facts about the temporaries of `bokehProbability` -/

theorem index_lt (img : imageData) (r c : Nat) (hr : r < img.y) (hc : c < img.x) :
    r * img.x + c < img.x * img.y := by
  have h1 : (r + 1) * img.x ≤ img.y * img.x := Nat.mul_le_mul_right _ (by omega)
  have h2 : (r + 1) * img.x = r * img.x + img.x := by ring
  have h3 : img.y * img.x = img.x * img.y := Nat.mul_comm _ _
  omega

theorem totalValue_eq_sum (img : imageData) :
    totalValue img = ((List.range img.y).map (rowLuminance img)).sum := by
  unfold totalValue pixelValues
  rw [foldl_add_eq_sum, ← sum_rows (pixelLuminance img) img.x img.y]
  rfl

theorem getD_normalizedPixelValues (inv : ℚ) (img : imageData) (r c : Nat)
    (hr : r < img.y) (hc : c < img.x) :
    (normalizedPixelValues inv img).getD (r * img.x + c) 0 = luminance img r c * inv := by
  unfold normalizedPixelValues pixelValues
  rw [List.map_map, getD_map_range _ _ _ _ (index_lt img r c hr hc)]
  rfl

theorem getD_summedRowValues (inv : ℚ) (img : imageData) (r : Nat) (hr : r < img.y) :
    (summedRowValues inv img).getD r 0 = rowLuminance img r * inv := by
  unfold summedRowValues
  rw [getD_map_range _ _ _ _ hr, foldl_add_eq_sum]
  unfold rowLuminance
  rw [← List.sum_map_mul_right]
  congr 1
  apply List.map_congr_left
  intro c hc
  exact getD_normalizedPixelValues inv img r c hr (List.mem_range.mp hc)

theorem length_normalizedValuesPerRow (inv : ℚ) (img : imageData) :
    (normalizedValuesPerRow inv img).length = img.y * img.x := by
  unfold normalizedValuesPerRow
  apply length_flatMap_range
  intro r _
  simp

theorem getD_normalizedValuesPerRow (inv : ℚ) (img : imageData) (r c : Nat)
    (hr : r < img.y) (hc : c < img.x) :
    (normalizedValuesPerRow inv img).getD (r * img.x + c) 0
      = luminance img r c * inv / (rowLuminance img r * inv) := by
  have hs := slice_flatMap_range (fun r => (List.range img.x).map fun c =>
      if (normalizedPixelValues inv img).getD (r * img.x + c) 0 ≠ 0
          ∧ (summedRowValues inv img).getD r 0 ≠ 0 then
        (normalizedPixelValues inv img).getD (r * img.x + c) 0
          / (summedRowValues inv img).getD r 0
      else 0) img.x img.y (fun r _ => by simp) r hr
  have h := getD_of_slice (normalizedValuesPerRow inv img) _ (r * img.x) img.x c 0 hs
    (by simpa using hc)
  rw [h, getD_map_range _ _ _ _ hc, getD_normalizedPixelValues inv img r c hr hc,
    getD_summedRowValues inv img r hr]
  by_cases h1 : luminance img r c * inv ≠ 0 ∧ rowLuminance img r * inv ≠ 0
  · rw [if_pos h1]
  · rw [if_neg h1]
    rcases not_and_or.mp h1 with h2 | h2
    · rw [not_not.mp h2, zero_div]
    · rw [not_not.mp h2, div_zero]


/-! ### The row search -/

theorem rowLuminance_nonneg (img : imageData) (r : Nat)
    (hnn : ∀ c, c < img.x → 0 ≤ luminance img r c) : 0 ≤ rowLuminance img r := by
  unfold rowLuminance
  apply List.sum_nonneg
  intro v hv
  obtain ⟨c, hc, rfl⟩ := List.mem_map.mp hv
  exact hnn c (List.mem_range.mp hc)

theorem luminance_le_rowLuminance (img : imageData) (r c : Nat) (hc : c < img.x)
    (hnn : ∀ c, c < img.x → 0 ≤ luminance img r c) :
    luminance img r c ≤ rowLuminance img r := by
  unfold rowLuminance
  apply List.single_le_sum
  · intro v hv
    obtain ⟨c, hc, rfl⟩ := List.mem_map.mp hv
    exact hnn c (List.mem_range.mp hc)
  · exact List.mem_map.mpr ⟨c, List.mem_range.mpr hc, rfl⟩

theorem perm_buildRowIndices (S : StdSort) (inv : ℚ) (img : imageData) :
    (buildRowIndices S inv img).Perm (List.range img.y) :=
  S.perm _ _

theorem length_buildRowIndices (S : StdSort) (inv : ℚ) (img : imageData) :
    (buildRowIndices S inv img).length = img.y := by
  rw [(perm_buildRowIndices S inv img).length_eq, List.length_range]

theorem buildCdfRow_eq (S : StdSort) (inv : ℚ) (img : imageData) :
    buildCdfRow S inv img = cumulative 0
      ((buildRowIndices S inv img).map fun k => (summedRowValues inv img).getD k 0) := by
  unfold buildCdfRow
  rw [← map_range_getD (buildRowIndices S inv img)
    (fun k => (summedRowValues inv img).getD k 0) img.y (length_buildRowIndices S inv img).symm]

theorem sum_row_weights (S : StdSort) (img : imageData) (hT : 0 < totalValue img) :
    ((buildRowIndices S (1 / totalValue img) img).map fun k =>
      (summedRowValues (1 / totalValue img) img).getD k 0).sum = 1 := by
  rw [((perm_buildRowIndices S (1 / totalValue img) img).map _).sum_eq]
  have h : (List.range img.y).map (fun k => (summedRowValues (1 / totalValue img) img).getD k 0)
      = (List.range img.y).map (fun k => rowLuminance img k * (1 / totalValue img)) := by
    apply List.map_congr_left
    intro k hk
    exact getD_summedRowValues _ img k (List.mem_range.mp hk)
  rw [h, List.sum_map_mul_right, ← totalValue_eq_sum]
  field_simp

/-- The values of `randomNumberRow` in `[0,1)` for which the row search returns
row `ρ` form an interval `[a, b)` of length `rowLuminance ρ / totalValue`. -/
theorem row_interval (S : StdSort) (img : imageData)
    (hnn : ∀ r c, r < img.y → c < img.x → 0 ≤ luminance img r c)
    (hT : 0 < totalValue img) (ρ : Nat) (hρ : ρ < img.y) :
    ∃ a b : ℚ, 0 ≤ a ∧ a ≤ b ∧ b ≤ 1 ∧ b - a = rowLuminance img ρ / totalValue img ∧
      ∀ u : ℚ, 0 ≤ u → u < 1 →
        (bokehSampleRow (buildTables S (1 / totalValue img) img) u = some ρ
          ↔ a ≤ u ∧ u < b) := by
  have hperm := perm_buildRowIndices S (1 / totalValue img) img
  have hlen := length_buildRowIndices S (1 / totalValue img) img
  have hinv : 0 < 1 / totalValue img := by positivity
  have hkey : ∀ k ∈ buildRowIndices S (1 / totalValue img) img,
      0 ≤ (summedRowValues (1 / totalValue img) img).getD k 0 := by
    intro k hk
    have hk2 : k < img.y := List.mem_range.mp (hperm.mem_iff.mp hk)
    rw [getD_summedRowValues _ img k hk2]
    exact mul_nonneg (rowLuminance_nonneg img k (fun c hc => hnn k c hk2 hc)) hinv.le
  obtain ⟨a, b, ha, hab, hb, hba, hsel⟩ :=
    select_interval (buildRowIndices S (1 / totalValue img) img)
      (fun k => (summedRowValues (1 / totalValue img) img).getD k 0)
      (hperm.nodup_iff.mpr (List.nodup_range _)) hkey ρ
      (hperm.mem_iff.mpr (List.mem_range.mpr hρ))
  rw [sum_row_weights S img hT] at hb hsel
  refine ⟨a, b, ha, hab, hb, ?_, ?_⟩
  · rw [hba, getD_summedRowValues _ img ρ hρ]
    field_simp
  · intro u hu0 hu1
    rw [← hsel u hu0 hu1]
    have hcl : (buildCdfRow S (1 / totalValue img) img).length = img.y := by
      rw [buildCdfRow_eq, length_cumulative, List.length_map, hlen]
    have hp := upper_bound_cumulative_lt _
      (fun v hv => by
        obtain ⟨k, hk, rfl⟩ := List.mem_map.mp hv
        exact hkey k hk) u hu0 (by rw [sum_row_weights S img hT]; exact hu1)
    rw [List.length_map, hlen] at hp
    rw [← buildCdfRow_eq] at hp ⊢
    unfold bokehSampleRow slice
    simp only [buildTables, Nat.zero_add, hcl, le_refl, if_true, List.drop_zero]
    have htake : List.take img.y (buildCdfRow S (1 / totalValue img) img)
        = buildCdfRow S (1 / totalValue img) img := by
      rw [← hcl, List.take_length]
    simp only [Option.bind_eq_bind, Option.some_bind, htake, ge_iff_le,
      if_neg (not_le.mpr hp)]


/-! ### The column search -/

theorem perm_sortedRow (S : StdSort) (inv : ℚ) (img : imageData) (r : Nat) :
    (S.sort (normalizedValuesPerRow inv img) (List.range' (r * img.x) img.x)).Perm
      ((List.range img.x).map fun c => r * img.x + c) := by
  have h := S.perm (normalizedValuesPerRow inv img) (List.range' (r * img.x) img.x)
  exact h.trans (List.Perm.of_eq (List.range'_eq_map_range _ _))

theorem length_sortedRow (S : StdSort) (inv : ℚ) (img : imageData) (r : Nat) :
    (S.sort (normalizedValuesPerRow inv img) (List.range' (r * img.x) img.x)).length
      = img.x := by
  rw [(perm_sortedRow S inv img r).length_eq, List.length_map, List.length_range]

theorem slice_buildColumnIndices (S : StdSort) (inv : ℚ) (img : imageData) (r : Nat)
    (hr : r < img.y) :
    ((buildColumnIndices S inv img).drop (r * img.x)).take img.x
      = S.sort (normalizedValuesPerRow inv img) (List.range' (r * img.x) img.x) :=
  slice_flatMap_range
    (fun r => S.sort (normalizedValuesPerRow inv img) (List.range' (r * img.x) img.x))
    img.x img.y (fun r _ => length_sortedRow S inv img r) r hr

theorem length_buildCdfColumn (S : StdSort) (inv : ℚ) (img : imageData) :
    (buildCdfColumn S inv img).length = img.y * img.x := by
  unfold buildCdfColumn
  apply length_flatMap_range
  intro r _
  rw [length_cumulative, List.length_map, List.length_range]

theorem slice_buildCdfColumn (S : StdSort) (inv : ℚ) (img : imageData) (r : Nat)
    (hr : r < img.y) :
    ((buildCdfColumn S inv img).drop (r * img.x)).take img.x
      = cumulative 0
          ((S.sort (normalizedValuesPerRow inv img) (List.range' (r * img.x) img.x)).map
            fun k => (normalizedValuesPerRow inv img).getD k 0) := by
  have h := slice_flatMap_range
    (fun r => cumulative 0 ((List.range img.x).map fun c =>
      (normalizedValuesPerRow inv img).getD
        ((buildColumnIndices S inv img).getD (r * img.x + c) 0) 0))
    img.x img.y
    (fun r _ => by rw [length_cumulative, List.length_map, List.length_range]) r hr
  unfold buildCdfColumn
  rw [h]
  show cumulative 0 _ = cumulative 0 _
  congr 1
  rw [← map_range_getD
    (S.sort (normalizedValuesPerRow inv img) (List.range' (r * img.x) img.x))
    (fun k => (normalizedValuesPerRow inv img).getD k 0) img.x
    (length_sortedRow S inv img r).symm]
  apply List.map_congr_left
  intro c hc
  have hc2 : c < img.x := List.mem_range.mp hc
  rw [getD_of_slice (buildColumnIndices S inv img) _ (r * img.x) img.x c 0
    (slice_buildColumnIndices S inv img r hr) (by rw [length_sortedRow]; exact hc2)]

theorem sum_column_weights (S : StdSort) (inv : ℚ) (img : imageData) (r : Nat)
    (hr : r < img.y) (hinv : inv ≠ 0) (hrow : rowLuminance img r ≠ 0) :
    ((S.sort (normalizedValuesPerRow inv img) (List.range' (r * img.x) img.x)).map
      fun k => (normalizedValuesPerRow inv img).getD k 0).sum = 1 := by
  rw [((perm_sortedRow S inv img r).map _).sum_eq, List.map_map]
  have h : (List.range img.x).map
        ((fun k => (normalizedValuesPerRow inv img).getD k 0) ∘ fun c => r * img.x + c)
      = (List.range img.x).map (fun c => luminance img r c * (1 / rowLuminance img r)) := by
    apply List.map_congr_left
    intro c hc
    simp only [Function.comp]
    rw [getD_normalizedValuesPerRow inv img r c hr (List.mem_range.mp hc)]
    field_simp
    ring
  rw [h, List.sum_map_mul_right]
  unfold rowLuminance at hrow ⊢
  field_simp

/-- Within a row `ρ` of positive luminance, the values of `randomNumberColumn`
in `[0,1)` for which the column search returns the pixel in column `c` form an
interval `[a, b)` of length `luminance ρ c / rowLuminance ρ`. -/
theorem column_interval (S : StdSort) (img : imageData)
    (hnn : ∀ r c, r < img.y → c < img.x → 0 ≤ luminance img r c)
    (hT : 0 < totalValue img) (ρ c : Nat) (hρ : ρ < img.y) (hc : c < img.x)
    (hrow : 0 < rowLuminance img ρ) :
    ∃ a b : ℚ, 0 ≤ a ∧ a ≤ b ∧ b ≤ 1 ∧ b - a = luminance img ρ c / rowLuminance img ρ ∧
      ∀ v : ℚ, 0 ≤ v → v < 1 →
        (bokehSampleColumn (buildTables S (1 / totalValue img) img) ρ v
            = some (ρ * img.x + c) ↔ a ≤ v ∧ v < b) := by
  have hinv : 0 < 1 / totalValue img := by positivity
  have hperm := perm_sortedRow S (1 / totalValue img) img ρ
  have hlen := length_sortedRow S (1 / totalValue img) img ρ
  have hmem : ∀ k, k ∈ S.sort (normalizedValuesPerRow (1 / totalValue img) img)
      (List.range' (ρ * img.x) img.x) ↔ ∃ c, c < img.x ∧ k = ρ * img.x + c := by
    intro k
    rw [hperm.mem_iff, List.mem_map]
    constructor
    · rintro ⟨c, hc, rfl⟩; exact ⟨c, List.mem_range.mp hc, rfl⟩
    · rintro ⟨c, hc, rfl⟩; exact ⟨c, List.mem_range.mpr hc, rfl⟩
  have hkey : ∀ k ∈ S.sort (normalizedValuesPerRow (1 / totalValue img) img)
      (List.range' (ρ * img.x) img.x),
      0 ≤ (normalizedValuesPerRow (1 / totalValue img) img).getD k 0 := by
    intro k hk
    obtain ⟨c, hc, rfl⟩ := (hmem k).mp hk
    rw [getD_normalizedValuesPerRow _ img ρ c hρ hc]
    exact div_nonneg (mul_nonneg (hnn ρ c hρ hc) hinv.le) (mul_nonneg hrow.le hinv.le)
  have hnd : (S.sort (normalizedValuesPerRow (1 / totalValue img) img)
      (List.range' (ρ * img.x) img.x)).Nodup := by
    rw [hperm.nodup_iff]
    exact (List.nodup_range _).map (fun a b h => by simpa using h)
  have hsum := sum_column_weights S (1 / totalValue img) img ρ hρ hinv.ne' hrow.ne'
  obtain ⟨a, b, ha, hab, hb, hba, hsel⟩ :=
    select_interval _ (fun k => (normalizedValuesPerRow (1 / totalValue img) img).getD k 0)
      hnd hkey (ρ * img.x + c) ((hmem _).mpr ⟨c, hc, rfl⟩)
  rw [hsum] at hb hsel
  refine ⟨a, b, ha, hab, hb, ?_, ?_⟩
  · rw [hba, getD_normalizedValuesPerRow _ img ρ c hρ hc]
    field_simp
  · intro v hv0 hv1
    rw [← hsel v hv0 hv1]
    have hp := upper_bound_cumulative_lt _
      (fun w hw => by
        obtain ⟨k, hk, rfl⟩ := List.mem_map.mp hw
        exact hkey k hk) v hv0 (by rw [hsum]; exact hv1)
    rw [List.length_map, hlen] at hp
    have hle : ρ * img.x + img.x ≤ (buildCdfColumn S (1 / totalValue img) img).length := by
      rw [length_buildCdfColumn]
      have h1 : (ρ + 1) * img.x ≤ img.y * img.x := Nat.mul_le_mul_right _ (by omega)
      have h2 : (ρ + 1) * img.x = ρ * img.x + img.x := by ring
      omega
    unfold bokehSampleColumn slice
    simp only [buildTables, hle, if_true, Option.bind_eq_bind, Option.some_bind,
      slice_buildCdfColumn S _ img ρ hρ, ge_iff_le]
    rw [if_neg (by omega)]
    exact Eq.congr_left (getElem?_of_slice _ _ (ρ * img.x) img.x _
      (slice_buildColumnIndices S _ img ρ hρ) (by rw [hlen]; exact hp))


/-! ### Assembling the sampler -/

theorem sum_map_range_zero (f : Nat → ℚ) (n : Nat) (h : ∀ i, i < n → f i = 0) :
    ((List.range n).map f).sum = 0 := by
  apply List.sum_eq_zero
  intro v hv
  obtain ⟨i, hi, rfl⟩ := List.mem_map.mp hv
  exact h i (List.mem_range.mp hi)

theorem sum_map_range_single (f : Nat → ℚ) (k : Nat) : ∀ n : Nat, k < n →
    (∀ i, i < n → i ≠ k → f i = 0) → ((List.range n).map f).sum = f k := by
  intro n
  induction n with
  | zero => intro hk; omega
  | succ n ih =>
    intro hk h
    rw [List.range_succ, List.map_append, List.sum_append]
    simp only [List.map_cons, List.map_nil, List.sum_cons, List.sum_nil, add_zero]
    by_cases hkn : k = n
    · subst hkn
      rw [sum_map_range_zero f k (fun i hi => h i (by omega) (by omega))]
      ring
    · rw [ih (by omega) (fun i hi hik => h i (by omega) hik), h n (by omega) (Ne.symm hkn)]
      ring

theorem pixelLuminance_nonneg (img : imageData) (hnn : ∀ v ∈ img.pixelData, 0 ≤ v)
    (i : Nat) : 0 ≤ pixelLuminance img i := by
  have hget : ∀ j, 0 ≤ img.pixelData.getD j 0 := by
    intro j
    rw [List.getD_eq_getElem?_getD]
    cases h : img.pixelData[j]? with
    | none => simp
    | some v => exact hnn v (List.getElem?_mem h)
  unfold pixelLuminance
  have h1 := hget (i * img.nchannels)
  have h2 := hget (i * img.nchannels + if img.nchannels ≥ 2 then 1 else 0)
  have h3 := hget (i * img.nchannels + if img.nchannels ≥ 3 then 2
    else if img.nchannels ≥ 2 then 1 else 0)
  simp only []
  positivity

theorem isValid_of_pos (img : imageData) (hC : 3 ≤ img.nchannels) (hx : 0 < img.x)
    (hy : 0 < img.y) : img.isValid = true := by
  unfold isValid
  have : 0 < img.x * img.y * img.nchannels :=
    Nat.mul_pos (Nat.mul_pos hx hy) (by omega)
  simp [this, hC]

theorem isValid_of_totalValue_pos (img : imageData) (hC : 3 ≤ img.nchannels)
    (hT : 0 < totalValue img) : img.isValid = true := by
  have hne : img.x * img.y ≠ 0 := by
    intro h0
    unfold totalValue pixelValues at hT
    rw [h0] at hT
    simp at hT
  have hx : 0 < img.x := Nat.pos_of_ne_zero (fun h => hne (by rw [h, Nat.zero_mul]))
  have hy : 0 < img.y := Nat.pos_of_ne_zero (fun h => hne (by rw [h, Nat.mul_zero]))
  exact isValid_of_pos img hC hx hy

theorem bokehProbability_eq (S : StdSort) (img : imageData) (hv : img.isValid = true)
    (hT : totalValue img ≠ 0) :
    bokehProbability S img = some (buildTables S (1 / totalValue img) img) := by
  unfold bokehProbability checkedDiv
  simp [hv, hT]

theorem isValid_buildTables (S : StdSort) (inv : ℚ) (img : imageData) :
    (buildTables S inv img).isValid = img.isValid := rfl


/-- The region of `[0,1)²` that selects pixel `(r, c)` is a product of two
half-open intervals with the lengths of the marginal and the conditional
probability of the pixel. -/
theorem pixel_region (S : StdSort) (img : imageData)
    (hnn : ∀ r c, r < img.y → c < img.x → 0 ≤ luminance img r c)
    (hT : 0 < totalValue img) (r c : Nat) (hr : r < img.y) (hc : c < img.x) :
    ∃ a b a' b' : ℚ,
      (0 ≤ a ∧ a ≤ b ∧ b ≤ 1 ∧ b - a = rowLuminance img r / totalValue img) ∧
      (0 ≤ a' ∧ a' ≤ b' ∧ b' ≤ 1 ∧ b' - a' = luminance img r c / rowLuminance img r) ∧
      (∀ u : ℚ, 0 ≤ u → u < 1 →
        (bokehSampleRow (buildTables S (1 / totalValue img) img) u = some r
          ↔ a ≤ u ∧ u < b)) ∧
      (∀ u v : ℚ, 0 ≤ u → u < 1 → 0 ≤ v → v < 1 →
        bokehSampleRow (buildTables S (1 / totalValue img) img) u = some r →
        (bokehSampleColumn (buildTables S (1 / totalValue img) img) r v
            = some (r * img.x + c) ↔ a' ≤ v ∧ v < b')) := by
  obtain ⟨a, b, ha, hab, hb, hba, hrow⟩ := row_interval S img hnn hT r hr
  have hrl := rowLuminance_nonneg img r (fun c hc => hnn r c hr hc)
  rcases hrl.lt_or_eq with hpos | hzero
  · obtain ⟨a', b', ha', hab', hb', hba', hcol⟩ :=
      column_interval S img hnn hT r c hr hc hpos
    exact ⟨a, b, a', b', ⟨ha, hab, hb, hba⟩, ⟨ha', hab', hb', hba'⟩, hrow,
      fun u v _ _ hv0 hv1 _ => hcol v hv0 hv1⟩
  · refine ⟨a, b, 0, 0, ⟨ha, hab, hb, hba⟩, ⟨le_refl _, le_refl _, zero_le_one, ?_⟩, hrow, ?_⟩
    · rw [← hzero, div_zero, sub_zero]
    · intro u v hu0 hu1 _ _ hsel
      have h1 := (hrow u hu0 hu1).mp hsel
      rw [← hzero, zero_div] at hba
      linarith [h1.1, h1.2]

theorem bokehSamplePixel_eq_some_iff (img : imageData) (u v : ℚ) (r k : Nat) :
    bokehSamplePixel img u v = some (r, k)
      ↔ bokehSampleRow img u = some r ∧ bokehSampleColumn img r v = some k := by
  unfold bokehSamplePixel
  cases h1 : bokehSampleRow img u with
  | none => simp
  | some r' =>
    cases h2 : bokehSampleColumn img r' v with
    | none =>
      simp only [Option.bind_eq_bind, Option.some_bind, h2, Option.none_bind,
        Option.some.injEq]
      constructor
      · intro h; cases h
      · rintro ⟨rfl, h⟩; rw [h2] at h; cases h
    | some k' =>
      simp only [Option.bind_eq_bind, Option.some_bind, h2, Option.some.injEq, Prod.mk.injEq]
      constructor
      · rintro ⟨rfl, rfl⟩; exact ⟨rfl, h2⟩
      · rintro ⟨rfl, h⟩; rw [h2] at h; exact ⟨rfl, Option.some.inj h⟩


theorem tdiv_two_pred (n : Nat) (h : 1 ≤ n) :
    ((n : Int) - 1).tdiv 2 = (((n - 1) / 2 : ℕ) : Int) := by
  have e : (n : Int) - 1 = ((n - 1 : ℕ) : Int) := by omega
  rw [e]
  exact (Int.ofNat_tdiv _ _).symm

theorem bokehCoordinates_pixel (img : imageData) (r c : Nat) (hx : 1 ≤ img.x)
    (hy : 1 ≤ img.y) :
    bokehCoordinates img r (r * img.x + c)
      = (((c : ℚ) - (((img.y - 1) / 2 : ℕ) : ℚ)) / (img.x : ℚ) * 2,
         -((r : ℚ) - (((img.x - 1) / 2 : ℕ) : ℚ)) / (img.y : ℚ) * 2) := by
  unfold bokehCoordinates
  simp only [Prod.mk.injEq, tdiv_two_pred _ hx, tdiv_two_pred _ hy]
  constructor
  · simp only [Int.cast_sub, Int.cast_mul, Int.cast_add, Int.cast_natCast, Nat.cast_add,
      Nat.cast_mul]
    ring
  · simp only [Int.cast_sub, Int.cast_natCast]
    ring

theorem bokehSample_of_pixel (img : imageData) (u v : ℚ) (r k : Nat)
    (hv : img.isValid = true) (h : bokehSamplePixel img u v = some (r, k)) :
    bokehSample img u v = some (bokehCoordinates img r k) := by
  unfold bokehSample
  simp [hv, h]

/-- On an image with a single lit pixel every sample selects that pixel. -/
theorem single_bright_pixel_sample (S : StdSort) (img : imageData)
    (hx : 1 ≤ img.x) (hy : 1 ≤ img.y) (hC : 3 ≤ img.nchannels)
    (r0 c0 : Nat) (hr0 : r0 < img.y) (hc0 : c0 < img.x)
    (hpos : 0 < luminance img r0 c0)
    (hzero : ∀ r c, r < img.y → c < img.x → (r, c) ≠ (r0, c0) → luminance img r c = 0) :
    ∃ d, bokehProbability S img = some d ∧
      ∀ u v : ℚ, 0 ≤ u → u < 1 → 0 ≤ v → v < 1 →
        bokehSampleRow d u = some r0 ∧
        bokehSampleColumn d r0 v = some (r0 * img.x + c0) ∧
        bokehSample d u v
          = some (((c0 : ℚ) - (((img.y - 1) / 2 : ℕ) : ℚ)) / (img.x : ℚ) * 2,
                  -((r0 : ℚ) - (((img.x - 1) / 2 : ℕ) : ℚ)) / (img.y : ℚ) * 2) := by
  have hvalid := isValid_of_pos img hC (by omega) (by omega)
  have hnn : ∀ r c, r < img.y → c < img.x → 0 ≤ luminance img r c := by
    intro r c hr hc
    by_cases h : (r, c) = (r0, c0)
    · rw [Prod.mk.injEq] at h
      rw [h.1, h.2]; exact hpos.le
    · rw [hzero r c hr hc h]
  have hrow0 : rowLuminance img r0 = luminance img r0 c0 := by
    unfold rowLuminance
    apply sum_map_range_single _ c0 img.x hc0
    intro c hc hne
    exact hzero r0 c hr0 hc (by simp [hne])
  have hrowz : ∀ r, r < img.y → r ≠ r0 → rowLuminance img r = 0 := by
    intro r hr hne
    unfold rowLuminance
    apply sum_map_range_zero
    intro c hc
    exact hzero r c hr hc (by simp [hne])
  have htot : totalValue img = luminance img r0 c0 := by
    rw [totalValue_eq_sum, sum_map_range_single _ r0 img.y hr0 hrowz, hrow0]
  have hT : 0 < totalValue img := by rw [htot]; exact hpos
  refine ⟨_, bokehProbability_eq S img hvalid hT.ne', ?_⟩
  obtain ⟨a, b, a', b', ⟨ha, hab, hb, hba⟩, ⟨ha', hab', hb', hba'⟩, hrow, hcol⟩ :=
    pixel_region S img hnn hT r0 c0 hr0 hc0
  rw [hrow0, htot, div_self hpos.ne'] at hba
  rw [hrow0, div_self hpos.ne'] at hba'
  intro u v hu0 hu1 hv0 hv1
  have hR := (hrow u hu0 hu1).mpr ⟨by linarith, by linarith⟩
  have hCn := (hcol u v hu0 hu1 hv0 hv1 hR).mpr ⟨by linarith, by linarith⟩
  refine ⟨hR, hCn, ?_⟩
  rw [bokehSample_of_pixel _ u v r0 (r0 * img.x + c0)
    (by rw [isValid_buildTables]; exact hvalid)
    ((bokehSamplePixel_eq_some_iff _ u v r0 _).mpr ⟨hR, hCn⟩)]
  exact congrArg some (bokehCoordinates_pixel img r0 c0 hx hy)

/-- Claim C2 (samples proportional to brightness).  For an image with at least
three channels, non-negative channel values and positive total luminance, and
every pixel `(r, c)`: `bokehProbability` succeeds and there are intervals
`[a, b)` and `[a', b')` inside `[0,1]`, of lengths `rowLuminance r / totalValue`
and `luminance r c / rowLuminance r`, such that for `u, v` in `[0,1)` the row
search returns `r` exactly when `u ∈ [a, b)`, given row `r` the column search
returns column `c` exactly when `v ∈ [a', b')`, pixel `(r, c)` is selected
exactly on `[a, b) × [a', b')`, whose area is `luminance r c / totalValue`; a
pixel of zero luminance is never selected. -/
theorem C2_sampling_proportional_to_luminance (S : StdSort) (img : imageData)
    (hC : 3 ≤ img.nchannels) (hnn : ∀ v ∈ img.pixelData, 0 ≤ v)
    (hT : 0 < totalValue img) (r c : Nat) (hr : r < img.y) (hc : c < img.x) :
    ∃ d, bokehProbability S img = some d ∧ ∃ a b a' b' : ℚ,
      (0 ≤ a ∧ a ≤ b ∧ b ≤ 1 ∧ b - a = rowLuminance img r / totalValue img) ∧
      (0 ≤ a' ∧ a' ≤ b' ∧ b' ≤ 1 ∧ b' - a' = luminance img r c / rowLuminance img r) ∧
      (∀ u : ℚ, 0 ≤ u → u < 1 → (bokehSampleRow d u = some r ↔ a ≤ u ∧ u < b)) ∧
      (∀ u v : ℚ, 0 ≤ u → u < 1 → 0 ≤ v → v < 1 → bokehSampleRow d u = some r →
        (bokehSampleColumn d r v = some (r * img.x + c) ↔ a' ≤ v ∧ v < b')) ∧
      (∀ u v : ℚ, 0 ≤ u → u < 1 → 0 ≤ v → v < 1 →
        (bokehSamplePixel d u v = some (r, r * img.x + c)
          ↔ (a ≤ u ∧ u < b) ∧ (a' ≤ v ∧ v < b'))) ∧
      (b - a) * (b' - a') = luminance img r c / totalValue img ∧
      (luminance img r c = 0 → ∀ u v : ℚ, 0 ≤ u → u < 1 → 0 ≤ v → v < 1 →
        bokehSamplePixel d u v ≠ some (r, r * img.x + c)) := by
  have hvalid := isValid_of_totalValue_pos img hC hT
  have hlum : ∀ r c, r < img.y → c < img.x → 0 ≤ luminance img r c :=
    fun r c _ _ => pixelLuminance_nonneg img hnn _
  refine ⟨_, bokehProbability_eq S img hvalid hT.ne', ?_⟩
  obtain ⟨a, b, a', b', ⟨ha, hab, hb, hba⟩, ⟨ha', hab', hb', hba'⟩, hrow, hcol⟩ :=
    pixel_region S img hlum hT r c hr hc
  have hpix : ∀ u v : ℚ, 0 ≤ u → u < 1 → 0 ≤ v → v < 1 →
      (bokehSamplePixel (buildTables S (1 / totalValue img) img) u v
          = some (r, r * img.x + c) ↔ (a ≤ u ∧ u < b) ∧ (a' ≤ v ∧ v < b')) := by
    intro u v hu0 hu1 hv0 hv1
    rw [bokehSamplePixel_eq_some_iff]
    constructor
    · rintro ⟨h1, h2⟩
      exact ⟨(hrow u hu0 hu1).mp h1, (hcol u v hu0 hu1 hv0 hv1 h1).mp h2⟩
    · rintro ⟨h1, h2⟩
      have h3 := (hrow u hu0 hu1).mpr h1
      exact ⟨h3, (hcol u v hu0 hu1 hv0 hv1 h3).mpr h2⟩
  have hrl := rowLuminance_nonneg img r (fun c hc => hlum r c hr hc)
  have hle := luminance_le_rowLuminance img r c hc (fun c hc => hlum r c hr hc)
  refine ⟨a, b, a', b', ⟨ha, hab, hb, hba⟩, ⟨ha', hab', hb', hba'⟩, hrow, hcol, hpix, ?_, ?_⟩
  · rw [hba, hba']
    rcases hrl.lt_or_eq with hpos | hzero
    · field_simp
      ring
    · have h0 : luminance img r c = 0 := le_antisymm (by rw [hzero]; exact hle) (hlum r c hr hc)
      rw [h0]; simp
  · intro h0 u v hu0 hu1 hv0 hv1 hsel
    have h := (hpix u v hu0 hu1 hv0 hv1).mp hsel
    rw [h0, zero_div] at hba'
    linarith [h.2.1, h.2.2]


theorem C2_sampling_proportional_to_luminance_witness :
    ∃ d, bokehProbability insertionStdSort greyRamp = some d ∧ ∃ a b a' b' : ℚ,
      (0 ≤ a ∧ a ≤ b ∧ b ≤ 1 ∧ b - a = rowLuminance greyRamp 1 / totalValue greyRamp) ∧
      (0 ≤ a' ∧ a' ≤ b' ∧ b' ≤ 1
        ∧ b' - a' = luminance greyRamp 1 2 / rowLuminance greyRamp 1) ∧
      (∀ u : ℚ, 0 ≤ u → u < 1 → (bokehSampleRow d u = some 1 ↔ a ≤ u ∧ u < b)) ∧
      (∀ u v : ℚ, 0 ≤ u → u < 1 → 0 ≤ v → v < 1 → bokehSampleRow d u = some 1 →
        (bokehSampleColumn d 1 v = some (1 * greyRamp.x + 2) ↔ a' ≤ v ∧ v < b')) ∧
      (∀ u v : ℚ, 0 ≤ u → u < 1 → 0 ≤ v → v < 1 →
        (bokehSamplePixel d u v = some (1, 1 * greyRamp.x + 2)
          ↔ (a ≤ u ∧ u < b) ∧ (a' ≤ v ∧ v < b'))) ∧
      (b - a) * (b' - a') = luminance greyRamp 1 2 / totalValue greyRamp ∧
      (luminance greyRamp 1 2 = 0 → ∀ u v : ℚ, 0 ≤ u → u < 1 → 0 ≤ v → v < 1 →
        bokehSamplePixel d u v ≠ some (1, 1 * greyRamp.x + 2)) :=
  C2_sampling_proportional_to_luminance insertionStdSort greyRamp (by decide)
    (by decide)
    (by
      norm_num [totalValue, pixelValues, pixelLuminance, greyRamp, List.range_succ])
    1 2 (by decide) (by decide)

/-- Claim C3 (invalid image).  For every `imageData` that is not valid, that is
with `x * y * nchannels = 0` or `nchannels < 3`, whatever its tables hold (also
when they are null), `bokehSample` returns `(dx, dy) = (0, 0)` for every pair of
random numbers without a table read; a freshly constructed instance and every
instance after `invalidate()` are such images. -/
theorem C3_invalid_image_samples_zero :
    (∀ img : imageData, (img.x * img.y * img.nchannels ≤ 0 ∨ img.nchannels < 3) →
      img.isValid = false ∧ ∀ u v : ℚ, bokehSample img u v = some (0, 0)) ∧
    (∀ u v : ℚ, bokehSample imageData.new u v = some (0, 0)) ∧
    (∀ (img : imageData) (u v : ℚ), bokehSample (invalidate img) u v = some (0, 0)) := by
  have key : ∀ img : imageData, img.isValid = false →
      ∀ u v : ℚ, bokehSample img u v = some (0, 0) := by
    intro img h u v
    unfold bokehSample
    simp [h]
  refine ⟨?_, fun u v => key imageData.new (by decide) u v,
    fun img u v => key (invalidate img) (show imageData.new.isValid = false by decide) u v⟩
  intro img h
  have hv : img.isValid = false := by
    unfold isValid
    rcases h with h | h
    · have : ¬ (img.x * img.y * img.nchannels > 0) := by omega
      simp [this]
    · have : ¬ (img.nchannels ≥ 3) := by omega
      simp [this]
  exact ⟨hv, key img hv⟩

theorem C3_invalid_image_samples_zero_witness :
    ({ singleBright with nchannels := 2 } : imageData).isValid = false ∧
      ∀ u v : ℚ, bokehSample { singleBright with nchannels := 2 } u v = some (0, 0) :=
  C3_invalid_image_samples_zero.1 { singleBright with nchannels := 2 }
    (Or.inr (by decide))

/-- Claim C4 (evaluation at a black image).  The black 1×4 RGB image passes
`isValid()`, its `totalValue` is zero, and `bokehProbability` divides by that
zero total (the result `none`): the image is not treated as invalid and the
division is not avoided. -/
theorem C4_black_image_divides_by_zero (S : StdSort) :
    blackColumn.isValid = true ∧ totalValue blackColumn = 0 ∧
      bokehProbability S blackColumn = none := by
  have hT : totalValue blackColumn = 0 := by
    norm_num [totalValue, pixelValues, pixelLuminance, blackColumn, List.range_succ]
  refine ⟨by decide, hT, ?_⟩
  unfold bokehProbability checkedDiv
  rw [hT]
  simp [show blackColumn.isValid = true by decide]


end imageData

section OpticsLemmas

variable {K : Type} [LinearOrderedField K]

theorem IsSqrt.eq_of_sq {sqrt : K → K} (hs : IsSqrt sqrt) {a b : K} (hb : 0 ≤ b)
    (h : b * b = a) : sqrt a = b := by
  have ha : 0 ≤ a := by rw [← h]; exact mul_self_nonneg b
  obtain ⟨h1, h2⟩ := hs a ha
  exact (mul_self_inj h1 hb).mp (h2.trans h.symm)

theorem isSqrt_real : IsSqrt Real.sqrt :=
  fun x hx => ⟨Real.sqrt_nonneg x, Real.mul_self_sqrt hx⟩

@[simp] theorem AtVector.add_eq (a b : AtVector K) :
    a + b = ⟨a.x + b.x, a.y + b.y, a.z + b.z⟩ := rfl

@[simp] theorem AtVector.sub_eq (a b : AtVector K) :
    a - b = ⟨a.x - b.x, a.y - b.y, a.z - b.z⟩ := rfl

@[simp] theorem AtVector.mul_eq (a : AtVector K) (s : K) :
    a * s = ⟨a.x * s, a.y * s, a.z * s⟩ := rfl

/-! ### Vignetting is never undone -/

theorem traceHit_weight (sqrt : K → K) (i : Nat) (s : TraceState K) :
    (traceHit sqrt i s).1.weight = s.weight := rfl

theorem traceHit_lensAperture (sqrt : K → K) (i : Nat) (s : TraceState K) :
    (traceHit sqrt i s).1.ld.lensAperture = s.ld.lensAperture := by
  unfold traceHit
  simp only []
  split <;> rfl

theorem traceHit_length (sqrt : K → K) (i : Nat) (s : TraceState K) :
    (traceHit sqrt i s).1.ld.lensRadiusCurvature.length = s.ld.lensRadiusCurvature.length := by
  unfold traceHit
  simp only []
  split
  · simp
  · rfl

theorem traceBody_lensAperture (sqrt : K → K) (U : Indeterminate K) (i : Nat)
    (s : TraceState K) : (traceBody sqrt U i s).ld.lensAperture = s.ld.lensAperture := by
  unfold traceBody
  simp only []
  split <;> split <;> simp [traceHit_lensAperture]

theorem traceBody_weight_zero (sqrt : K → K) (U : Indeterminate K) (i : Nat)
    (s : TraceState K) (h : s.weight = 0) : (traceBody sqrt U i s).weight = 0 := by
  unfold traceBody
  simp only []
  split <;> split <;> simp [traceHit_weight, h]

theorem traceBody_weight_of_vignetted (sqrt : K → K) (U : Indeterminate K) (i : Nat)
    (s : TraceState K)
    (h : hitPointHypotenuse sqrt i s > s.ld.lensAperture.getD i 0 / 2) :
    (traceBody sqrt U i s).weight = 0 := by
  unfold traceBody
  simp only [traceHit_lensAperture, h, if_true]
  split <;> rfl

theorem traceLoop_lensAperture (sqrt : K → K) (U : Indeterminate K) (s : TraceState K) :
    ∀ n, (traceLoop sqrt U n s).ld.lensAperture = s.ld.lensAperture := by
  intro n
  induction n with
  | zero => rfl
  | succ n ih => rw [traceLoop, traceBody_lensAperture, ih]

theorem traceLoop_weight_zero (sqrt : K → K) (U : Indeterminate K) (s : TraceState K)
    (m : Nat) (h : (traceLoop sqrt U m s).weight = 0) :
    ∀ n, m ≤ n → (traceLoop sqrt U n s).weight = 0 := by
  intro n hmn
  induction n with
  | zero =>
    have : m = 0 := by omega
    subst this; exact h
  | succ n ih =>
    by_cases hm : m = n + 1
    · subst hm; exact h
    · rw [traceLoop]
      exact traceBody_weight_zero sqrt U n _ (ih (by omega))

/-- Claim C5 (vignetting at some surface kills the ray).  For every lens
prescription, input ray, `sqrt` function and indeterminate values: if at some
surface `i` the radial distance `hitPointHypotenuse` of the hit point exceeds
half of the stored clear aperture `lensAperture[i]`, then the weight returned
by `traceThroughLensElements` is exactly `0`. -/
theorem C5_vignetted_ray_has_weight_zero (sqrt : K → K) (U : Indeterminate K)
    (ray_origin ray_direction : AtVector K) (weight : K) (ld : Lensdata K)
    (lensx lensy : K) (i : Nat) (hi : i < ld.lensRadiusCurvature.length)
    (hv : hitPointHypotenuse sqrt i
        (traceLoop sqrt U i (traceInit U ray_origin ray_direction weight ld))
      > ld.lensAperture.getD i 0 / 2) :
    (traceThroughLensElements sqrt U ray_origin ray_direction weight ld lensx lensy).weight
      = 0 := by
  unfold traceThroughLensElements
  apply traceLoop_weight_zero sqrt U _ (i + 1) _ _ (by omega)
  rw [traceLoop]
  apply traceBody_weight_of_vignetted
  rw [traceLoop_lensAperture]
  exact hv

end OpticsLemmas

section Evaluation

variable {K : Type} [LinearOrderedField K]

theorem singleLens_hit (sqrt : K → K) (hs : IsSqrt sqrt) (U : Indeterminate K) :
    hitPointHypotenuse sqrt 0 (traceInit U ⟨6, 0, -100⟩ ⟨0, 0, 1⟩ 1 singleLens) = 6 := by
  have h1 : sqrt 1 = 1 := hs.eq_of_sq (by norm_num) (by norm_num)
  have h64 : sqrt 64 = 8 := hs.eq_of_sq (by norm_num) (by norm_num)
  have h36 : sqrt 36 = 6 := hs.eq_of_sq (by norm_num) (by norm_num)
  simp [hitPointHypotenuse, traceHit, traceInit, singleLens, raySphereIntersection,
    AiV3Normalize, AiV3Dot, copysignOne, h1]
  norm_num [h64, h36]

end Evaluation

section Evaluation2

variable {K : Type} [LinearOrderedField K]

theorem stopThenLens_first (sqrt : K → K) (hs : IsSqrt sqrt) (U : Indeterminate K) :
    traceBody sqrt U 0 (traceInit U ⟨0, 0, 0⟩ ⟨3, 0, 4⟩ 1 stopThenLens)
      = { ray_origin := ⟨0, 0, 0⟩, ray_direction := ⟨5 / 13, 0, 12 / 13⟩, weight := 1,
          ld := { (stopThenLens : Lensdata K) with
                  lensRadiusCurvature := [99999, 65], succesRays := 1 },
          summedThickness := 0, lensElementAperture := true } := by
  have h0 : sqrt 0 = 0 := hs.eq_of_sq (le_refl _) (by norm_num)
  have h1 : sqrt 1 = 1 := hs.eq_of_sq (by norm_num) (by norm_num)
  have h25 : sqrt 25 = 5 := hs.eq_of_sq (by norm_num) (by norm_num)
  have hR : sqrt 9999800001 = 99999 := hs.eq_of_sq (by norm_num) (by norm_num)
  have hthc : sqrt (159996800016 / 25) = 399996 / 5 :=
    hs.eq_of_sq (by norm_num) (by norm_num)
  have hcos : sqrt (144 / 169) = 12 / 13 := hs.eq_of_sq (by norm_num) (by norm_num)
  simp [traceBody, hitPointHypotenuse, traceHit, traceInit, stopThenLens,
    raySphereIntersection, intersectionNormal, calculateTransmissionVector,
    AiV3Normalize, AiV3Dot, copysignOne]
  norm_num [h0, h1, h25, hR, hthc, hcos]
  rw [abs_of_nonneg (by norm_num), hcos]

theorem stopThenLens_second_hit (sqrt : K → K) (hs : IsSqrt sqrt) (U : Indeterminate K) :
    hitPointHypotenuse sqrt 1
        (traceLoop sqrt U 1 (traceInit U ⟨0, 0, 0⟩ ⟨3, 0, 4⟩ 1 stopThenLens)) = 25 := by
  have h1 : sqrt 1 = 1 := hs.eq_of_sq (by norm_num) (by norm_num)
  have h65 : sqrt 4225 = 65 := hs.eq_of_sq (by norm_num) (by norm_num)
  have h25 : sqrt 625 = 25 := hs.eq_of_sq (by norm_num) (by norm_num)
  rw [traceLoop, traceLoop, stopThenLens_first sqrt hs U]
  simp [hitPointHypotenuse, traceHit, stopThenLens, raySphereIntersection,
    AiV3Normalize, AiV3Dot, copysignOne]
  norm_num [h1, h65, h25]

theorem stopThenLens_first_hit (sqrt : K → K) (hs : IsSqrt sqrt) (U : Indeterminate K) :
    hitPointHypotenuse sqrt 0
        (traceLoop sqrt U 0 (traceInit U ⟨0, 0, 0⟩ ⟨3, 0, 4⟩ 1 stopThenLens)) = 0 := by
  have h0 : sqrt 0 = 0 := hs.eq_of_sq (le_refl _) (by norm_num)
  have h25 : sqrt 25 = 5 := hs.eq_of_sq (by norm_num) (by norm_num)
  have hthc : sqrt (159996800016 / 25) = 399996 / 5 :=
    hs.eq_of_sq (by norm_num) (by norm_num)
  simp [traceLoop, hitPointHypotenuse, traceHit, traceInit, stopThenLens,
    raySphereIntersection, AiV3Normalize, AiV3Dot, copysignOne]
  norm_num [h0, h25, hthc]

theorem stopThenLens_weight (sqrt : K → K) (hs : IsSqrt sqrt) (U : Indeterminate K)
    (lensx lensy : K) :
    (traceThroughLensElements sqrt U ⟨0, 0, 0⟩ ⟨3, 0, 4⟩ 1 stopThenLens lensx lensy).weight
      = 0 := by
  have hh := stopThenLens_second_hit sqrt hs U
  have hlen : (stopThenLens : Lensdata K).lensRadiusCurvature.length = 2 := rfl
  unfold traceThroughLensElements
  rw [hlen, traceLoop]
  unfold traceBody
  simp only [hh]
  rw [traceLoop, traceLoop, stopThenLens_first sqrt hs U]
  simp [traceHit, stopThenLens]
  norm_num


theorem C5_vignetted_ray_has_weight_zero_witness :
    hitPointHypotenuse Real.sqrt 0
        (traceLoop Real.sqrt zeroIndeterminate 0
          (traceInit zeroIndeterminate ⟨6, 0, -100⟩ ⟨0, 0, 1⟩ 1 singleLens))
      > (singleLens : Lensdata ℝ).lensAperture.getD 0 0 / 2 ∧
    (traceThroughLensElements Real.sqrt zeroIndeterminate ⟨6, 0, -100⟩ ⟨0, 0, 1⟩ 1
      singleLens 0 0).weight = 0 :=
  have hv : hitPointHypotenuse Real.sqrt 0
        (traceLoop Real.sqrt zeroIndeterminate 0
          (traceInit zeroIndeterminate ⟨6, 0, -100⟩ ⟨0, 0, 1⟩ 1 singleLens))
      > (singleLens : Lensdata ℝ).lensAperture.getD 0 0 / 2 := by
    rw [traceLoop, singleLens_hit Real.sqrt isSqrt_real]
    norm_num [singleLens]
  ⟨hv, C5_vignetted_ray_has_weight_zero Real.sqrt zeroIndeterminate ⟨6, 0, -100⟩ ⟨0, 0, 1⟩ 1
    singleLens 0 0 0 (by simp [singleLens]) hv⟩

/-- Claim C6 (evaluation at a ray vignetted after the stop).  Prescription: an
aperture stop (stored radius `0`, clear aperture `100`) followed by a spherical
surface of radius `65` and clear aperture `60`; ray from the origin along
`(3, 0, 4)` with weight `1`.  The hit radius is `0` at the stop (within half
its clear aperture and within the stop radius `20`) and `25` at the second
surface, which is not an aperture stop and whose half clear aperture is `30`;
yet `traceThroughLensElements` returns weight `0`, whatever the indeterminate
values: `lensElementAperture` is still `true` from the stop, and `25 > 20`. -/
theorem C6_stop_radius_applied_after_stop (U : Indeterminate ℝ) (lensx lensy : ℝ) :
    (stopThenLens : Lensdata ℝ).lensRadiusCurvature = [0, 65] ∧
    (stopThenLens : Lensdata ℝ).lensAperture = [100, 60] ∧
    hitPointHypotenuse Real.sqrt 0
        (traceLoop Real.sqrt U 0 (traceInit U ⟨0, 0, 0⟩ ⟨3, 0, 4⟩ 1 stopThenLens)) = 0 ∧
    hitPointHypotenuse Real.sqrt 1
        (traceLoop Real.sqrt U 1 (traceInit U ⟨0, 0, 0⟩ ⟨3, 0, 4⟩ 1 stopThenLens)) = 25 ∧
    (traceThroughLensElements Real.sqrt U ⟨0, 0, 0⟩ ⟨3, 0, 4⟩ 1 stopThenLens
      lensx lensy).weight = 0 :=
  ⟨rfl, rfl, stopThenLens_first_hit Real.sqrt isSqrt_real U,
    stopThenLens_second_hit Real.sqrt isSqrt_real U,
    stopThenLens_weight Real.sqrt isSqrt_real U lensx lensy⟩

end Evaluation2

section Primitives

variable {K : Type} [LinearOrderedField K]

theorem AiV3Dot_self_pos (a : AtVector K) (ha : a ≠ ⟨0, 0, 0⟩) : 0 < AiV3Dot a a := by
  unfold AiV3Dot
  have h : a.x ≠ 0 ∨ a.y ≠ 0 ∨ a.z ≠ 0 := by
    by_contra hcon
    push_neg at hcon
    apply ha
    cases a
    simp_all
  rcases h with h | h | h
  · have := mul_self_pos.mpr h
    nlinarith [mul_self_nonneg a.y, mul_self_nonneg a.z]
  · have := mul_self_pos.mpr h
    nlinarith [mul_self_nonneg a.x, mul_self_nonneg a.z]
  · have := mul_self_pos.mpr h
    nlinarith [mul_self_nonneg a.x, mul_self_nonneg a.y]

/-- A normalized non-zero vector has unit length. -/
theorem AiV3Dot_normalize_self (sqrt : K → K) (hs : IsSqrt sqrt) (a : AtVector K)
    (ha : a ≠ ⟨0, 0, 0⟩) :
    AiV3Dot (AiV3Normalize sqrt a) (AiV3Normalize sqrt a) = 1 := by
  have hpos := AiV3Dot_self_pos a ha
  obtain ⟨h1, h2⟩ := hs _ hpos.le
  have hne : sqrt (AiV3Dot a a) ≠ 0 := by
    intro h0
    rw [h0, mul_zero] at h2
    exact hpos.ne h2
  have hm : 1 / sqrt (AiV3Dot a a) * sqrt (AiV3Dot a a) = 1 := by field_simp
  unfold AiV3Normalize
  simp only [hne, ne_eq, not_false_eq_true, if_true, AtVector.mul_eq]
  generalize 1 / sqrt (AiV3Dot a a) = m at hm
  generalize sqrt (AiV3Dot a a) = n at hm h2
  unfold AiV3Dot at h2 ⊢
  simp only []
  linear_combination (m * n + 1) * hm - (m * m) * h2

/-- Lagrange's identity: the squared distance from a point to a line through a
unit direction is non-negative. -/
theorem rayD2_nonneg (sqrt : K → K) (hs : IsSqrt sqrt) (d o c : AtVector K)
    (hd : d ≠ ⟨0, 0, 0⟩) : 0 ≤ rayD2 sqrt d o c := by
  have hN := AiV3Dot_normalize_self sqrt hs d hd
  unfold rayD2 rayTca
  generalize AiV3Normalize sqrt d = n at hN
  generalize c - o = L
  unfold AiV3Dot at hN ⊢
  have key : (L.x * L.x + L.y * L.y + L.z * L.z) - (L.x * n.x + L.y * n.y + L.z * n.z)
        * (L.x * n.x + L.y * n.y + L.z * n.z)
      = (L.x * n.y - L.y * n.x) * (L.x * n.y - L.y * n.x)
        + (L.y * n.z - L.z * n.y) * (L.y * n.z - L.z * n.y)
        + (L.z * n.x - L.x * n.z) * (L.z * n.x - L.x * n.z) := by
    linear_combination (-(L.x * L.x + L.y * L.y + L.z * L.z)) * hN
  rw [key]
  exact add_nonneg (add_nonneg (mul_self_nonneg _) (mul_self_nonneg _)) (mul_self_nonneg _)

theorem copysignOne_mul_self (r : K) : copysignOne r * copysignOne r = 1 := by
  unfold copysignOne
  split <;> norm_num

theorem raySphereIntersection_eq (sqrt : K → K) (d o c : AtVector K) (R : K)
    (reverse : Bool) :
    raySphereIntersection sqrt d o c R reverse
      = o + AiV3Normalize sqrt d
          * (rayTca sqrt d o c
              + (if reverse then -1 else 1)
                * (sqrt (R * R - rayD2 sqrt d o c) * copysignOne R)) := by
  unfold raySphereIntersection rayD2 rayTca
  cases reverse
  · simp
  · simp [sub_eq_add_neg]

/-- The point returned by `raySphereIntersection` lies on the sphere. -/
theorem raySphereIntersection_on_sphere (sqrt : K → K) (hs : IsSqrt sqrt)
    (d o c : AtVector K) (R : K) (hd : d ≠ ⟨0, 0, 0⟩)
    (hdisc : 0 ≤ R * R - rayD2 sqrt d o c) (reverse : Bool) :
    AiV3Dot (raySphereIntersection sqrt d o c R reverse - c)
      (raySphereIntersection sqrt d o c R reverse - c) = R * R := by
  have hN := AiV3Dot_normalize_self sqrt hs d hd
  obtain ⟨_, hthc⟩ := hs _ hdisc
  have hcs := copysignOne_mul_self R
  have hsg : ((if reverse then -1 else 1 : K)) * (if reverse then -1 else 1) = 1 := by
    cases reverse <;> norm_num
  rw [raySphereIntersection_eq]
  generalize (if reverse then -1 else 1 : K) = sg at hsg
  generalize hthcdef : sqrt (R * R - rayD2 sqrt d o c) = thc at hthc
  unfold rayD2 at hthc
  unfold rayTca at hthc ⊢
  generalize AiV3Normalize sqrt d = n at hN hthc ⊢
  generalize copysignOne R = cs at hcs
  unfold AiV3Dot at hN hthc ⊢
  simp only [AtVector.add_eq, AtVector.sub_eq, AtVector.mul_eq] at hthc ⊢
  linear_combination
    ((c.x - o.x) * n.x + (c.y - o.y) * n.y + (c.z - o.z) * n.z + sg * (thc * cs))
      * ((c.x - o.x) * n.x + (c.y - o.y) * n.y + (c.z - o.z) * n.z + sg * (thc * cs)) * hN
    + thc * thc * sg * sg * hcs + thc * thc * hsg + hthc


theorem thc_mul_copysignOne (sqrt : K → K) (hs : IsSqrt sqrt) (d o c : AtVector K) (R : K)
    (hd : d ≠ ⟨0, 0, 0⟩) (hdisc : 0 ≤ R * R - rayD2 sqrt d o c) :
    sqrt (R * R - rayD2 sqrt d o c) * copysignOne R
      = ((SignType.sign R : SignType) : K) * sqrt (R * R - rayD2 sqrt d o c) := by
  rcases lt_trichotomy R 0 with h | h | h
  · simp [copysignOne, h, sign_neg h, mul_comm]
  · subst h
    have hd2 := rayD2_nonneg sqrt hs d o c hd
    have hz : (0 : K) * 0 - rayD2 sqrt d o c = 0 := by
      have : (0 : K) * 0 - rayD2 sqrt d o c ≤ 0 := by linarith
      exact le_antisymm this hdisc
    rw [hz, hs.eq_of_sq (le_refl (0 : K)) (by norm_num)]
    simp
  · simp [copysignOne, not_lt.mpr h.le, sign_pos h]

/-- Claim C7 (ray–sphere intersection).  For a ray with origin `o` and non-zero
direction `d`, a sphere of centre `c` and signed radius `R`, and `sqrt` the
square root, if the discriminant `R² - d2` is non-negative then
`raySphereIntersection` returns `o + dhat * (tca + sign(R) * thc)` when the flag
is `false` and `o + dhat * (tca - sign(R) * thc)` when it is `true`, with
`dhat` the normalized direction, `tca = (c - o) · dhat` and
`thc = sqrt (R² - d2)`; in both cases the squared distance of the returned
point to `c` is `R²`. -/
theorem C7_ray_sphere_intersection_on_sphere (sqrt : K → K) (hs : IsSqrt sqrt)
    (o d c : AtVector K) (R : K) (hd : d ≠ ⟨0, 0, 0⟩)
    (hdisc : 0 ≤ R * R - rayD2 sqrt d o c) :
    raySphereIntersection sqrt d o c R false
        = o + AiV3Normalize sqrt d
            * (rayTca sqrt d o c
                + ((SignType.sign R : SignType) : K) * sqrt (R * R - rayD2 sqrt d o c)) ∧
    raySphereIntersection sqrt d o c R true
        = o + AiV3Normalize sqrt d
            * (rayTca sqrt d o c
                - ((SignType.sign R : SignType) : K) * sqrt (R * R - rayD2 sqrt d o c)) ∧
    ∀ reverse : Bool,
      AiV3Dot (raySphereIntersection sqrt d o c R reverse - c)
        (raySphereIntersection sqrt d o c R reverse - c) = R * R := by
  have hsign := thc_mul_copysignOne sqrt hs d o c R hd hdisc
  refine ⟨?_, ?_, fun reverse => raySphereIntersection_on_sphere sqrt hs d o c R hd hdisc reverse⟩
  · rw [raySphereIntersection_eq, hsign]
    simp
  · rw [raySphereIntersection_eq, hsign]
    simp [sub_eq_add_neg]

theorem C7_ray_sphere_intersection_on_sphere_witness :
    (0 : ℝ) ≤ 10 * 10 - rayD2 Real.sqrt ⟨0, 0, 1⟩ ⟨6, 0, -100⟩ ⟨0, 0, 0⟩ ∧
    raySphereIntersection Real.sqrt (⟨0, 0, 1⟩ : AtVector ℝ) ⟨6, 0, -100⟩ ⟨0, 0, 0⟩ 10 false
        = (⟨6, 0, -100⟩ : AtVector ℝ) + AiV3Normalize Real.sqrt ⟨0, 0, 1⟩
            * (rayTca Real.sqrt ⟨0, 0, 1⟩ ⟨6, 0, -100⟩ ⟨0, 0, 0⟩
                + ((SignType.sign (10 : ℝ) : SignType) : ℝ)
                  * Real.sqrt (10 * 10 - rayD2 Real.sqrt ⟨0, 0, 1⟩ ⟨6, 0, -100⟩ ⟨0, 0, 0⟩)) :=
  have hdisc : (0 : ℝ) ≤ 10 * 10 - rayD2 Real.sqrt ⟨0, 0, 1⟩ ⟨6, 0, -100⟩ ⟨0, 0, 0⟩ := by
    simp [rayD2, rayTca, AiV3Normalize, AiV3Dot]
    norm_num
  ⟨hdisc, (C7_ray_sphere_intersection_on_sphere Real.sqrt isSqrt_real
    ⟨6, 0, -100⟩ ⟨0, 0, 1⟩ ⟨0, 0, 0⟩ 10 (by simp) hdisc).1⟩

/-- Claim C8 (Snell law).  For non-zero incident vector `I` and normal `N`, any
`ior1`, `ior2` (in particular positive ones), `eta = ior1 / ior2` and
`c1 = -(Ihat · Nhat)` with `eta² (1 - c1²) ≤ 1` (no total internal
reflection), and `sqrt` the square root, `calculateTransmissionVector` returns
`T = eta Ihat + (eta c1 - sqrt (1 - eta² (1 - c1²))) Nhat`; `T` has unit length
and its component perpendicular to `Nhat` is `eta` times that of `Ihat`. -/
theorem C8_transmission_vector_snell (sqrt : K → K) (hs : IsSqrt sqrt) (ior1 ior2 : K)
    (I N : AtVector K) (hI : I ≠ ⟨0, 0, 0⟩) (hN : N ≠ ⟨0, 0, 0⟩)
    (hTIR : ior1 / ior2 * (ior1 / ior2)
        * (1 - AiV3Dot (AiV3Normalize sqrt I) (AiV3Normalize sqrt N)
              * AiV3Dot (AiV3Normalize sqrt I) (AiV3Normalize sqrt N)) ≤ 1) :
    calculateTransmissionVector sqrt ior1 ior2 I N
        = AiV3Normalize sqrt I * (ior1 / ior2)
          + AiV3Normalize sqrt N
            * (ior1 / ior2 * (-AiV3Dot (AiV3Normalize sqrt I) (AiV3Normalize sqrt N))
                - sqrt (1 - ior1 / ior2 * (ior1 / ior2)
                    * (1 - AiV3Dot (AiV3Normalize sqrt I) (AiV3Normalize sqrt N)
                          * AiV3Dot (AiV3Normalize sqrt I) (AiV3Normalize sqrt N)))) ∧
    AiV3Dot (calculateTransmissionVector sqrt ior1 ior2 I N)
        (calculateTransmissionVector sqrt ior1 ior2 I N) = 1 ∧
    calculateTransmissionVector sqrt ior1 ior2 I N
        - AiV3Normalize sqrt N
          * AiV3Dot (calculateTransmissionVector sqrt ior1 ior2 I N) (AiV3Normalize sqrt N)
      = (AiV3Normalize sqrt I
          - AiV3Normalize sqrt N
            * AiV3Dot (AiV3Normalize sqrt I) (AiV3Normalize sqrt N)) * (ior1 / ior2) := by
  have hII := AiV3Dot_normalize_self sqrt hs I hI
  have hNN := AiV3Dot_normalize_self sqrt hs N hN
  have hnonneg : 0 ≤ 1 - ior1 / ior2 * (ior1 / ior2)
      * (1 - AiV3Dot (AiV3Normalize sqrt I) (AiV3Normalize sqrt N)
            * AiV3Dot (AiV3Normalize sqrt I) (AiV3Normalize sqrt N)) := by linarith
  obtain ⟨_, hcos⟩ := hs _ hnonneg
  have hform : calculateTransmissionVector sqrt ior1 ior2 I N
      = AiV3Normalize sqrt I * (ior1 / ior2)
        + AiV3Normalize sqrt N
          * (ior1 / ior2 * (-AiV3Dot (AiV3Normalize sqrt I) (AiV3Normalize sqrt N))
              - sqrt (1 - ior1 / ior2 * (ior1 / ior2)
                  * (1 - AiV3Dot (AiV3Normalize sqrt I) (AiV3Normalize sqrt N)
                        * AiV3Dot (AiV3Normalize sqrt I) (AiV3Normalize sqrt N)))) := by
    unfold calculateTransmissionVector
    simp only [neg_mul_neg]
    rw [abs_of_nonneg hnonneg]
  refine ⟨hform, ?_, ?_⟩
  · rw [hform]
    generalize sqrt (1 - ior1 / ior2 * (ior1 / ior2)
      * (1 - AiV3Dot (AiV3Normalize sqrt I) (AiV3Normalize sqrt N)
            * AiV3Dot (AiV3Normalize sqrt I) (AiV3Normalize sqrt N))) = cosT at hcos
    generalize ior1 / ior2 = eta at hcos
    generalize AiV3Normalize sqrt I = i at hII hcos
    generalize AiV3Normalize sqrt N = n at hNN hcos
    unfold AiV3Dot at hII hNN hcos ⊢
    simp only [AtVector.add_eq, AtVector.mul_eq]
    linear_combination (eta * eta) * hII
      + (eta * -(i.x * n.x + i.y * n.y + i.z * n.z) - cosT)
        * (eta * -(i.x * n.x + i.y * n.y + i.z * n.z) - cosT) * hNN + hcos
  · rw [hform]
    generalize sqrt (1 - ior1 / ior2 * (ior1 / ior2)
      * (1 - AiV3Dot (AiV3Normalize sqrt I) (AiV3Normalize sqrt N)
            * AiV3Dot (AiV3Normalize sqrt I) (AiV3Normalize sqrt N))) = cosT
    generalize ior1 / ior2 = eta
    generalize AiV3Normalize sqrt I = i at hII
    generalize AiV3Normalize sqrt N = n at hNN
    unfold AiV3Dot at hNN ⊢
    simp only [AtVector.add_eq, AtVector.sub_eq, AtVector.mul_eq, AtVector.mk.injEq]
    refine ⟨?_, ?_, ?_⟩
    · linear_combination (-(n.x * (eta * -(i.x * n.x + i.y * n.y + i.z * n.z) - cosT))) * hNN
    · linear_combination (-(n.y * (eta * -(i.x * n.x + i.y * n.y + i.z * n.z) - cosT))) * hNN
    · linear_combination (-(n.z * (eta * -(i.x * n.x + i.y * n.y + i.z * n.z) - cosT))) * hNN

theorem C8_transmission_vector_snell_witness :
    (1 : ℝ) / (3 / 2) * (1 / (3 / 2))
        * (1 - AiV3Dot (AiV3Normalize Real.sqrt ⟨0, 0, 1⟩) (AiV3Normalize Real.sqrt ⟨0, 0, -1⟩)
              * AiV3Dot (AiV3Normalize Real.sqrt ⟨0, 0, 1⟩)
                  (AiV3Normalize Real.sqrt ⟨0, 0, -1⟩)) ≤ 1 ∧
    AiV3Dot
        (calculateTransmissionVector Real.sqrt (1 : ℝ) (3 / 2) ⟨0, 0, 1⟩ ⟨0, 0, -1⟩)
        (calculateTransmissionVector Real.sqrt (1 : ℝ) (3 / 2) ⟨0, 0, 1⟩ ⟨0, 0, -1⟩) = 1 :=
  have hTIR : (1 : ℝ) / (3 / 2) * (1 / (3 / 2))
      * (1 - AiV3Dot (AiV3Normalize Real.sqrt ⟨0, 0, 1⟩) (AiV3Normalize Real.sqrt ⟨0, 0, -1⟩)
            * AiV3Dot (AiV3Normalize Real.sqrt ⟨0, 0, 1⟩)
                (AiV3Normalize Real.sqrt ⟨0, 0, -1⟩)) ≤ 1 := by
    simp [AiV3Normalize, AiV3Dot]
  ⟨hTIR, (C8_transmission_vector_snell Real.sqrt isSqrt_real 1 (3 / 2)
    ⟨0, 0, 1⟩ ⟨0, 0, -1⟩ (by simp) (by simp) hTIR).2.1⟩

end Primitives

section Disk

variable {K : Type} [LinearOrderedField K]

/-- Away from the centre of the square the sampler returns a point whose
squared norm is `max(|sx|, |sy|)²`, inside the closed unit disk. -/
theorem ConcentricSampleDisk_unit_disk (cos sin : K → K)
    (hcs : ∀ t, cos t * cos t + sin t * sin t = 1) (AI_PI u1 u2 : K)
    (h1 : 0 ≤ u1) (h1' : u1 < 1) (h2 : 0 ≤ u2) (h2' : u2 < 1)
    (hne : ¬ (u1 = 1 / 2 ∧ u2 = 1 / 2)) :
    ∃ dx dy : K, ConcentricSampleDisk cos sin AI_PI u1 u2 = some (dx, dy) ∧
      dx * dx + dy * dy = max |2 * u1 - 1| |2 * u2 - 1| * max |2 * u1 - 1| |2 * u2 - 1| ∧
      dx * dx + dy * dy ≤ 1 := by
  have key : ∀ (r θ : K), (r = max |2 * u1 - 1| |2 * u2 - 1|) →
      (r * cos θ) * (r * cos θ) + (r * sin θ) * (r * sin θ)
          = max |2 * u1 - 1| |2 * u2 - 1| * max |2 * u1 - 1| |2 * u2 - 1| ∧
      (r * cos θ) * (r * cos θ) + (r * sin θ) * (r * sin θ) ≤ 1 := by
    intro r θ hr
    have e : (r * cos θ) * (r * cos θ) + (r * sin θ) * (r * sin θ) = r * r := by
      linear_combination (r * r) * hcs θ
    have hr0 : 0 ≤ r := by rw [hr]; exact le_max_of_le_left (abs_nonneg _)
    have hr1 : r ≤ 1 := by
      rw [hr]
      apply max_le <;> rw [abs_le] <;> constructor <;> linarith
    rw [e, hr]
    refine ⟨rfl, ?_⟩
    rw [← hr]
    nlinarith
  have hsx : ¬ (2 * u1 - 1 = 0 ∧ 2 * u2 - 1 = 0) := by
    rintro ⟨ha, hb⟩
    exact hne ⟨by linarith, by linarith⟩
  unfold ConcentricSampleDisk checkedDiv
  simp only []
  by_cases hA : 2 * u1 - 1 ≥ -(2 * u2 - 1)
  · by_cases hB : 2 * u1 - 1 > 2 * u2 - 1
    · have hr : (2 * u1 - 1) ≠ 0 := by intro h; linarith
      have hm : 2 * u1 - 1 = max |2 * u1 - 1| |2 * u2 - 1| := by
        rw [abs_of_nonneg (by linarith : (0 : K) ≤ 2 * u1 - 1), max_eq_left]
        rw [abs_le]; constructor <;> linarith
      simp only [hA, hB, hr, if_true, if_false, Option.map_some']
      exact ⟨_, _, rfl, key _ _ hm⟩
    · have hr : (2 * u2 - 1) ≠ 0 := by
        intro h
        apply hsx
        exact ⟨by linarith, h⟩
      have hm : 2 * u2 - 1 = max |2 * u1 - 1| |2 * u2 - 1| := by
        rw [abs_of_nonneg (by linarith : (0 : K) ≤ 2 * u2 - 1), max_eq_right]
        rw [abs_le]; constructor <;> linarith
      simp only [hA, hB, hr, if_true, if_false, Option.map_some']
      exact ⟨_, _, rfl, key _ _ hm⟩
  · by_cases hB : 2 * u1 - 1 ≤ 2 * u2 - 1
    · have hr : -(2 * u1 - 1) ≠ 0 := by intro h; linarith
      have hm : -(2 * u1 - 1) = max |2 * u1 - 1| |2 * u2 - 1| := by
        rw [abs_of_nonpos (by linarith : 2 * u1 - 1 ≤ (0 : K)), max_eq_left]
        rw [abs_le]; constructor <;> linarith
      simp only [hA, hB, hr, if_true, if_false, Option.map_some']
      exact ⟨_, _, rfl, key _ _ hm⟩
    · have hr : -(2 * u2 - 1) ≠ 0 := by intro h; linarith
      have hm : -(2 * u2 - 1) = max |2 * u1 - 1| |2 * u2 - 1| := by
        rw [abs_of_nonpos (by linarith : 2 * u2 - 1 ≤ (0 : K)), max_eq_right]
        rw [abs_le]; constructor <;> linarith
      simp only [hA, hB, hr, if_true, if_false, Option.map_some']
      exact ⟨_, _, rfl, key _ _ hm⟩

/-- Claim C10 (evaluation at the centre of the square).  At `u1 = u2 = 1/2`,
inputs in `[0,1)`, the remapped point is `(0, 0)`, the degenerate branch does
not return, the second region divides `sx` by the radius `sy = 0`, and
`ConcentricSampleDisk` has no defined output (`none`; NaN in `float`): there
the output is not a point of the unit disk. -/
theorem C10_disk_sampler_centre_undefined (cos sin : ℚ → ℚ) (AI_PI : ℚ) :
    (0 : ℚ) ≤ 1 / 2 ∧ (1 / 2 : ℚ) < 1 ∧
      ConcentricSampleDisk cos sin AI_PI (1 / 2) (1 / 2) = none := by
  refine ⟨by norm_num, by norm_num, ?_⟩
  unfold ConcentricSampleDisk checkedDiv
  norm_num

end Disk

section Loader

variable {K : Type} [LinearOrderedField K]

theorem appendRows_nil (ld : Lensdata K) : ld.appendRows [] = ld := by
  cases ld
  simp [Lensdata.appendRows]

theorem appendRows_cons (ld : Lensdata K) (row : K × K × K × K)
    (rows : List (K × K × K × K)) :
    ld.appendRows (row :: rows) = (ld.appendRows [row]).appendRows rows := by
  simp [Lensdata.appendRows]

/-- A data line moves the counter through `1, 2, 3, 4` and back to `1`, and
appends one entry to each sequence. -/
theorem readLine_data (stod : String → Option K) (ld : Lensdata K) (line : String)
    (row : K × K × K × K) (hdata : isCommentOrEmpty line = false)
    (hrow : IsDataLine stod line row) :
    readLine stod (1, ld) line = some (1, ld.appendRows [row]) := by
  obtain ⟨a, b, c, d, htok, ha, hb, hc, hd⟩ := hrow
  unfold readLine
  rw [hdata, htok]
  simp [readToken, ha, hb, hc, hd, Lensdata.appendRows]

theorem foldlM_readLine (stod : String → Option K) :
    ∀ (lines : List String) (rows : List (K × K × K × K)) (ld : Lensdata K),
      List.Forall₂ (IsDataLine stod) (lines.filter fun l => !isCommentOrEmpty l) rows →
      lines.foldlM (readLine stod) (1, ld) = some (1, ld.appendRows rows) := by
  intro lines
  induction lines with
  | nil =>
    intro rows ld h
    simp only [List.filter_nil, List.forall₂_nil_left_iff] at h
    subst h
    simp [appendRows_nil]
  | cons line lines ih =>
    intro rows ld h
    by_cases hc : isCommentOrEmpty line = true
    · have hf : (line :: lines).filter (fun l => !isCommentOrEmpty l)
          = lines.filter (fun l => !isCommentOrEmpty l) := by
        simp [List.filter_cons, hc]
      rw [hf] at h
      rw [List.foldlM_cons]
      have : readLine stod (1, ld) line = some (1, ld) := by
        unfold readLine; simp [hc]
      rw [this]
      exact ih rows ld h
    · have hc2 : isCommentOrEmpty line = false := by simpa using hc
      have hf : (line :: lines).filter (fun l => !isCommentOrEmpty l)
          = line :: lines.filter (fun l => !isCommentOrEmpty l) := by
        simp [List.filter_cons, hc2]
      rw [hf] at h
      obtain ⟨row, rows', hrow, hrest, rfl⟩ := List.forall₂_cons_left_iff.mp h
      rw [List.foldlM_cons, readLine_data stod ld line row hc2 hrow,
        appendRows_cons ld row rows']
      exact ih rows' _ hrest

theorem getElem?_reverse_map {α β : Type} (f : α → β) (l : List α) (i : Nat)
    (hi : i < l.length) :
    (l.map f).reverse[i]? = (l[l.length - 1 - i]?).map f := by
  rw [List.getElem?_reverse (by simpa using hi)]
  simp

/-- Claim C9 (lens loader).  For a lens file whose data lines (the lines that
are neither empty nor starting with `#`) each hold exactly four tab-separated
fields accepted by `stod`, with values `rows` in file order, loaded into a
`Lensdata` with empty sequences (only `lensThickness` needs to be empty: the
other three are cleared by the reset): `readTabularLensData` succeeds, each of
the four stored sequences is the reverse of the corresponding column of `rows`,
hence has length `N = rows.length` with entry `i` taken from data line
`N - 1 - i`; an index of refraction `0` is stored as `1` and every other value
unchanged; comment and empty lines contribute nothing. -/
theorem C9_lens_loader_reverses_rows (stod : String → Option K) (lines : List String)
    (rows : List (K × K × K × K)) (ld : Lensdata K) (hempty : ld.lensThickness = [])
    (hrows : List.Forall₂ (IsDataLine stod)
      (lines.filter fun l => !isCommentOrEmpty l) rows) :
    ∃ ld', readTabularLensData stod lines ld = some ld' ∧
      ld'.lensRadiusCurvature = (rows.map fun r => r.1).reverse ∧
      ld'.lensThickness = (rows.map fun r => r.2.1).reverse ∧
      ld'.lensIOR = (rows.map fun r => if r.2.2.1 = 0 then 1 else r.2.2.1).reverse ∧
      ld'.lensAperture = (rows.map fun r => r.2.2.2).reverse ∧
      (ld'.lensRadiusCurvature.length = rows.length ∧ ld'.lensThickness.length = rows.length
        ∧ ld'.lensIOR.length = rows.length ∧ ld'.lensAperture.length = rows.length) ∧
      ∀ i, i < rows.length →
        ld'.lensRadiusCurvature[i]? = (rows[rows.length - 1 - i]?).map (fun r => r.1) ∧
        ld'.lensThickness[i]? = (rows[rows.length - 1 - i]?).map (fun r => r.2.1) ∧
        ld'.lensIOR[i]?
          = (rows[rows.length - 1 - i]?).map (fun r => if r.2.2.1 = 0 then 1 else r.2.2.1) ∧
        ld'.lensAperture[i]? = (rows[rows.length - 1 - i]?).map (fun r => r.2.2.2) := by
  have hfold := foldlM_readLine stod lines rows
    { ld with lensAperture := [], lensIOR := [], lensRadiusCurvature := [] } hrows
  unfold readTabularLensData
  simp only [hfold, Option.bind_eq_bind, Option.some_bind]
  refine ⟨_, rfl, ?_, ?_, ?_, ?_, ?_, ?_⟩
  · simp [Lensdata.appendRows]
  · simp [Lensdata.appendRows, hempty]
  · simp [Lensdata.appendRows]
  · simp [Lensdata.appendRows]
  · simp [Lensdata.appendRows, hempty]
  · intro i hi
    simp only [Lensdata.appendRows, hempty, List.nil_append]
    exact ⟨getElem?_reverse_map _ rows i hi, getElem?_reverse_map _ rows i hi,
      getElem?_reverse_map _ rows i hi, getElem?_reverse_map _ rows i hi⟩

theorem C9_lens_loader_reverses_rows_witness :
    ∃ ld', readTabularLensData exampleStod exampleLensFile Lensdata.new = some ld' ∧
      ld'.lensRadiusCurvature = [-40, 0, 71 / 2] ∧
      ld'.lensThickness = [2, 4, 5 / 4] ∧
      ld'.lensIOR = [1, 1, 3 / 2] ∧
      ld'.lensAperture = [20, 18, 23] := by
  have h := C9_lens_loader_reverses_rows exampleStod exampleLensFile
    [(71 / 2, 5 / 4, 3 / 2, 23), (0, 4, 0, 18), (-40, 2, 1, 20)] Lensdata.new rfl
    (by
      have hf : (exampleLensFile.filter fun l => !isCommentOrEmpty l)
          = ["35.5\t1.25\t1.5\t23.0", "0.0\t4.0\t0.0\t18.0", "-40.0\t2.0\t1.0\t20.0"] := by
        decide
      rw [hf]
      refine List.Forall₂.cons ⟨"35.5", "1.25", "1.5", "23.0", by decide, rfl, rfl, rfl, rfl⟩
        (List.Forall₂.cons ⟨"0.0", "4.0", "0.0", "18.0", by decide, rfl, rfl, rfl, rfl⟩
          (List.Forall₂.cons ⟨"-40.0", "2.0", "1.0", "20.0", by decide, rfl, rfl, rfl, rfl⟩
            List.Forall₂.nil)))
  obtain ⟨ld', h1, h2, h3, h4, h5, _⟩ := h
  refine ⟨ld', h1, ?_, ?_, ?_, ?_⟩
  · rw [h2]; simp
  · rw [h3]; simp
  · rw [h4]; norm_num
  · rw [h5]; simp

end Loader

section CameraTheorems

variable {K : Type} [LinearOrderedField K]

/-- Claim C11 (exposure step).  The exposure step of `camera_create_ray`
multiplies the weight by `1 + e²` when the exposure control `e` is positive, by
`1 / (1 + e²)` when it is negative and leaves it unchanged when `e = 0`; the
multiplier for `e` times the multiplier for `-e` is `1`, so stepping by `e` and
then by `-e` restores the weight; in thin-lens mode the weight returned by
`camera_create_ray` is the incoming weight after this step. -/
theorem C11_exposure_step_symmetric (e w : K) :
    (0 < e → exposureStep e w = w * (1 + e * e)) ∧
    (e < 0 → exposureStep e w = w * (1 / (1 + e * e))) ∧
    (e = 0 → exposureStep e w = w) ∧
    exposureStep e 1 * exposureStep (-e) 1 = 1 ∧
    exposureStep (-e) (exposureStep e w) = w ∧
    ∀ (sqrt cos sin : K → K) (AI_PI : K) (U : Indeterminate K)
      (dofBlock : AtCameraOutput K → AtCameraOutput K) (params : CameraParams K)
      (camera : cameraData K) (ld : Lensdata K) (input : AtCameraInput K)
      (output : AtCameraOutput K),
      params.kolb = false → params.exposureControl = e → output.weight = w →
      (camera_create_ray sqrt cos sin AI_PI U dofBlock params camera ld input output).map
        (fun r => r.1.weight) = some (exposureStep e w) := by
  have hpos : (0 : K) < 1 + e * e := by nlinarith [mul_self_nonneg e]
  refine ⟨?_, ?_, ?_, ?_, ?_, ?_⟩
  · intro h
    simp [exposureStep, h]
  · intro h
    simp [exposureStep, h, not_lt.mpr h.le]
  · intro h
    simp [exposureStep, h]
  · rcases lt_trichotomy e 0 with h | h | h
    · have h2 : 0 < -e := by linarith
      simp only [exposureStep, h, h2, not_lt.mpr h.le, if_true, if_false, neg_mul_neg]
      field_simp
    · subst h
      simp [exposureStep]
    · have h2 : -e < 0 := by linarith
      simp only [exposureStep, h, h2, not_lt.mpr h2.le, if_true, if_false, neg_mul_neg]
      field_simp
  · rcases lt_trichotomy e 0 with h | h | h
    · have h2 : 0 < -e := by linarith
      simp only [exposureStep, h, h2, not_lt.mpr h.le, if_true, if_false, neg_mul_neg]
      field_simp
    · subst h
      simp [exposureStep]
    · have h2 : -e < 0 := by linarith
      simp only [exposureStep, h, h2, not_lt.mpr h2.le, if_true, if_false, neg_mul_neg]
      field_simp
  · intro sqrt cos sin AI_PI U dofBlock params camera ld input output hk he hw
    simp [camera_create_ray, hk, he, hw]

/-- Witness of C11 at `e = 2`, `w = 1`. -/
theorem C11_exposure_step_symmetric_witness :
    (0 : ℚ) < 2 ∧ exposureStep (2 : ℚ) 1 = 1 * (1 + 2 * 2) :=
  ⟨by norm_num, (C11_exposure_step_symmetric (2 : ℚ) 1).1 (by norm_num)⟩

theorem exposureStep_bounds (e w : K) (h0 : 0 ≤ w) (h1 : w ≤ 1) :
    0 ≤ exposureStep e w ∧ (e ≤ 0 → exposureStep e w ≤ 1)
      ∧ (0 < e → exposureStep e w ≤ 1 + e * e) := by
  have hpos : (0 : K) < 1 + e * e := by nlinarith [mul_self_nonneg e]
  have hge : (1 : K) ≤ 1 + e * e := by nlinarith [mul_self_nonneg e]
  rcases lt_trichotomy e 0 with h | h | h
  · simp only [exposureStep, h, not_lt.mpr h.le, if_true, if_false]
    refine ⟨by positivity, fun _ => ?_, fun h' => False.elim h'⟩
    rw [mul_one_div, div_le_one hpos]
    linarith
  · subst h
    simp only [exposureStep, lt_irrefl, if_false]
    exact ⟨h0, fun _ => h1, fun h' => False.elim h'⟩
  · simp only [exposureStep, h, if_true]
    refine ⟨by positivity, fun h' => absurd h (not_lt.mpr h'), fun _ => ?_⟩
    nlinarith

theorem traceBody_weight_cases (sqrt : K → K) (U : Indeterminate K) (i : Nat)
    (s : TraceState K) :
    (traceBody sqrt U i s).weight = s.weight ∨ (traceBody sqrt U i s).weight = 0 := by
  unfold traceBody
  simp only []
  split <;> split <;> simp [traceHit_weight]

theorem traceLoop_weight_cases (sqrt : K → K) (U : Indeterminate K) (s : TraceState K) :
    ∀ n, (traceLoop sqrt U n s).weight = s.weight ∨ (traceLoop sqrt U n s).weight = 0 := by
  intro n
  induction n with
  | zero => exact Or.inl rfl
  | succ n ih =>
    rw [traceLoop]
    rcases traceBody_weight_cases sqrt U n (traceLoop sqrt U n s) with h | h
    · rw [h]; exact ih
    · exact Or.inr h

theorem ConcentricSampleDisk_isSome (cos sin : K → K) (AI_PI u1 u2 : K)
    (hne : ¬ (u1 = 1 / 2 ∧ u2 = 1 / 2)) :
    ∃ p, ConcentricSampleDisk cos sin AI_PI u1 u2 = some p := by
  have hsx : ¬ (2 * u1 - 1 = 0 ∧ 2 * u2 - 1 = 0) := by
    rintro ⟨ha, hb⟩
    exact hne ⟨by linarith, by linarith⟩
  unfold ConcentricSampleDisk checkedDiv
  simp only []
  by_cases hA : 2 * u1 - 1 ≥ -(2 * u2 - 1)
  · by_cases hB : 2 * u1 - 1 > 2 * u2 - 1
    · have hr : (2 * u1 - 1) ≠ 0 := by intro h; linarith
      simp only [hA, hB, hr, if_true, if_false, Option.map_some']
      exact ⟨_, rfl⟩
    · have hr : (2 * u2 - 1) ≠ 0 := by
        intro h
        exact hsx ⟨by linarith, h⟩
      simp only [hA, hB, hr, if_true, if_false, Option.map_some']
      exact ⟨_, rfl⟩
  · by_cases hB : 2 * u1 - 1 ≤ 2 * u2 - 1
    · have hr : -(2 * u1 - 1) ≠ 0 := by intro h; linarith
      simp only [hA, hB, hr, if_true, if_false, Option.map_some']
      exact ⟨_, rfl⟩
    · have hr : -(2 * u2 - 1) ≠ 0 := by intro h; linarith
      simp only [hA, hB, hr, if_true, if_false, Option.map_some']
      exact ⟨_, rfl⟩

/-- Claim C12 as amended (range of the returned weight).  For an incoming
weight in `[0,1]` and every configuration, `camera_create_ray` produces a ray
(except in lens-stack mode at the lens sample `(1/2, 1/2)`), and the weight of
every ray it produces is non-negative, at most `1` when the exposure control
`e` is `≤ 0`, and at most `1 + e²` when `e > 0`. -/
theorem C12_returned_weight_range (sqrt cos sin : K → K) (AI_PI : K) (U : Indeterminate K)
    (dofBlock : AtCameraOutput K → AtCameraOutput K) (params : CameraParams K)
    (camera : cameraData K) (ld : Lensdata K) (input : AtCameraInput K)
    (output : AtCameraOutput K) (h0 : 0 ≤ output.weight) (h1 : output.weight ≤ 1) :
    (¬ (params.kolb = true ∧ input.lensx = 1 / 2 ∧ input.lensy = 1 / 2) →
      ∃ r, camera_create_ray sqrt cos sin AI_PI U dofBlock params camera ld input output
        = some r) ∧
    ∀ r, camera_create_ray sqrt cos sin AI_PI U dofBlock params camera ld input output
        = some r →
      0 ≤ r.1.weight ∧ (params.exposureControl ≤ 0 → r.1.weight ≤ 1) ∧
      (0 < params.exposureControl →
        r.1.weight ≤ 1 + params.exposureControl * params.exposureControl) := by
  cases hk : params.kolb
  · refine ⟨fun _ => ⟨_, by simp [camera_create_ray, hk]; rfl⟩, ?_⟩
    intro r hr
    simp only [camera_create_ray, hk, Bool.not_false, if_true, Bool.false_eq_true, if_false,
      Option.map_some', Option.some.injEq] at hr
    subst hr
    exact exposureStep_bounds _ _ h0 h1
  · constructor
    · intro hne
      have hne2 : ¬ (input.lensx = 1 / 2 ∧ input.lensy = 1 / 2) := fun h => hne ⟨rfl, h⟩
      obtain ⟨p, hp⟩ := ConcentricSampleDisk_isSome cos sin AI_PI input.lensx input.lensy hne2
      exact ⟨_, by simp [camera_create_ray, hk, hp]; rfl⟩
    · intro r hr
      simp only [camera_create_ray, hk, Bool.not_true, Bool.false_eq_true, if_false, if_true,
        Option.map_map, Option.map_eq_some'] at hr
      obtain ⟨p, _, hr⟩ := hr
      subst hr
      simp only [Function.comp]
      apply exposureStep_bounds
      · rcases traceLoop_weight_cases sqrt U
            (traceInit U ⟨input.sx * 36, input.sy * 24, 0⟩ ⟨p.1, p.2, ld.apertureDistance⟩
              output.weight ld) ld.lensRadiusCurvature.length with h | h
        · unfold traceThroughLensElements; rw [h]; exact h0
        · unfold traceThroughLensElements; rw [h]
      · rcases traceLoop_weight_cases sqrt U
            (traceInit U ⟨input.sx * 36, input.sy * 24, 0⟩ ⟨p.1, p.2, ld.apertureDistance⟩
              output.weight ld) ld.lensRadiusCurvature.length with h | h
        · unfold traceThroughLensElements; rw [h]; exact h1
        · unfold traceThroughLensElements; rw [h]; exact zero_le_one

end CameraTheorems

section CameraEvaluation

/-- Counterexample to C12 as stated: in thin-lens mode with exposure control
`1`, an incoming weight `1` (in `[0,1]`) is returned as `2`. -/
theorem C12_weight_exceeds_one :
    (0 : ℝ) ≤ (freshOutput : AtCameraOutput ℝ).weight ∧
    (freshOutput : AtCameraOutput ℝ).weight ≤ 1 ∧
    (camera_create_ray Real.sqrt Real.cos Real.sin Real.pi zeroIndeterminate id
        (thinLensParams 1) unitCamera singleLens centreInput freshOutput).map
      (fun r => r.1.weight) = some 2 ∧
    ¬ ((2 : ℝ) ≤ 1) := by
  refine ⟨by simp [freshOutput], by simp [freshOutput], ?_, by norm_num⟩
  simp [camera_create_ray, thinLensParams, freshOutput, exposureStep]
  norm_num

/-- Witness of the amended C12: thin-lens mode with exposure control `-1`. -/
theorem C12_returned_weight_range_witness :
    ∃ r, camera_create_ray Real.sqrt Real.cos Real.sin Real.pi zeroIndeterminate id
        (thinLensParams (-1)) unitCamera singleLens centreInput freshOutput = some r ∧
      0 ≤ r.1.weight ∧ r.1.weight ≤ 1 := by
  have h := C12_returned_weight_range Real.sqrt Real.cos Real.sin Real.pi zeroIndeterminate id
    (thinLensParams (-1)) unitCamera singleLens centreInput freshOutput
    (by simp [freshOutput]) (by simp [freshOutput])
  obtain ⟨r, hr⟩ := h.1 (by simp [thinLensParams])
  exact ⟨r, hr, (h.2 r hr).1, (h.2 r hr).2.1 (by simp [thinLensParams])⟩

end CameraEvaluation

section Frame

variable {K : Type} [LinearOrderedField K]

theorem traceHit_frame (sqrt : K → K) (i : Nat) (s : TraceState K) :
    (traceHit sqrt i s).1.ld.lensThickness = s.ld.lensThickness ∧
    (traceHit sqrt i s).1.ld.lensIOR = s.ld.lensIOR ∧
    (traceHit sqrt i s).1.ld.apertureDistance = s.ld.apertureDistance ∧
    (traceHit sqrt i s).1.ld.xres = s.ld.xres ∧
    (traceHit sqrt i s).1.ld.yres = s.ld.yres := by
  unfold traceHit
  simp only []
  split <;> exact ⟨rfl, rfl, rfl, rfl, rfl⟩

theorem traceBody_frame (sqrt : K → K) (U : Indeterminate K) (i : Nat) (s : TraceState K) :
    (traceBody sqrt U i s).ld.lensThickness = s.ld.lensThickness ∧
    (traceBody sqrt U i s).ld.lensIOR = s.ld.lensIOR ∧
    (traceBody sqrt U i s).ld.apertureDistance = s.ld.apertureDistance ∧
    (traceBody sqrt U i s).ld.xres = s.ld.xres ∧
    (traceBody sqrt U i s).ld.yres = s.ld.yres := by
  obtain ⟨h1, h2, h3, h4, h5⟩ := traceHit_frame sqrt i s
  unfold traceBody
  simp only []
  split <;> split <;> exact ⟨h1, h2, h3, h4, h5⟩

theorem traceBody_lensRadiusCurvature (sqrt : K → K) (U : Indeterminate K) (i : Nat)
    (s : TraceState K) :
    (traceBody sqrt U i s).ld.lensRadiusCurvature
      = if s.ld.lensRadiusCurvature.getD i 0 = 0 ∨ s.ld.lensRadiusCurvature.getD i 0 = 99999
        then s.ld.lensRadiusCurvature.set i 99999 else s.ld.lensRadiusCurvature := by
  have h : (traceHit sqrt i s).1.ld.lensRadiusCurvature
      = if s.ld.lensRadiusCurvature.getD i 0 = 0 ∨ s.ld.lensRadiusCurvature.getD i 0 = 99999
        then s.ld.lensRadiusCurvature.set i 99999 else s.ld.lensRadiusCurvature := by
    unfold traceHit
    simp only [decide_eq_true_eq]
    split <;> rfl
  unfold traceBody
  simp only []
  split <;> split <;> exact h

/-- After `k` iterations the first `k` stored radii have had `0` replaced by the
flat sentinel and the others are as stored. -/
theorem traceLoop_lensRadiusCurvature (sqrt : K → K) (U : Indeterminate K)
    (s : TraceState K) : ∀ k j : Nat,
    (traceLoop sqrt U k s).ld.lensRadiusCurvature[j]?
      = if j < k then (s.ld.lensRadiusCurvature[j]?).map (fun r => if r = 0 then 99999 else r)
        else s.ld.lensRadiusCurvature[j]? := by
  intro k
  induction k with
  | zero => intro j; simp [traceLoop]
  | succ k ih =>
    intro j
    rw [traceLoop, traceBody_lensRadiusCurvature]
    have hk := ih k
    simp only [lt_irrefl, if_false] at hk
    have hgetD : (traceLoop sqrt U k s).ld.lensRadiusCurvature.getD k 0
        = s.ld.lensRadiusCurvature.getD k 0 := by
      rw [List.getD_eq_getElem?_getD, List.getD_eq_getElem?_getD, hk]
    rw [hgetD]
    by_cases hjk : j = k
    · subst hjk
      have hlt : j < j + 1 := Nat.lt_succ_self j
      simp only [hlt, if_true]
      cases hs : s.ld.lensRadiusCurvature[j]? with
      | none =>
        have hn : (traceLoop sqrt U j s).ld.lensRadiusCurvature[j]? = none := by rw [hk, hs]
        have hlen : ¬ j < (traceLoop sqrt U j s).ld.lensRadiusCurvature.length :=
          Nat.not_lt.mpr (List.getElem?_eq_none_iff.mp hn)
        split
        · rw [List.getElem?_set]
          simp [hlen]
        · simp [hn]
      | some r =>
        have hsome : (traceLoop sqrt U j s).ld.lensRadiusCurvature[j]? = some r := by
          rw [hk, hs]
        have hr : s.ld.lensRadiusCurvature.getD j 0 = r := by
          rw [List.getD_eq_getElem?_getD, hs]; rfl
        have hlen : j < (traceLoop sqrt U j s).ld.lensRadiusCurvature.length := by
          by_contra hcon
          rw [List.getElem?_eq_none (by omega)] at hsome
          cases hsome
        rw [hr]
        by_cases h0 : r = 0
        · simp [h0, List.getElem?_set, hlen]
        · by_cases h9 : r = 99999
          · simp [h9, List.getElem?_set, hlen]
          · simp [h0, h9, hsome]
    · have hrest : (if s.ld.lensRadiusCurvature.getD k 0 = 0
            ∨ s.ld.lensRadiusCurvature.getD k 0 = 99999
          then (traceLoop sqrt U k s).ld.lensRadiusCurvature.set k 99999
          else (traceLoop sqrt U k s).ld.lensRadiusCurvature)[j]?
          = (traceLoop sqrt U k s).ld.lensRadiusCurvature[j]? := by
        split
        · rw [List.getElem?_set_ne (Ne.symm hjk)]
        · rfl
      rw [hrest, ih j]
      by_cases hlt : j < k
      · simp [hlt, Nat.lt_succ_of_lt hlt]
      · have : ¬ j < k + 1 := by omega
        simp [hlt, this]

theorem traceLoop_frame (sqrt : K → K) (U : Indeterminate K) (s : TraceState K) :
    ∀ n, (traceLoop sqrt U n s).ld.lensThickness = s.ld.lensThickness ∧
      (traceLoop sqrt U n s).ld.lensIOR = s.ld.lensIOR ∧
      (traceLoop sqrt U n s).ld.apertureDistance = s.ld.apertureDistance ∧
      (traceLoop sqrt U n s).ld.xres = s.ld.xres ∧
      (traceLoop sqrt U n s).ld.yres = s.ld.yres := by
  intro n
  induction n with
  | zero => exact ⟨rfl, rfl, rfl, rfl, rfl⟩
  | succ n ih =>
    obtain ⟨h1, h2, h3, h4, h5⟩ := traceBody_frame sqrt U n (traceLoop sqrt U n s)
    obtain ⟨g1, g2, g3, g4, g5⟩ := ih
    rw [traceLoop]
    exact ⟨h1.trans g1, h2.trans g2, h3.trans g3, h4.trans g4, h5.trans g5⟩

theorem trace_lensRadiusCurvature (sqrt : K → K) (U : Indeterminate K)
    (ray_origin ray_direction : AtVector K) (weight : K) (ld : Lensdata K)
    (lensx lensy : K) :
    (traceThroughLensElements sqrt U ray_origin ray_direction weight ld lensx
        lensy).ld.lensRadiusCurvature
      = ld.lensRadiusCurvature.map fun r => if r = 0 then 99999 else r := by
  unfold traceThroughLensElements
  apply List.ext_getElem?
  intro j
  rw [traceLoop_lensRadiusCurvature, List.getElem?_map]
  simp only [traceInit]
  by_cases hj : j < ld.lensRadiusCurvature.length
  · simp [hj]
  · simp [hj, List.getElem?_eq_none (not_lt.mp hj)]

/-- Claim C13 as amended (frame of the tracer).  For every prescription and
ray, `traceThroughLensElements` leaves the thickness, index-of-refraction and
clear-aperture sequences and the aperture distance (and `xres`, `yres`) as they
were; the curvature-radius sequence comes back with every stored `0` replaced
by the flat sentinel `99999` and every other entry unchanged, hence unchanged
when no stored radius is `0`. -/
theorem C13_tracer_frame (sqrt : K → K) (U : Indeterminate K)
    (ray_origin ray_direction : AtVector K) (weight : K) (ld : Lensdata K)
    (lensx lensy : K) :
    (traceThroughLensElements sqrt U ray_origin ray_direction weight ld lensx
        lensy).ld.lensThickness = ld.lensThickness ∧
    (traceThroughLensElements sqrt U ray_origin ray_direction weight ld lensx
        lensy).ld.lensIOR = ld.lensIOR ∧
    (traceThroughLensElements sqrt U ray_origin ray_direction weight ld lensx
        lensy).ld.lensAperture = ld.lensAperture ∧
    (traceThroughLensElements sqrt U ray_origin ray_direction weight ld lensx
        lensy).ld.apertureDistance = ld.apertureDistance ∧
    (traceThroughLensElements sqrt U ray_origin ray_direction weight ld lensx
        lensy).ld.lensRadiusCurvature
      = (ld.lensRadiusCurvature.map fun r => if r = 0 then 99999 else r) ∧
    ((∀ r ∈ ld.lensRadiusCurvature, r ≠ 0) →
      (traceThroughLensElements sqrt U ray_origin ray_direction weight ld lensx
        lensy).ld.lensRadiusCurvature = ld.lensRadiusCurvature) := by
  have hf := traceLoop_frame sqrt U (traceInit U ray_origin ray_direction weight ld)
    ld.lensRadiusCurvature.length
  have hr := trace_lensRadiusCurvature sqrt U ray_origin ray_direction weight ld lensx lensy
  refine ⟨hf.1, hf.2.1, traceLoop_lensAperture sqrt U _ _, hf.2.2.1, hr, ?_⟩
  intro hne
  rw [hr]
  conv_rhs => rw [← List.map_id ld.lensRadiusCurvature]
  apply List.map_congr_left
  intro r hrm
  simp [hne r hrm]

/-- Witness of the amended C13 on a prescription without a stored radius `0`. -/
theorem C13_tracer_frame_witness :
    (traceThroughLensElements Real.sqrt zeroIndeterminate ⟨6, 0, -100⟩ ⟨0, 0, 1⟩ 1
        (singleLens : Lensdata ℝ) 0 0).ld.lensRadiusCurvature
      = (singleLens : Lensdata ℝ).lensRadiusCurvature :=
  (C13_tracer_frame Real.sqrt zeroIndeterminate ⟨6, 0, -100⟩ ⟨0, 0, 1⟩ 1
    (singleLens : Lensdata ℝ) 0 0).2.2.2.2.2 (by simp [singleLens])

/-- Counterexample to C13 as stated: tracing through the prescription with a
stored aperture-stop radius `0` changes the curvature-radius sequence from
`[0, 65]` to `[99999, 65]`. -/
theorem C13_radius_sequence_changed :
    (stopThenLens : Lensdata ℝ).lensRadiusCurvature = [0, 65] ∧
    (traceThroughLensElements Real.sqrt zeroIndeterminate ⟨0, 0, 0⟩ ⟨3, 0, 4⟩ 1
        (stopThenLens : Lensdata ℝ) 0 0).ld.lensRadiusCurvature = [99999, 65] ∧
    (traceThroughLensElements Real.sqrt zeroIndeterminate ⟨0, 0, 0⟩ ⟨3, 0, 4⟩ 1
        (stopThenLens : Lensdata ℝ) 0 0).ld.lensRadiusCurvature
      ≠ (stopThenLens : Lensdata ℝ).lensRadiusCurvature := by
  have h := trace_lensRadiusCurvature Real.sqrt zeroIndeterminate ⟨0, 0, 0⟩ ⟨3, 0, 4⟩ 1
    (stopThenLens : Lensdata ℝ) 0 0
  have h2 : (traceThroughLensElements Real.sqrt zeroIndeterminate ⟨0, 0, 0⟩ ⟨3, 0, 4⟩ 1
      (stopThenLens : Lensdata ℝ) 0 0).ld.lensRadiusCurvature = [99999, 65] := by
    rw [h]
    simp [stopThenLens]
  refine ⟨rfl, h2, ?_⟩
  rw [h2]
  simp [stopThenLens]

end Frame

section Miss

variable {K : Type} [LinearOrderedField K]

theorem isSqrt_sqrtOr (sqrt : K → K) (hs : IsSqrt sqrt) (v : K) : IsSqrt (sqrtOr sqrt v) := by
  intro x hx
  unfold sqrtOr
  rw [if_neg (not_lt.mpr hx)]
  exact hs x hx

theorem smallLens_discriminant (sqrt : K → K) (hs : IsSqrt sqrt) :
    (5 : K) * 5 - rayD2 sqrt ⟨0, 0, 1⟩ ⟨10, 0, -100⟩ ⟨0, 0, 0⟩ < 0 := by
  have h1 : sqrt 1 = 1 := hs.eq_of_sq (by norm_num) (by norm_num)
  simp [rayD2, rayTca, AiV3Normalize, AiV3Dot, h1]
  norm_num

theorem smallLens_weight (sqrt : K → K) (hs : IsSqrt sqrt) (U : Indeterminate K)
    (lensx lensy : K) :
    (traceThroughLensElements sqrt U ⟨10, 0, -100⟩ ⟨0, 0, 1⟩ 1 smallLens lensx lensy).weight
      = 1 := by
  have h1 : sqrt 1 = 1 := hs.eq_of_sq (by norm_num) (by norm_num)
  have h100 : sqrt 100 = 10 := hs.eq_of_sq (by norm_num) (by norm_num)
  have hh : hitPointHypotenuse sqrt 0 (traceInit U ⟨10, 0, -100⟩ ⟨0, 0, 1⟩ 1 smallLens)
      = 10 := by
    simp [hitPointHypotenuse, traceHit, traceInit, smallLens, raySphereIntersection,
      AiV3Normalize, AiV3Dot, copysignOne, h1]
    norm_num [h100]
  have hlen : (smallLens : Lensdata K).lensRadiusCurvature.length = 1 := rfl
  unfold traceThroughLensElements
  rw [hlen, traceLoop, traceLoop]
  unfold traceBody
  simp only [hh]
  simp [traceHit, traceInit, smallLens]
  norm_num

end Miss

/-- Claim C14 (evaluation at a ray that misses the sphere).  One surface of
radius `5` centred at the origin, clear aperture `40`; ray from `(10, 0, -100)`
along `+z` with weight `1`.  The discriminant `radius² - d2` is negative, and
whatever value `v` the square root of it is taken to be, and whatever the
indeterminate values, `traceThroughLensElements` returns weight `1`, not `0`. -/
theorem C14_missed_sphere_keeps_weight (v : ℝ) (U : Indeterminate ℝ) (lensx lensy : ℝ) :
    (5 : ℝ) * 5 - rayD2 (sqrtOr Real.sqrt v) ⟨0, 0, 1⟩ ⟨10, 0, -100⟩ ⟨0, 0, 0⟩ < 0 ∧
    (traceThroughLensElements (sqrtOr Real.sqrt v) U ⟨10, 0, -100⟩ ⟨0, 0, 1⟩ 1 smallLens
      lensx lensy).weight = 1 :=
  ⟨smallLens_discriminant _ (isSqrt_sqrtOr Real.sqrt isSqrt_real v),
    smallLens_weight _ (isSqrt_sqrtOr Real.sqrt isSqrt_real v) U lensx lensy⟩

section Lines

variable {K : Type} [LinearOrderedField K]

/-- Claim C16 (line–line intersection).  For two lines in the x-y plane, each
given by two points, with `A = y2 - y1`, `B = x1 - x2`, `C = A x1 + B y1` and
non-zero determinant `delta = A1 B2 - A2 B1`, `lineLineIntersection` returns a
point; it satisfies `A1 x + B1 y = C1` and `A2 x + B2 y = C2`, and it is the
only point that does. -/
theorem C16_line_line_intersection (p1 q1 p2 q2 : AtVector K)
    (hdelta : lineA p1 q1 * lineB p2 q2 - lineA p2 q2 * lineB p1 q1 ≠ 0) :
    ∃ p : AtVector2 K, lineLineIntersection p1 q1 p2 q2 = some p ∧
      lineA p1 q1 * p.x + lineB p1 q1 * p.y = lineC p1 q1 ∧
      lineA p2 q2 * p.x + lineB p2 q2 * p.y = lineC p2 q2 ∧
      ∀ q : AtVector2 K,
        lineA p1 q1 * q.x + lineB p1 q1 * q.y = lineC p1 q1 →
        lineA p2 q2 * q.x + lineB p2 q2 * q.y = lineC p2 q2 → q = p := by
  unfold lineC lineA lineB at *
  refine ⟨_, by simp [lineLineIntersection, checkedDiv, hdelta]; rfl, ?_, ?_, ?_⟩
  · simp only []
    field_simp
    ring
  · simp only []
    field_simp
    ring
  · intro q h1 h2
    cases q with
    | mk qx qy =>
      simp only [AtVector2.mk.injEq] at h1 h2 ⊢
      constructor
      · rw [eq_div_iff hdelta]
        linear_combination (p2.x - q2.x) * h1 - (p1.x - q1.x) * h2
      · rw [eq_div_iff hdelta]
        linear_combination (q1.y - p1.y) * h2 - (q2.y - p2.y) * h1

/-- Witness of C16: the x axis and the vertical line `x = 2` meet at `(2, 0)`. -/
theorem C16_line_line_intersection_witness :
    ∃ p : AtVector2 ℚ,
      lineLineIntersection (⟨0, 0, 0⟩ : AtVector ℚ) ⟨1, 0, 0⟩ ⟨2, -1, 0⟩ ⟨2, 1, 0⟩ = some p ∧
      lineA (⟨0, 0, 0⟩ : AtVector ℚ) ⟨1, 0, 0⟩ * p.x + lineB (⟨0, 0, 0⟩ : AtVector ℚ) ⟨1, 0, 0⟩ * p.y
        = lineC (⟨0, 0, 0⟩ : AtVector ℚ) ⟨1, 0, 0⟩ := by
  obtain ⟨p, hp, h1, _⟩ := C16_line_line_intersection (⟨0, 0, 0⟩ : AtVector ℚ) ⟨1, 0, 0⟩
    ⟨2, -1, 0⟩ ⟨2, 1, 0⟩ (by norm_num [lineA, lineB])
  exact ⟨p, hp, h1⟩

end Lines

section Focus

variable {K : Type} [LinearOrderedField K]

/-- The loop of `calculateImageDistance` on `airSurface` with object distance
`15`: the exit ray leaves `(57/5, 24/5, 0)` along `(-3/5, 4/5, 0)`, and the
returned `imageDistance` is the intersection of its line with the line through
`(99999, 0, 0)` and the indeterminate `axialEnd`. -/
theorem airSurface_focus (sqrt : K → K) (hs : IsSqrt sqrt) (U : FocusIndeterminate K) :
    focusLoop sqrt U 1 (focusInit U 15 airSurface)
      = { ray_origin_focus := ⟨57 / 5, 24 / 5, 0⟩,
          ray_direction_focus := ⟨-3 / 5, 4 / 5, 0⟩,
          summedThickness_focus := 5, ld := airSurface,
          imageDistance :=
            (lineLineIntersection ⟨99999, 0, 0⟩ U.axialEnd ⟨57 / 5, 24 / 5, 0⟩
              ⟨54 / 5, 28 / 5, 0⟩).map fun p => p.x } := by
  have h1 : sqrt 1 = 1 := hs.eq_of_sq (by norm_num) (by norm_num)
  have h625 : sqrt 625 = 25 := hs.eq_of_sq (by norm_num) (by norm_num)
  have h9 : sqrt 9 = 3 := hs.eq_of_sq (by norm_num) (by norm_num)
  have h25 : sqrt 25 = 5 := hs.eq_of_sq (by norm_num) (by norm_num)
  have h925 : sqrt (9 / 25) = 3 / 5 := hs.eq_of_sq (by norm_num) (by norm_num)
  simp [focusLoop, focusBody, focusRadius, focusInit, airSurface, raySphereIntersection,
    intersectionNormal, calculateTransmissionVector, AiV3Normalize, AiV3Dot, copysignOne,
    List.range_succ]
  norm_num [h1, h625, h9, h25, h925]

theorem airSurface_imageDistance (sqrt : K → K) (hs : IsSqrt sqrt)
    (U : FocusIndeterminate K) :
    (calculateImageDistance sqrt U 15 airSurface).1
      = (lineLineIntersection ⟨99999, 0, 0⟩ U.axialEnd ⟨57 / 5, 24 / 5, 0⟩
          ⟨54 / 5, 28 / 5, 0⟩).map fun p => p.x := by
  have hlen : (airSurface : Lensdata K).lensRadiusCurvature.length = 1 := rfl
  unfold calculateImageDistance
  simp only [hlen, airSurface_focus sqrt hs U]

end Focus

/-- Claim C15 (evaluation with an off-axis `axialEnd`).  One surface of radius
`-5` and index `1` at axial position `5`, object distance `15`: every surface
intersection is defined and the exit ray leaves `(57/5, 24/5, 0)` along
`(-3/5, 4/5, 0)`, so its line meets the optical axis `y = 0` at `x = 15`.  The
line handed to `lineLineIntersection` as the axis runs from `(99999, 0, 0)` to
the never-assigned `axialEnd`: when that local holds `(99999, 1, 0)` the
function returns `99999`; it returns `15` when the local happens to hold a
point of the axis such as `(0, 0, 0)`. -/
theorem C15_image_distance_depends_on_axialEnd :
    (∀ U : FocusIndeterminate ℝ,
      (focusLoop Real.sqrt U 1 (focusInit U 15 airSurface)).ray_origin_focus
          = ⟨57 / 5, 24 / 5, 0⟩ ∧
      (focusLoop Real.sqrt U 1 (focusInit U 15 airSurface)).ray_direction_focus
          = ⟨-3 / 5, 4 / 5, 0⟩) ∧
    ((57 / 5 : ℝ) + (-6) * (-3 / 5) = 15 ∧ (24 / 5 : ℝ) + (-6) * (4 / 5) = 0) ∧
    (calculateImageDistance Real.sqrt
        { imageDistance := 0, axialEnd := ⟨99999, 1, 0⟩ } 15 airSurface).1 = some 99999 ∧
    (calculateImageDistance Real.sqrt
        { imageDistance := 0, axialEnd := ⟨0, 0, 0⟩ } 15 airSurface).1 = some 15 := by
  refine ⟨fun U => ?_, by norm_num, ?_, ?_⟩
  · rw [airSurface_focus Real.sqrt isSqrt_real U]
    exact ⟨rfl, rfl⟩
  · rw [airSurface_imageDistance Real.sqrt isSqrt_real]
    norm_num [lineLineIntersection, checkedDiv]
  · rw [airSurface_imageDistance Real.sqrt isSqrt_real]
    norm_num [lineLineIntersection, checkedDiv]

namespace imageData

/-- Claim C17 (evaluation on a 1×4 image).  On the RGB image of width `1` and
height `4` whose only lit pixel is the top one (positive total luminance), the
build succeeds and the sample at `(1/4, 3/4)` is `(dx, dy) = (-2, 0)`: the
column index `0` is recentred with the height, `0 - (4 - 1)/2 = -1`, and
divided by the width `1`, so `dx < -1`. -/
theorem C17_sample_outside_unit_square (S : StdSort) :
    0 < totalValue litColumn ∧
    ∃ d, bokehProbability S litColumn = some d ∧
      bokehSample d (1 / 4) (3 / 4) = some (-2, 0) ∧ ¬ ((-1 : ℚ) ≤ -2) := by
  have h := single_bright_pixel_sample S litColumn (by decide) (by decide) (by decide) 0 0
    (by decide) (by decide)
    (by norm_num [luminance, pixelLuminance, litColumn])
    (by
      intro r c hr hc hne
      have hr2 : r < 4 := hr
      have hc2 : c < 1 := hc
      interval_cases r <;> interval_cases c <;>
        first
        | exact absurd rfl hne
        | norm_num [luminance, pixelLuminance, litColumn])
  obtain ⟨d, hd, hs⟩ := h
  refine ⟨by norm_num [totalValue, pixelValues, pixelLuminance, litColumn, List.range_succ],
    d, hd, ?_, by norm_num⟩
  rw [(hs (1 / 4) (3 / 4) (by norm_num) (by norm_num) (by norm_num) (by norm_num)).2.2]
  norm_num [litColumn]

end imageData

section DiskCentre

variable {K : Type} [LinearOrderedField K]

/-- Claim C18 (evaluation at the degenerate input).  At `u1 = u2 = 1/2` the
remapped point is `(sx, sy) = (0, 0)`; the branch that stores `(0, 0)` does not
return, the second region is entered with `radius = sy = 0`, the division
`sx / radius` by zero is evaluated, and `ConcentricSampleDisk` yields no defined
output, in particular not `(0, 0)`. -/
theorem C18_disk_sampler_degenerate_input (cos sin : K → K) (AI_PI : K) :
    (2 * (1 / 2 : K) - 1 = 0) ∧
    checkedDiv (2 * (1 / 2 : K) - 1) (2 * (1 / 2 : K) - 1) = none ∧
    ConcentricSampleDisk cos sin AI_PI (1 / 2) (1 / 2) = none ∧
    ConcentricSampleDisk cos sin AI_PI (1 / 2) (1 / 2) ≠ some (0, 0) := by
  have h : ConcentricSampleDisk cos sin AI_PI (1 / 2) (1 / 2) = none := by
    unfold ConcentricSampleDisk checkedDiv
    norm_num
  refine ⟨by norm_num, by unfold checkedDiv; norm_num, h, ?_⟩
  rw [h]
  exact fun hc => Option.noConfusion hc

end DiskCentre

section Axial

variable {K : Type} [LinearOrderedField K]

theorem AiV3Normalize_x (sqrt : K → K) (a : AtVector K) (h : a.x = 0) :
    (AiV3Normalize sqrt a).x = 0 := by
  simp [AiV3Normalize, h]

theorem AiV3Normalize_y (sqrt : K → K) (a : AtVector K) (h : a.y = 0) :
    (AiV3Normalize sqrt a).y = 0 := by
  simp [AiV3Normalize, h]

theorem AiV3Normalize_z (sqrt : K → K) (a : AtVector K) (h : a.z = 0) :
    (AiV3Normalize sqrt a).z = 0 := by
  simp [AiV3Normalize, h]

/-- The normal at a point of a sphere of non-zero radius is a unit vector. -/
theorem intersectionNormal_unit (sqrt : K → K) (hs : IsSqrt sqrt) (p c : AtVector K) (R : K)
    (hR : R ≠ 0) (hp : AiV3Dot (p - c) (p - c) = R * R) :
    AiV3Dot (intersectionNormal sqrt p c R) (intersectionNormal sqrt p c R) = 1 := by
  have hne : c - p ≠ ⟨0, 0, 0⟩ := by
    intro h0
    have hx : c.x - p.x = 0 := congrArg AtVector.x h0
    have hy : c.y - p.y = 0 := congrArg AtVector.y h0
    have hz : c.z - p.z = 0 := congrArg AtVector.z h0
    have hzero : AiV3Dot (p - c) (p - c) = 0 := by
      simp only [AiV3Dot, AtVector.sub_eq]
      have hx2 : p.x - c.x = 0 := by linarith
      have hy2 : p.y - c.y = 0 := by linarith
      have hz2 : p.z - c.z = 0 := by linarith
      rw [hx2, hy2, hz2]
      ring
    rw [hzero] at hp
    exact hR (mul_self_eq_zero.mp hp.symm)
  have hN := AiV3Dot_normalize_self sqrt hs (c - p) hne
  have hcs := copysignOne_mul_self R
  unfold intersectionNormal
  generalize AiV3Normalize sqrt (c - p) = n at hN
  generalize copysignOne R = cs at hcs
  unfold AiV3Dot at hN ⊢
  simp only [AtVector.mul_eq]
  linear_combination (cs * cs) * hN + hcs

/-- Claim C19 (axial ray, centred sphere).  For a ray whose origin is on the
optical axis and whose non-zero direction is along the axis, and a sphere
centred on the axis with non-zero signed radius, `raySphereIntersection` with
either flag returns a point on the axis, and `intersectionNormal` at that point
is a unit vector with both off-axis components `0`; stated for the `z` axis
(the axis of the tracer) and for the `x` axis (the axis of the image-distance
solver), with `sqrt` the square root. -/
theorem C19_axial_ray_hits_on_axis (sqrt : K → K) (hs : IsSqrt sqrt) (o d c R : K)
    (hd : d ≠ 0) (hR : R ≠ 0) (reverse : Bool) :
    ((raySphereIntersection sqrt ⟨0, 0, d⟩ ⟨0, 0, o⟩ ⟨0, 0, c⟩ R reverse).x = 0 ∧
     (raySphereIntersection sqrt ⟨0, 0, d⟩ ⟨0, 0, o⟩ ⟨0, 0, c⟩ R reverse).y = 0 ∧
     (intersectionNormal sqrt
        (raySphereIntersection sqrt ⟨0, 0, d⟩ ⟨0, 0, o⟩ ⟨0, 0, c⟩ R reverse)
        ⟨0, 0, c⟩ R).x = 0 ∧
     (intersectionNormal sqrt
        (raySphereIntersection sqrt ⟨0, 0, d⟩ ⟨0, 0, o⟩ ⟨0, 0, c⟩ R reverse)
        ⟨0, 0, c⟩ R).y = 0 ∧
     AiV3Dot
        (intersectionNormal sqrt
          (raySphereIntersection sqrt ⟨0, 0, d⟩ ⟨0, 0, o⟩ ⟨0, 0, c⟩ R reverse) ⟨0, 0, c⟩ R)
        (intersectionNormal sqrt
          (raySphereIntersection sqrt ⟨0, 0, d⟩ ⟨0, 0, o⟩ ⟨0, 0, c⟩ R reverse) ⟨0, 0, c⟩ R)
        = 1) ∧
    ((raySphereIntersection sqrt ⟨d, 0, 0⟩ ⟨o, 0, 0⟩ ⟨c, 0, 0⟩ R reverse).y = 0 ∧
     (raySphereIntersection sqrt ⟨d, 0, 0⟩ ⟨o, 0, 0⟩ ⟨c, 0, 0⟩ R reverse).z = 0 ∧
     (intersectionNormal sqrt
        (raySphereIntersection sqrt ⟨d, 0, 0⟩ ⟨o, 0, 0⟩ ⟨c, 0, 0⟩ R reverse)
        ⟨c, 0, 0⟩ R).y = 0 ∧
     (intersectionNormal sqrt
        (raySphereIntersection sqrt ⟨d, 0, 0⟩ ⟨o, 0, 0⟩ ⟨c, 0, 0⟩ R reverse)
        ⟨c, 0, 0⟩ R).z = 0 ∧
     AiV3Dot
        (intersectionNormal sqrt
          (raySphereIntersection sqrt ⟨d, 0, 0⟩ ⟨o, 0, 0⟩ ⟨c, 0, 0⟩ R reverse) ⟨c, 0, 0⟩ R)
        (intersectionNormal sqrt
          (raySphereIntersection sqrt ⟨d, 0, 0⟩ ⟨o, 0, 0⟩ ⟨c, 0, 0⟩ R reverse) ⟨c, 0, 0⟩ R)
        = 1) := by
  have hdz : (⟨0, 0, d⟩ : AtVector K) ≠ ⟨0, 0, 0⟩ := by
    intro h; exact hd (congrArg AtVector.z h)
  have hdx : (⟨d, 0, 0⟩ : AtVector K) ≠ ⟨0, 0, 0⟩ := by
    intro h; exact hd (congrArg AtVector.x h)
  have hNz := AiV3Dot_normalize_self sqrt hs _ hdz
  have hNx := AiV3Dot_normalize_self sqrt hs _ hdx
  have hzx := AiV3Normalize_x sqrt (⟨0, 0, d⟩ : AtVector K) rfl
  have hzy := AiV3Normalize_y sqrt (⟨0, 0, d⟩ : AtVector K) rfl
  have hxy := AiV3Normalize_y sqrt (⟨d, 0, 0⟩ : AtVector K) rfl
  have hxz := AiV3Normalize_z sqrt (⟨d, 0, 0⟩ : AtVector K) rfl
  have hdiscz : 0 ≤ R * R - rayD2 sqrt ⟨0, 0, d⟩ ⟨0, 0, o⟩ ⟨0, 0, c⟩ := by
    have e : rayD2 sqrt ⟨0, 0, d⟩ ⟨0, 0, o⟩ ⟨0, 0, c⟩ = 0 := by
      unfold rayD2 rayTca
      unfold AiV3Dot at hNz ⊢
      rw [hzx, hzy] at hNz ⊢
      simp only [AtVector.sub_eq]
      linear_combination (-((c - o) * (c - o))) * hNz
    rw [e, sub_zero]
    exact mul_self_nonneg R
  have hdiscx : 0 ≤ R * R - rayD2 sqrt ⟨d, 0, 0⟩ ⟨o, 0, 0⟩ ⟨c, 0, 0⟩ := by
    have e : rayD2 sqrt ⟨d, 0, 0⟩ ⟨o, 0, 0⟩ ⟨c, 0, 0⟩ = 0 := by
      unfold rayD2 rayTca
      unfold AiV3Dot at hNx ⊢
      rw [hxy, hxz] at hNx ⊢
      simp only [AtVector.sub_eq]
      linear_combination (-((c - o) * (c - o))) * hNx
    rw [e, sub_zero]
    exact mul_self_nonneg R
  have hpz : (raySphereIntersection sqrt ⟨0, 0, d⟩ ⟨0, 0, o⟩ ⟨0, 0, c⟩ R reverse).x = 0
      ∧ (raySphereIntersection sqrt ⟨0, 0, d⟩ ⟨0, 0, o⟩ ⟨0, 0, c⟩ R reverse).y = 0 := by
    rw [raySphereIntersection_eq]
    simp only [AtVector.add_eq, AtVector.mul_eq, hzx, hzy]
    exact ⟨by ring, by ring⟩
  have hpx : (raySphereIntersection sqrt ⟨d, 0, 0⟩ ⟨o, 0, 0⟩ ⟨c, 0, 0⟩ R reverse).y = 0
      ∧ (raySphereIntersection sqrt ⟨d, 0, 0⟩ ⟨o, 0, 0⟩ ⟨c, 0, 0⟩ R reverse).z = 0 := by
    rw [raySphereIntersection_eq]
    simp only [AtVector.add_eq, AtVector.mul_eq, hxy, hxz]
    exact ⟨by ring, by ring⟩
  refine ⟨⟨hpz.1, hpz.2, ?_, ?_, ?_⟩, ⟨hpx.1, hpx.2, ?_, ?_, ?_⟩⟩
  · unfold intersectionNormal
    simp only [AtVector.mul_eq]
    rw [AiV3Normalize_x sqrt _ (by simp only [AtVector.sub_eq]; rw [hpz.1]; ring)]
    ring
  · unfold intersectionNormal
    simp only [AtVector.mul_eq]
    rw [AiV3Normalize_y sqrt _ (by simp only [AtVector.sub_eq]; rw [hpz.2]; ring)]
    ring
  · exact intersectionNormal_unit sqrt hs _ _ R hR
      (raySphereIntersection_on_sphere sqrt hs _ _ _ R hdz hdiscz reverse)
  · unfold intersectionNormal
    simp only [AtVector.mul_eq]
    rw [AiV3Normalize_y sqrt _ (by simp only [AtVector.sub_eq]; rw [hpx.1]; ring)]
    ring
  · unfold intersectionNormal
    simp only [AtVector.mul_eq]
    rw [AiV3Normalize_z sqrt _ (by simp only [AtVector.sub_eq]; rw [hpx.2]; ring)]
    ring
  · exact intersectionNormal_unit sqrt hs _ _ R hR
      (raySphereIntersection_on_sphere sqrt hs _ _ _ R hdx hdiscx reverse)

/-- Witness of C19: the ray from the origin along `+z` and the sphere of radius
`5` centred at `(0, 0, 7)`. -/
theorem C19_axial_ray_hits_on_axis_witness :
    (raySphereIntersection Real.sqrt ⟨0, 0, 1⟩ ⟨0, 0, 0⟩ ⟨0, 0, 7⟩ 5 false).x = 0 ∧
    (raySphereIntersection Real.sqrt ⟨0, 0, 1⟩ ⟨0, 0, 0⟩ ⟨0, 0, 7⟩ 5 false).y = 0 :=
  have h := (C19_axial_ray_hits_on_axis Real.sqrt isSqrt_real 0 1 7 5 (by norm_num)
    (by norm_num) false).1
  ⟨h.1, h.2.1⟩

end Axial

section NormalIncidence

variable {K : Type} [LinearOrderedField K]

/-- Normalizing a negative multiple of a non-zero vector gives the opposite of
its normalization. -/
theorem AiV3Normalize_neg_mul (sqrt : K → K) (hs : IsSqrt sqrt) (a : AtVector K)
    (ha : a ≠ ⟨0, 0, 0⟩) (k : K) (hk : 0 < k) :
    AiV3Normalize sqrt (a * (-k)) = AiV3Normalize sqrt a * (-1 : K) := by
  have hpos := AiV3Dot_self_pos a ha
  obtain ⟨h1, h2⟩ := hs _ hpos.le
  have hne : sqrt (AiV3Dot a a) ≠ 0 := by
    intro h0
    rw [h0, mul_zero] at h2
    exact hpos.ne h2
  have hdot : AiV3Dot (a * (-k)) (a * (-k)) = k * k * AiV3Dot a a := by
    simp only [AiV3Dot, AtVector.mul_eq]
    ring
  have hsq : sqrt (AiV3Dot (a * (-k)) (a * (-k))) = k * sqrt (AiV3Dot a a) := by
    apply hs.eq_of_sq (mul_nonneg hk.le h1)
    rw [hdot]
    linear_combination (k * k) * h2
  have hne2 : k * sqrt (AiV3Dot a a) ≠ 0 := mul_ne_zero hk.ne' hne
  unfold AiV3Normalize
  simp only [hsq, hne, hne2, ne_eq, not_false_eq_true, if_true]
  simp only [AtVector.mul_eq, AtVector.mk.injEq]
  refine ⟨?_, ?_, ?_⟩ <;> field_simp <;> ring

/-- Claim C20 (normal incidence).  When the normal is a negative multiple of
the non-zero incident vector (it points against the incoming ray),
`calculateTransmissionVector` returns exactly the normalized incident vector,
for `ior1 = 1`, `ior2 = 3/2` and for every other pair of indices; `sqrt` is the
square root. -/
theorem C20_normal_incidence_unbent (sqrt : K → K) (hs : IsSqrt sqrt) (ior1 ior2 : K)
    (I : AtVector K) (hI : I ≠ ⟨0, 0, 0⟩) (k : K) (hk : 0 < k) :
    calculateTransmissionVector sqrt ior1 ior2 I (I * (-k)) = AiV3Normalize sqrt I ∧
    calculateTransmissionVector sqrt 1 (3 / 2) I (I * (-k)) = AiV3Normalize sqrt I := by
  have key : ∀ a b : K,
      calculateTransmissionVector sqrt a b I (I * (-k)) = AiV3Normalize sqrt I := by
    intro a b
    have hII := AiV3Dot_normalize_self sqrt hs I hI
    have hN := AiV3Normalize_neg_mul sqrt hs I hI k hk
    have h1 : sqrt 1 = 1 := hs.eq_of_sq (by norm_num) (by norm_num)
    have hc1 : AiV3Dot (AiV3Normalize sqrt I) (AiV3Normalize sqrt I * (-1 : K)) = -1 := by
      unfold AiV3Dot at hII ⊢
      simp only [AtVector.mul_eq]
      linear_combination (-1 : K) * hII
    unfold calculateTransmissionVector
    simp only [hN, hc1, neg_neg, mul_one, sub_self, mul_zero, sub_zero, abs_one, h1]
    simp only [AtVector.add_eq, AtVector.mul_eq]
    cases hv : AiV3Normalize sqrt I with
    | mk x y z =>
      simp only [AtVector.mk.injEq]
      refine ⟨by ring, by ring, by ring⟩
  exact ⟨key ior1 ior2, key 1 (3 / 2)⟩

/-- Witness of C20: incidence along `+z` on a normal along `-z`, from index `1`
into index `3/2`. -/
theorem C20_normal_incidence_unbent_witness :
    calculateTransmissionVector Real.sqrt (1 : ℝ) (3 / 2) ⟨0, 0, 1⟩
        ((⟨0, 0, 1⟩ : AtVector ℝ) * (-1 : ℝ))
      = AiV3Normalize Real.sqrt ⟨0, 0, 1⟩ :=
  (C20_normal_incidence_unbent Real.sqrt isSqrt_real 1 (3 / 2) ⟨0, 0, 1⟩ (by simp) 1
    (by norm_num)).1

end NormalIncidence

section TraceCounters

variable {K : Type} [LinearOrderedField K]

theorem narrowStop_hit (sqrt : K → K) (hs : IsSqrt sqrt) (U : Indeterminate K) :
    hitPointHypotenuse sqrt 0 (traceInit U ⟨25, 0, -10⟩ ⟨0, 0, 1⟩ 1 narrowStop) = 25 := by
  have h1 : sqrt 1 = 1 := hs.eq_of_sq (by norm_num) (by norm_num)
  have h625 : sqrt 625 = 25 := hs.eq_of_sq (by norm_num) (by norm_num)
  simp [hitPointHypotenuse, traceHit, traceInit, narrowStop, raySphereIntersection,
    AiV3Normalize, AiV3Dot, copysignOne, h1]
  norm_num [h625]

theorem narrowStop_counter (sqrt : K → K) (hs : IsSqrt sqrt) (U : Indeterminate K)
    (lensx lensy : K) :
    (traceThroughLensElements sqrt U ⟨25, 0, -10⟩ ⟨0, 0, 1⟩ 1 narrowStop lensx
      lensy).ld.vignettedRays = 2 := by
  have hh := narrowStop_hit sqrt hs U
  have hlen : (narrowStop : Lensdata K).lensRadiusCurvature.length = 1 := rfl
  unfold traceThroughLensElements
  rw [hlen, traceLoop, traceLoop]
  unfold traceBody
  simp only [hh]
  simp [traceHit, traceInit, narrowStop]
  norm_num

theorem traceBody_succesRays (sqrt : K → K) (U : Indeterminate K) (i : Nat)
    (s : TraceState K) :
    (traceBody sqrt U i s).ld.succesRays = s.ld.succesRays + 1 := by
  have h : (traceHit sqrt i s).1.ld.succesRays = s.ld.succesRays := by
    unfold traceHit
    simp only []
    split <;> rfl
  unfold traceBody
  simp only []
  split <;> split <;> simp [h]

theorem traceLoop_succesRays (sqrt : K → K) (U : Indeterminate K) (s : TraceState K) :
    ∀ n : Nat, (traceLoop sqrt U n s).ld.succesRays = s.ld.succesRays + (n : Int) := by
  intro n
  induction n with
  | zero => simp [traceLoop]
  | succ n ih =>
    rw [traceLoop, traceBody_succesRays, ih]
    push_cast
    ring

/-- The counter `succesRays` grows by the number of surfaces of the
prescription: the increment sits inside the surface loop. -/
theorem trace_succesRays (sqrt : K → K) (U : Indeterminate K)
    (ray_origin ray_direction : AtVector K) (weight : K) (ld : Lensdata K)
    (lensx lensy : K) :
    (traceThroughLensElements sqrt U ray_origin ray_direction weight ld lensx
        lensy).ld.succesRays
      = ld.succesRays + (ld.lensRadiusCurvature.length : Int) := by
  unfold traceThroughLensElements
  rw [traceLoop_succesRays]
  rfl

/-- The direction written back by one iteration: the transmitted direction at
the final surface; before it, the transmitted direction when the two indices
of refraction differ and the never-assigned local `tmpRayDirection` when they
are equal. -/
theorem traceBody_ray_direction (sqrt : K → K) (U : Indeterminate K) (i : Nat)
    (s : TraceState K) :
    (i = s.ld.lensRadiusCurvature.length - 1 →
      (traceBody sqrt U i s).ray_direction
        = calculateTransmissionVector sqrt (s.ld.lensIOR.getD i U.lensIORPastEnd) 1
            s.ray_direction
            (intersectionNormal sqrt (traceHit sqrt i s).1.ray_origin (traceHit sqrt i s).2
              ((traceHit sqrt i s).1.ld.lensRadiusCurvature.getD i 0))) ∧
    (i ≠ s.ld.lensRadiusCurvature.length - 1 →
      s.ld.lensIOR.getD i U.lensIORPastEnd ≠ s.ld.lensIOR.getD (i + 1) U.lensIORPastEnd →
      (traceBody sqrt U i s).ray_direction
        = calculateTransmissionVector sqrt (s.ld.lensIOR.getD i U.lensIORPastEnd)
            (s.ld.lensIOR.getD (i + 1) U.lensIORPastEnd) s.ray_direction
            (intersectionNormal sqrt (traceHit sqrt i s).1.ray_origin (traceHit sqrt i s).2
              ((traceHit sqrt i s).1.ld.lensRadiusCurvature.getD i 0))) ∧
    (i ≠ s.ld.lensRadiusCurvature.length - 1 →
      s.ld.lensIOR.getD i U.lensIORPastEnd = s.ld.lensIOR.getD (i + 1) U.lensIORPastEnd →
      (traceBody sqrt U i s).ray_direction = U.tmpRayDirection i) := by
  have hior : (traceHit sqrt i s).1.ld.lensIOR = s.ld.lensIOR := (traceHit_frame sqrt i s).2.1
  have hlen := traceHit_length sqrt i s
  have key : (traceBody sqrt U i s).ray_direction
      = if i = (traceHit sqrt i s).1.ld.lensRadiusCurvature.length - 1 then
          calculateTransmissionVector sqrt
            ((traceHit sqrt i s).1.ld.lensIOR.getD i U.lensIORPastEnd) 1 s.ray_direction
            (intersectionNormal sqrt (traceHit sqrt i s).1.ray_origin (traceHit sqrt i s).2
              ((traceHit sqrt i s).1.ld.lensRadiusCurvature.getD i 0))
        else if (traceHit sqrt i s).1.ld.lensIOR.getD i U.lensIORPastEnd
            ≠ (traceHit sqrt i s).1.ld.lensIOR.getD (i + 1) U.lensIORPastEnd then
          calculateTransmissionVector sqrt
            ((traceHit sqrt i s).1.ld.lensIOR.getD i U.lensIORPastEnd)
            ((traceHit sqrt i s).1.ld.lensIOR.getD (i + 1) U.lensIORPastEnd) s.ray_direction
            (intersectionNormal sqrt (traceHit sqrt i s).1.ray_origin (traceHit sqrt i s).2
              ((traceHit sqrt i s).1.ld.lensRadiusCurvature.getD i 0))
        else U.tmpRayDirection i := by
    unfold traceBody
    simp only []
    split <;> split <;> rfl
  rw [key, hior, hlen]
  refine ⟨?_, ?_, ?_⟩
  · intro hi
    rw [if_pos hi]
  · intro hi hne
    rw [if_neg hi, if_pos hne]
  · intro hi he
    rw [if_neg hi, if_neg (not_not.mpr he)]

end TraceCounters

/-- Claim C21 (evaluation at a ray vignetted by both tests of one surface).
Prescription: a single aperture stop with clear aperture `30`; ray from
`(25, 0, -10)` along `+z`.  The hit radius at the only surface is `25`, beyond
half the clear aperture (`15`) and beyond the stop radius (`20`): one surface
vignettes the ray, and `traceThroughLensElements` increases `vignettedRays`
from `0` to `2`. -/
theorem C21_counter_incremented_twice (U : Indeterminate ℝ) (lensx lensy : ℝ) :
    (narrowStop : Lensdata ℝ).lensRadiusCurvature.length = 1 ∧
    (narrowStop : Lensdata ℝ).vignettedRays = 0 ∧
    hitPointHypotenuse Real.sqrt 0
        (traceLoop Real.sqrt U 0 (traceInit U ⟨25, 0, -10⟩ ⟨0, 0, 1⟩ 1 narrowStop)) = 25 ∧
    (traceThroughLensElements Real.sqrt U ⟨25, 0, -10⟩ ⟨0, 0, 1⟩ 1 narrowStop lensx
      lensy).ld.vignettedRays = 2 :=
  ⟨rfl, rfl, narrowStop_hit Real.sqrt isSqrt_real U,
    narrowStop_counter Real.sqrt isSqrt_real U lensx lensy⟩

/-- Claim C25 (evaluation at a surface without a change of index).  In the
prescription of two surfaces with equal indices of refraction, the first
surface is not the final one and `lensIOR[0] = lensIOR[1]`; the direction the
first iteration writes back to the ray is the never-assigned local
`tmpRayDirection`, whatever the ray: with that local holding `(0, 0, 0)` the
direction `(0, 0, 1)` is not kept. -/
theorem C25_direction_after_equal_indices (sqrt : ℝ → ℝ) (U : Indeterminate ℝ)
    (ray_origin ray_direction : AtVector ℝ) (weight : ℝ) :
    (equalIndexPair : Lensdata ℝ).lensIOR = [3 / 2, 3 / 2] ∧
    (traceLoop sqrt U 1
        (traceInit U ray_origin ray_direction weight equalIndexPair)).ray_direction
      = U.tmpRayDirection 0 ∧
    (traceLoop sqrt zeroIndeterminate 1
        (traceInit zeroIndeterminate ray_origin ⟨0, 0, 1⟩ weight equalIndexPair)).ray_direction
      ≠ ⟨0, 0, 1⟩ := by
  have key : ∀ (V : Indeterminate ℝ) (d : AtVector ℝ),
      (traceLoop sqrt V 1 (traceInit V ray_origin d weight equalIndexPair)).ray_direction
        = V.tmpRayDirection 0 := by
    intro V d
    rw [traceLoop, traceLoop]
    exact (traceBody_ray_direction sqrt V 0 _).2.2 (by simp [traceInit, equalIndexPair])
      (by simp [traceInit, equalIndexPair])
  refine ⟨rfl, key U ray_direction, ?_⟩
  rw [key]
  simp [zeroIndeterminate]

/-- Claim C26 (evaluation on a prescription of two surfaces).  One invocation
of `traceThroughLensElements` on the two-surface prescription increases
`succesRays` from `0` to `2`, not to `1`: the counter grows once per surface. -/
theorem C26_succesRays_counts_surfaces (sqrt : ℝ → ℝ) (U : Indeterminate ℝ)
    (ray_origin ray_direction : AtVector ℝ) (weight lensx lensy : ℝ) :
    (stopThenLens : Lensdata ℝ).succesRays = 0 ∧
    (traceThroughLensElements sqrt U ray_origin ray_direction weight stopThenLens lensx
      lensy).ld.succesRays = 2 := by
  refine ⟨rfl, ?_⟩
  rw [trace_succesRays]
  simp [stopThenLens]

section AxialVertex

variable {K : Type} [LinearOrderedField K]

theorem traceHit_summedThickness (sqrt : K → K) (i : Nat) (s : TraceState K) :
    (traceHit sqrt i s).1.summedThickness
      = if i = 0 then s.ld.lensThickness.getD 0 0
        else s.summedThickness + s.ld.lensThickness.getD i 0 := rfl

theorem traceBody_summedThickness (sqrt : K → K) (U : Indeterminate K) (i : Nat)
    (s : TraceState K) :
    (traceBody sqrt U i s).summedThickness = (traceHit sqrt i s).1.summedThickness := by
  unfold traceBody
  simp only []
  split <;> split <;> rfl

/-- The accumulated thickness at surface `n` is the sum of the thicknesses of
surfaces `0..n`. -/
theorem traceLoop_summedThickness (sqrt : K → K) (U : Indeterminate K) (s : TraceState K) :
    ∀ n : Nat, (traceHit sqrt n (traceLoop sqrt U n s)).1.summedThickness
      = ((List.range (n + 1)).map fun k => s.ld.lensThickness.getD k 0).sum := by
  intro n
  induction n with
  | zero => simp [traceHit_summedThickness, traceLoop, List.range_succ]
  | succ n ih =>
    rw [traceHit_summedThickness, if_neg (Nat.succ_ne_zero n), (traceLoop_frame sqrt U s _).1]
    rw [traceLoop, traceBody_summedThickness, ih, List.range_succ (n + 1), List.map_append,
      List.sum_append]
    simp

theorem traceHit_sphere_center (sqrt : K → K) (i : Nat) (s : TraceState K) :
    (traceHit sqrt i s).2
      = ⟨0, 0, (traceHit sqrt i s).1.summedThickness
          - (traceHit sqrt i s).1.ld.lensRadiusCurvature.getD i 0⟩ := rfl

theorem traceHit_ray_origin (sqrt : K → K) (i : Nat) (s : TraceState K) :
    (traceHit sqrt i s).1.ray_origin
      = raySphereIntersection sqrt s.ray_direction s.ray_origin (traceHit sqrt i s).2
          ((traceHit sqrt i s).1.ld.lensRadiusCurvature.getD i 0) false := rfl

/-- The radius surface `i` is intersected with: the stored one, or the flat
sentinel when the stored one is zero. -/
theorem traceHit_radius (sqrt : K → K) (i : Nat) (s : TraceState K)
    (hi : i < s.ld.lensRadiusCurvature.length) :
    (traceHit sqrt i s).1.ld.lensRadiusCurvature.getD i 0
      = if s.ld.lensRadiusCurvature.getD i 0 = 0 then 99999
        else s.ld.lensRadiusCurvature.getD i 0 := by
  unfold traceHit
  simp only [decide_eq_true_eq]
  by_cases h0 : s.ld.lensRadiusCurvature.getD i 0 = 0
  · rw [if_pos (Or.inl h0), if_pos h0]
    simp [List.getD_eq_getElem?_getD, hi]
  · rw [if_neg h0]
    by_cases h9 : s.ld.lensRadiusCurvature.getD i 0 = 99999
    · rw [if_pos (Or.inr h9), h9]
      simp [List.getD_eq_getElem?_getD, hi]
    · rw [if_neg (not_or.mpr ⟨h0, h9⟩)]

/-- An axial ray travelling towards `+z` meets a sphere centred on the axis at
the vertex `c + R`, for either sign of the radius. -/
theorem raySphereIntersection_axial (sqrt : K → K) (hs : IsSqrt sqrt) (oz dz c R : K)
    (hdz : 0 < dz) :
    raySphereIntersection sqrt ⟨0, 0, dz⟩ ⟨0, 0, oz⟩ ⟨0, 0, c⟩ R false = ⟨0, 0, c + R⟩ := by
  have hsq : sqrt (dz * dz) = dz := hs.eq_of_sq hdz.le rfl
  have habs : sqrt (R * R) = |R| := hs.eq_of_sq (abs_nonneg R) (abs_mul_abs_self R)
  have hsign : |R| * copysignOne R = R := by
    unfold copysignOne
    split
    · rename_i h
      rw [abs_of_neg h]
      ring
    · rename_i h
      rw [abs_of_nonneg (not_lt.mp h)]
      ring
  have hn : AiV3Normalize sqrt ⟨0, 0, dz⟩ = ⟨0, 0, 1⟩ := by
    simp [AiV3Normalize, AiV3Dot, hsq, hdz.ne']
  unfold raySphereIntersection
  simp only [hn]
  simp [AiV3Dot, habs, hsign]
  ring

end AxialVertex

/-- Claim C28 (accumulated thickness and axial hit).  Let `s` be the state in
which iteration `i` of the loop of `traceThroughLensElements` starts, for a
surface `i` of the prescription `ld`, and `sqrt` the square root.  The
accumulated thickness iteration `i` works with is
`S_i = lensThickness[0] + ... + lensThickness[i]`; the sphere it intersects has
centre `(0, 0, S_i - R_i)`, where `R_i` is the stored radius, or the flat
sentinel `99999` when the stored radius is zero, so `R_i` is not zero; and when
the ray entering the iteration has its origin on the axis and a direction
`(0, 0, dz)` with `dz > 0`, the hit point is `(0, 0, S_i)`, for either sign of
`R_i`. -/
theorem C28_axial_ray_hits_vertex {K : Type} [LinearOrderedField K] (sqrt : K → K)
    (hs : IsSqrt sqrt) (U : Indeterminate K) (ld : Lensdata K)
    (ray_origin ray_direction : AtVector K) (weight : K) (i : Nat)
    (hi : i < ld.lensRadiusCurvature.length) :
    (traceHit sqrt i (traceLoop sqrt U i
        (traceInit U ray_origin ray_direction weight ld))).1.summedThickness
      = ((List.range (i + 1)).map fun k => ld.lensThickness.getD k 0).sum ∧
    (traceHit sqrt i (traceLoop sqrt U i
        (traceInit U ray_origin ray_direction weight ld))).1.ld.lensRadiusCurvature.getD i 0
      = (if ld.lensRadiusCurvature.getD i 0 = 0 then 99999
          else ld.lensRadiusCurvature.getD i 0) ∧
    (if ld.lensRadiusCurvature.getD i 0 = 0 then (99999 : K)
      else ld.lensRadiusCurvature.getD i 0) ≠ 0 ∧
    (traceHit sqrt i (traceLoop sqrt U i (traceInit U ray_origin ray_direction weight ld))).2
      = ⟨0, 0, ((List.range (i + 1)).map fun k => ld.lensThickness.getD k 0).sum
          - (if ld.lensRadiusCurvature.getD i 0 = 0 then 99999
              else ld.lensRadiusCurvature.getD i 0)⟩ ∧
    ∀ oz dz : K, 0 < dz →
      (traceLoop sqrt U i (traceInit U ray_origin ray_direction weight ld)).ray_origin
        = ⟨0, 0, oz⟩ →
      (traceLoop sqrt U i (traceInit U ray_origin ray_direction weight ld)).ray_direction
        = ⟨0, 0, dz⟩ →
      (traceHit sqrt i (traceLoop sqrt U i
          (traceInit U ray_origin ray_direction weight ld))).1.ray_origin
        = ⟨0, 0, ((List.range (i + 1)).map fun k => ld.lensThickness.getD k 0).sum⟩ := by
  generalize hs0 : traceInit U ray_origin ray_direction weight ld = s0
  have hld : s0.ld = ld := by rw [← hs0]; rfl
  have hS := traceLoop_summedThickness sqrt U s0 i
  rw [hld] at hS
  have hrad : (traceLoop sqrt U i s0).ld.lensRadiusCurvature.getD i 0
      = ld.lensRadiusCurvature.getD i 0 := by
    have h := traceLoop_lensRadiusCurvature sqrt U s0 i i
    simp only [lt_irrefl, if_false, hld] at h
    rw [List.getD_eq_getElem?_getD, List.getD_eq_getElem?_getD, h]
  have hlen : i < (traceLoop sqrt U i s0).ld.lensRadiusCurvature.length := by
    have h := traceLoop_lensRadiusCurvature sqrt U s0 i i
    simp only [lt_irrefl, if_false, hld] at h
    by_contra hc
    rw [List.getElem?_eq_none_iff.mpr (Nat.not_lt.mp hc), List.getElem?_eq_getElem hi] at h
    exact Option.noConfusion h
  have hR := traceHit_radius sqrt i (traceLoop sqrt U i s0) hlen
  rw [hrad] at hR
  have hne : (if ld.lensRadiusCurvature.getD i 0 = 0 then (99999 : K)
      else ld.lensRadiusCurvature.getD i 0) ≠ 0 := by
    split
    · norm_num
    · assumption
  have hc := traceHit_sphere_center sqrt i (traceLoop sqrt U i s0)
  rw [hS, hR] at hc
  refine ⟨hS, hR, hne, hc, ?_⟩
  intro oz dz hdz ho hd
  rw [traceHit_ray_origin, hc, hR, ho, hd, raySphereIntersection_axial sqrt hs _ _ _ _ hdz]
  simp

/-- Witness of C28: the axial ray from `(0, 0, -100)` meets the surface of
radius `-5` and thickness `5` at `(0, 0, 5)`. -/
theorem C28_axial_ray_hits_vertex_witness :
    (0 : Nat) < (airSurface : Lensdata ℝ).lensRadiusCurvature.length ∧
    (traceHit Real.sqrt 0 (traceLoop Real.sqrt zeroIndeterminate 0
        (traceInit zeroIndeterminate ⟨0, 0, -100⟩ ⟨0, 0, 1⟩ 1 airSurface))).1.ray_origin
      = ⟨0, 0, ((List.range (0 + 1)).map fun k =>
          (airSurface : Lensdata ℝ).lensThickness.getD k 0).sum⟩ :=
  ⟨by simp [airSurface],
    (C28_axial_ray_hits_vertex Real.sqrt isSqrt_real zeroIndeterminate airSurface
      ⟨0, 0, -100⟩ ⟨0, 0, 1⟩ 1 0 (by simp [airSurface])).2.2.2.2 (-100) 1 one_pos rfl rfl⟩

/-- Claim C22 (thin-lens ray does not depend on the lens sample).  With
`kolb = false`, `camera_create_ray` returns the same output and the same lens
data for every pair `(lensx, lensy)`, whatever `useDof` and the
depth-of-field block are: the origin is the incoming one, the direction is
the normalized vector `(sx * tan_fov, sy * tan_fov, 1) - origin` with its `z`
component negated, the weight is the incoming weight after the exposure step,
and with `exposureControl = 0` it is the incoming weight. -/
theorem C22_thin_lens_ignores_lens_sample {K : Type} [LinearOrderedField K]
    (sqrt cos sin : K → K) (AI_PI : K) (U : Indeterminate K)
    (dofBlock : AtCameraOutput K → AtCameraOutput K)
    (params : CameraParams K) (camera : cameraData K) (ld : Lensdata K)
    (sx sy lensx lensy lensx2 lensy2 : K) (output : AtCameraOutput K)
    (hk : params.kolb = false) :
    camera_create_ray sqrt cos sin AI_PI U dofBlock params camera ld
        ⟨sx, sy, lensx, lensy⟩ output
      = camera_create_ray sqrt cos sin AI_PI U dofBlock params camera ld
        ⟨sx, sy, lensx2, lensy2⟩ output ∧
    camera_create_ray sqrt cos sin AI_PI U dofBlock params camera ld
        ⟨sx, sy, lensx, lensy⟩ output
      = some ({ origin := output.origin,
                dir := ⟨(AiV3Normalize sqrt
                          (⟨sx * camera.tan_fov, sy * camera.tan_fov, 1⟩ - output.origin)).x,
                        (AiV3Normalize sqrt
                          (⟨sx * camera.tan_fov, sy * camera.tan_fov, 1⟩ - output.origin)).y,
                        (AiV3Normalize sqrt
                          (⟨sx * camera.tan_fov, sy * camera.tan_fov, 1⟩ - output.origin)).z
                          * (-1)⟩,
                weight := exposureStep params.exposureControl output.weight }, ld) ∧
    (params.exposureControl = 0 →
      exposureStep params.exposureControl output.weight = output.weight) := by
  refine ⟨?_, ?_, ?_⟩
  · simp [camera_create_ray, hk]
  · simp [camera_create_ray, hk]
  · intro he
    simp [exposureStep, he]

/-- Witness of C22: thin-lens parameters with depth of field off and exposure
`0`, lens samples `(1/2, 1/2)` and `(1/10, 9/10)`. -/
theorem C22_thin_lens_ignores_lens_sample_witness :
    ({ (thinLensParams 0 : CameraParams ℝ) with useDof := false }).kolb = false ∧
    camera_create_ray Real.sqrt Real.cos Real.sin Real.pi zeroIndeterminate id
        { (thinLensParams 0 : CameraParams ℝ) with useDof := false } unitCamera singleLens
        ⟨0, 0, 1 / 2, 1 / 2⟩ freshOutput
      = camera_create_ray Real.sqrt Real.cos Real.sin Real.pi zeroIndeterminate id
        { (thinLensParams 0 : CameraParams ℝ) with useDof := false } unitCamera singleLens
        ⟨0, 0, 1 / 10, 9 / 10⟩ freshOutput :=
  ⟨rfl, (C22_thin_lens_ignores_lens_sample Real.sqrt Real.cos Real.sin Real.pi
    zeroIndeterminate id { (thinLensParams 0 : CameraParams ℝ) with useDof := false }
    unitCamera singleLens 0 0 (1 / 2) (1 / 2) (1 / 10) (9 / 10) freshOutput rfl).1⟩

namespace imageData

theorem bokehSampleRow_eq_bind (img : imageData) (u : ℚ) :
    bokehSampleRow img u = (bokehRowPosition img u).bind fun r => img.rowIndices[r]? := by
  unfold bokehSampleRow bokehRowPosition
  cases slice img.cdfRow 0 img.y <;> rfl

theorem bokehSampleColumn_eq_bind (img : imageData) (row : Nat) (v : ℚ) :
    bokehSampleColumn img row v
      = (bokehColumnPosition img row v).bind fun c => img.columnIndices[c]? := by
  unfold bokehSampleColumn bokehColumnPosition
  simp only []
  generalize slice img.cdfColumn (row * img.x) img.x = o
  cases o <;> rfl

/-- The binary search stays inside its window, whatever the table holds. -/
theorem upperBoundLoop_le (a : List ℚ) (v : ℚ) :
    ∀ fuel first len : Nat, upperBoundLoop a v fuel first len ≤ first + len := by
  intro fuel
  induction fuel with
  | zero => intro first len; simp [upperBoundLoop]
  | succ fuel ih =>
    intro first len
    unfold upperBoundLoop
    split
    · omega
    · simp only []
      split
      · have := ih first (len / 2)
        have h2 : len / 2 ≤ len := Nat.div_le_self _ _
        omega
      · have := ih (first + len / 2 + 1) (len - len / 2 - 1)
        have h2 : len / 2 < len := Nat.div_lt_self (by omega) (by decide)
        omega

theorem upper_bound_le (a : List ℚ) (v : ℚ) : upper_bound a v ≤ a.length := by
  have := upperBoundLoop_le a v a.length 0 a.length
  unfold upper_bound
  omega

/-- The position a search settles on in a sorted range of `n ≥ 1` entries: the
first entry greater than the value, or the last entry when there is none. -/
theorem clamped_upper_bound (s : List ℚ) (v : ℚ) (n : Nat) (hn : 1 ≤ n) (hlen : s.length = n)
    (hmono : ∀ i j : Nat, i ≤ j → j < n → s.getD i 0 ≤ s.getD j 0) :
    (if upper_bound s v ≥ n then n - 1 else upper_bound s v) < n ∧
    (∀ k, k < (if upper_bound s v ≥ n then n - 1 else upper_bound s v) → s.getD k 0 ≤ v) ∧
    (v < s.getD (if upper_bound s v ≥ n then n - 1 else upper_bound s v) 0 ∨
      ((if upper_bound s v ≥ n then n - 1 else upper_bound s v) = n - 1 ∧
        ∀ k, k < n → s.getD k 0 ≤ v)) := by
  obtain ⟨h1, h2, h3⟩ := upper_bound_spec s v (by rw [hlen]; exact hmono)
  rw [hlen] at h1 h3
  by_cases hp : upper_bound s v ≥ n
  · rw [if_pos hp]
    refine ⟨by omega, fun k hk => h2 k (by omega), Or.inr ⟨rfl, fun k hk => h2 k (by omega)⟩⟩
  · rw [if_neg hp]
    exact ⟨by omega, h2, Or.inl (h3 _ (le_refl _) (by omega))⟩

theorem slice_self (l : List ℚ) (n : Nat) (h : l.length = n) : slice l 0 n = some l := by
  unfold slice
  rw [if_pos (by omega)]
  simp [← h]

theorem totalValue_twoLit : totalValue twoLit = 2 := by
  norm_num [totalValue, pixelValues, pixelLuminance, twoLit, List.range_succ]

/-- The tables built for the image of two equally lit rows, whatever order the
sort leaves the tie in. -/
theorem twoLit_built (S : StdSort) :
    ∃ d, bokehProbability S twoLit = some d ∧ d.y = 2 ∧ d.cdfRow = [1 / 2, 1] ∧
      d.rowIndices.Perm [0, 1] := by
  have hT := totalValue_twoLit
  refine ⟨_, bokehProbability_eq S twoLit (by decide) (by rw [hT]; norm_num), rfl, ?_, ?_⟩
  · show buildCdfRow S (1 / totalValue twoLit) twoLit = [1 / 2, 1]
    rw [buildCdfRow_eq, hT]
    have hw : ((buildRowIndices S (1 / 2) twoLit).map fun k =>
        (summedRowValues (1 / 2) twoLit).getD k 0) = List.replicate 2 (1 / 2) := by
      rw [List.eq_replicate_iff]
      refine ⟨by rw [List.length_map, length_buildRowIndices]; rfl, ?_⟩
      intro b hb
      obtain ⟨k, hk, rfl⟩ := List.mem_map.mp hb
      have hk2 : k < 2 := List.mem_range.mp ((perm_buildRowIndices S _ twoLit).mem_iff.mp hk)
      rw [getD_summedRowValues _ _ _ hk2]
      interval_cases k <;>
        norm_num [rowLuminance, luminance, pixelLuminance, twoLit, List.range_succ]
    rw [hw]
    norm_num [cumulative, List.replicate]
  · exact perm_buildRowIndices S _ twoLit

theorem upper_bound_half : upper_bound [1 / 2, 1] (1 / 2) = 1 := by
  norm_num [upper_bound, upperBoundLoop]

/-- Claim C23 (counterexample).  For the image of two equally lit rows the row
CDF is `[1/2, 1]`.  At `u_row = 1/2` the first index `i` with
`cdfRow[i] >= u_row` is `0`, but the row search of `bokehSample` settles on
position `1`. -/
theorem C23_equal_entry_is_skipped :
    ∃ d, bokehProbability insertionStdSort twoLit = some d ∧ d.cdfRow = [1 / 2, 1] ∧
      d.cdfRow.getD 0 0 ≥ 1 / 2 ∧ bokehRowPosition d (1 / 2) = some 1 := by
  obtain ⟨d, hd, hy, hcdf, _⟩ := twoLit_built insertionStdSort
  refine ⟨d, hd, hcdf, by rw [hcdf]; norm_num, ?_⟩
  unfold bokehRowPosition
  rw [slice_self _ _ (by rw [hcdf, hy]; rfl), hcdf, hy]
  have h := upper_bound_half
  simp only [Option.bind_eq_bind, Option.some_bind, h]
  rfl

/-- Claim C23 (amended: strictly greater).  For an image with `x, y ≥ 1` whose
row CDF has `y` entries and is non-decreasing, and a row whose slice of the
column CDF lies inside the table and is non-decreasing: the row search of
`bokehSample` settles on the first position `r` with `cdfRow[r] > u_row`, or
on the last position `y - 1` when no entry is greater; and the column search
settles on `row * x + c` with `c` the first offset in the slice with
`cdfColumn[row * x + c] > u_col`, or the last offset `x - 1` when no entry of
the slice is greater. -/
theorem C23_positions_first_strictly_greater (d : imageData) (u v : ℚ) (row : Nat)
    (hx : 1 ≤ d.x) (hy : 1 ≤ d.y) (hlen : d.cdfRow.length = d.y)
    (hmono : ∀ i j : Nat, i ≤ j → j < d.y → d.cdfRow.getD i 0 ≤ d.cdfRow.getD j 0)
    (hslice : row * d.x + d.x ≤ d.cdfColumn.length)
    (hmonoc : ∀ i j : Nat, i ≤ j → j < d.x →
      d.cdfColumn.getD (row * d.x + i) 0 ≤ d.cdfColumn.getD (row * d.x + j) 0) :
    (∃ r, bokehRowPosition d u = some r ∧ r < d.y ∧
      (∀ j, j < r → d.cdfRow.getD j 0 ≤ u) ∧
      (u < d.cdfRow.getD r 0 ∨ (r = d.y - 1 ∧ ∀ j, j < d.y → d.cdfRow.getD j 0 ≤ u))) ∧
    (∃ c, bokehColumnPosition d row v = some (row * d.x + c) ∧ c < d.x ∧
      (∀ k, k < c → d.cdfColumn.getD (row * d.x + k) 0 ≤ v) ∧
      (v < d.cdfColumn.getD (row * d.x + c) 0 ∨
        (c = d.x - 1 ∧ ∀ k, k < d.x → d.cdfColumn.getD (row * d.x + k) 0 ≤ v))) := by
  constructor
  · obtain ⟨h1, h2, h3⟩ := clamped_upper_bound d.cdfRow u d.y hy hlen hmono
    refine ⟨_, ?_, h1, h2, h3⟩
    unfold bokehRowPosition
    rw [slice_self _ _ hlen]
    rfl
  · have hsl : ((d.cdfColumn.drop (row * d.x)).take d.x).length = d.x := by
      rw [List.length_take, List.length_drop]
      omega
    have hget : ∀ k, k < d.x →
        ((d.cdfColumn.drop (row * d.x)).take d.x).getD k 0
          = d.cdfColumn.getD (row * d.x + k) 0 := by
      intro k hk
      exact (getD_of_slice d.cdfColumn _ (row * d.x) d.x k 0 rfl (by rw [hsl]; exact hk)).symm
    obtain ⟨h1, h2, h3⟩ := clamped_upper_bound ((d.cdfColumn.drop (row * d.x)).take d.x) v d.x
      hx hsl (by
        intro i j hij hj
        rw [hget i (by omega), hget j hj]
        exact hmonoc i j hij hj)
    generalize hq : (if upper_bound ((d.cdfColumn.drop (row * d.x)).take d.x) v ≥ d.x
      then d.x - 1 else upper_bound ((d.cdfColumn.drop (row * d.x)).take d.x) v) = q
      at h1 h2 h3
    refine ⟨q, ?_, h1, ?_, ?_⟩
    · unfold bokehColumnPosition slice
      simp only []
      rw [if_pos hslice]
      simp only [Option.bind_eq_bind, Option.some_bind, Option.some.injEq]
      rw [← hq]
      by_cases hp : upper_bound ((d.cdfColumn.drop (row * d.x)).take d.x) v ≥ d.x
      · rw [if_pos hp, if_pos (by omega)]
        omega
      · rw [if_neg hp, if_neg (by omega)]
    · intro k hk
      rw [← hget k (by omega)]
      exact h2 k hk
    · rcases h3 with h3 | ⟨h3, h4⟩
      · left
        rw [← hget q h1]
        exact h3
      · right
        refine ⟨h3, fun k hk => ?_⟩
        rw [← hget k hk]
        exact h4 k hk

/-- Witness of C23: the tables of the image of two equally lit rows, searched
at `u_row = 1/2` and `u_col = 1/2` in row `1`. -/
theorem C23_positions_first_strictly_greater_witness :
    (1 ≤ twoLitTables.x ∧ 1 ≤ twoLitTables.y ∧ twoLitTables.cdfRow.length = twoLitTables.y) ∧
    (∃ r, bokehRowPosition twoLitTables (1 / 2) = some r ∧ r < twoLitTables.y ∧
      (∀ j, j < r → twoLitTables.cdfRow.getD j 0 ≤ 1 / 2) ∧
      (1 / 2 < twoLitTables.cdfRow.getD r 0 ∨
        (r = twoLitTables.y - 1 ∧
          ∀ j, j < twoLitTables.y → twoLitTables.cdfRow.getD j 0 ≤ 1 / 2))) :=
  ⟨⟨by decide, by decide, by decide⟩,
    (C23_positions_first_strictly_greater twoLitTables (1 / 2) (1 / 2) 1 (by decide)
      (by decide) (by decide)
      (by
        intro i j hij hj
        have hj2 : j < 2 := hj
        interval_cases j <;> interval_cases i <;> norm_num [twoLitTables])
      (by decide)
      (by
        intro i j hij hj
        have hj2 : j < 1 := hj
        interval_cases j
        interval_cases i
        exact le_refl _)).1⟩

end imageData

namespace imageData

/-- Claim C24 (evaluation on a 1×3 image).  On the RGB image of width `1` and
height `3` whose only lit pixel is the centre one, row `(3 - 1)/2 = 1`, column
`(1 - 1)/2 = 0`, the build succeeds, the sample at `(1/4, 3/4)` selects the
centre pixel and returns `(dx, dy) = (-2, -2/3)`, not `(0, 0)`: the row index is
recentred with the width, `1 - (1 - 1)/2 = 1`, and the column index with the
height, `0 - (3 - 1)/2 = -1`. -/
theorem C24_centre_pixel_not_at_origin (S : StdSort) :
    0 < totalValue litCentre ∧
    ∃ d, bokehProbability S litCentre = some d ∧
      bokehSamplePixel d (1 / 4) (3 / 4)
        = some ((litCentre.y - 1) / 2,
                (litCentre.y - 1) / 2 * litCentre.x + (litCentre.x - 1) / 2) ∧
      bokehSample d (1 / 4) (3 / 4) = some (-2, -2 / 3) := by
  have h := single_bright_pixel_sample S litCentre (by decide) (by decide) (by decide) 1 0
    (by decide) (by decide)
    (by norm_num [luminance, pixelLuminance, litCentre])
    (by
      intro r c hr hc hne
      have hr2 : r < 3 := hr
      have hc2 : c < 1 := hc
      interval_cases r <;> interval_cases c <;>
        first
        | exact absurd rfl hne
        | norm_num [luminance, pixelLuminance, litCentre])
  obtain ⟨d, hd, hs⟩ := h
  obtain ⟨h1, h2, h3⟩ := hs (1 / 4) (3 / 4) (by norm_num) (by norm_num) (by norm_num)
    (by norm_num)
  refine ⟨by norm_num [totalValue, pixelValues, pixelLuminance, litCentre, List.range_succ],
    d, hd, ?_, ?_⟩
  · exact (bokehSamplePixel_eq_some_iff d _ _ _ _).mpr ⟨h1, h2⟩
  · rw [h3]
    norm_num [litCentre]

/-- Claim C27 (row tables).  For an image with at least three channels,
non-negative channel values and positive total luminance, `bokehProbability`
succeeds and leaves `rowIndices` a permutation of `0..y-1`, ordered by
non-increasing row luminance, and `cdfRow` with `y` entries, entry `i` being
the sum of `rowLuminance k / totalValue` over the rows `k` at positions `0..i`
of `rowIndices`; `cdfRow` is non-decreasing and its last entry is `1`. -/
theorem C27_row_cdf_prefix_sums (S : StdSort) (img : imageData)
    (hC : 3 ≤ img.nchannels) (hnn : ∀ v ∈ img.pixelData, 0 ≤ v)
    (hT : 0 < totalValue img) :
    ∃ d, bokehProbability S img = some d ∧
      d.rowIndices.Perm (List.range img.y) ∧
      d.rowIndices.Pairwise (fun a b => rowLuminance img b ≤ rowLuminance img a) ∧
      d.cdfRow.length = img.y ∧
      (∀ i, i < img.y → d.cdfRow.getD i 0
        = ((d.rowIndices.take (i + 1)).map fun k =>
            rowLuminance img k / totalValue img).sum) ∧
      (∀ i j, i ≤ j → j < img.y → d.cdfRow.getD i 0 ≤ d.cdfRow.getD j 0) ∧
      d.cdfRow.getD (img.y - 1) 0 = 1 := by
  have hvalid := isValid_of_totalValue_pos img hC hT
  have hlum : ∀ r c, r < img.y → c < img.x → 0 ≤ luminance img r c :=
    fun r c _ _ => pixelLuminance_nonneg img hnn _
  have hy : 0 < img.y := by
    rcases Nat.eq_zero_or_pos img.y with h0 | h0
    · rw [totalValue_eq_sum, h0] at hT
      simp at hT
    · exact h0
  have hperm := perm_buildRowIndices S (1 / totalValue img) img
  have hmem : ∀ k ∈ buildRowIndices S (1 / totalValue img) img, k < img.y :=
    fun k hk => List.mem_range.mp (hperm.mem_iff.mp hk)
  have hkey : ∀ k ∈ buildRowIndices S (1 / totalValue img) img,
      (summedRowValues (1 / totalValue img) img).getD k 0
        = rowLuminance img k / totalValue img := by
    intro k hk
    rw [getD_summedRowValues _ _ _ (hmem k hk)]
    ring
  have hw : ∀ v ∈ (buildRowIndices S (1 / totalValue img) img).map fun k =>
      (summedRowValues (1 / totalValue img) img).getD k 0, 0 ≤ v := by
    intro v hv
    obtain ⟨k, hk, rfl⟩ := List.mem_map.mp hv
    rw [hkey k hk]
    exact div_nonneg (rowLuminance_nonneg img k fun c hc => hlum k c (hmem k hk) hc) hT.le
  have hlen : (buildCdfRow S (1 / totalValue img) img).length = img.y := by
    rw [buildCdfRow_eq, length_cumulative, List.length_map, length_buildRowIndices]
  have hget : ∀ i, i < img.y → (buildCdfRow S (1 / totalValue img) img).getD i 0
      = (((buildRowIndices S (1 / totalValue img) img).map fun k =>
            (summedRowValues (1 / totalValue img) img).getD k 0).take (i + 1)).sum := by
    intro i hi
    rw [buildCdfRow_eq, getD_cumulative _ _ _
      (by rw [List.length_map, length_buildRowIndices]; exact hi), zero_add]
  refine ⟨_, bokehProbability_eq S img hvalid hT.ne', hperm, ?_, hlen, ?_, ?_, ?_⟩
  · show (buildRowIndices S (1 / totalValue img) img).Pairwise _
    have hsorted := S.sorted (summedRowValues (1 / totalValue img) img) (List.range img.y)
    have hmem2 : ∀ k ∈ S.sort (summedRowValues (1 / totalValue img) img) (List.range img.y),
        k < img.y := hmem
    refine (List.Pairwise.and_mem.mp hsorted).imp ?_
    intro a b hab
    obtain ⟨ha, hb, hcmp⟩ := hab
    unfold arrayCompare at hcmp
    rw [decide_eq_false_iff_not, not_lt, getD_summedRowValues _ _ _ (hmem2 a ha),
      getD_summedRowValues _ _ _ (hmem2 b hb)] at hcmp
    have hpos : 0 < 1 / totalValue img := by positivity
    exact le_of_mul_le_mul_right hcmp hpos
  · intro i hi
    show (buildCdfRow S (1 / totalValue img) img).getD i 0 = _
    rw [hget i hi, ← List.map_take]
    congr 1
    apply List.map_congr_left
    intro k hk
    exact hkey k (List.mem_of_mem_take hk)
  · intro i j hij hj
    show (buildCdfRow S (1 / totalValue img) img).getD i 0
      ≤ (buildCdfRow S (1 / totalValue img) img).getD j 0
    rw [buildCdfRow_eq]
    apply cumulative_mono _ hw i j hij
    rw [length_cumulative, List.length_map, length_buildRowIndices]
    exact hj
  · show (buildCdfRow S (1 / totalValue img) img).getD (img.y - 1) 0 = 1
    rw [hget _ (by omega), List.take_of_length_le
      (by rw [List.length_map, length_buildRowIndices]; omega)]
    exact sum_row_weights S img hT

/-- Witness of C27 on the 3×2 grey ramp. -/
theorem C27_row_cdf_prefix_sums_witness :
    ∃ d, bokehProbability insertionStdSort greyRamp = some d ∧
      d.rowIndices.Perm (List.range greyRamp.y) ∧
      d.rowIndices.Pairwise (fun a b => rowLuminance greyRamp b ≤ rowLuminance greyRamp a) ∧
      d.cdfRow.length = greyRamp.y ∧
      (∀ i, i < greyRamp.y → d.cdfRow.getD i 0
        = ((d.rowIndices.take (i + 1)).map fun k =>
            rowLuminance greyRamp k / totalValue greyRamp).sum) ∧
      (∀ i j, i ≤ j → j < greyRamp.y → d.cdfRow.getD i 0 ≤ d.cdfRow.getD j 0) ∧
      d.cdfRow.getD (greyRamp.y - 1) 0 = 1 :=
  C27_row_cdf_prefix_sums insertionStdSort greyRamp (by decide) (by decide)
    (by norm_num [totalValue, pixelValues, pixelLuminance, greyRamp, List.range_succ])

end imageData

namespace imageData

theorem dims_pos_of_isValid (img : imageData) (hv : img.isValid = true) :
    0 < img.x ∧ 0 < img.y := by
  unfold isValid at hv
  simp only [Bool.and_eq_true, decide_eq_true_eq] at hv
  have h := hv.1
  constructor
  · rcases Nat.eq_zero_or_pos img.x with h0 | h0
    · rw [h0] at h
      simp at h
    · exact h0
  · rcases Nat.eq_zero_or_pos img.y with h0 | h0
    · rw [h0] at h
      simp at h
    · exact h0

theorem bokehProbability_some (S : StdSort) (img : imageData) (hv : img.isValid = true)
    (d : imageData) (h : bokehProbability S img = some d) :
    d = buildTables S (1 / totalValue img) img := by
  by_cases hT : totalValue img = 0
  · unfold bokehProbability at h
    simp [hv, checkedDiv, hT] at h
  · rw [bokehProbability_eq S img hv hT] at h
    exact (Option.some.inj h).symm

/-- Every table read of `bokehSample` on built tables is in range, for every
normalization factor and every pair of random numbers. -/
theorem buildTables_reads_in_range (S : StdSort) (img : imageData)
    (hv : img.isValid = true) (inv u v : ℚ) :
    ∃ r row c col : Nat,
      bokehRowPosition (buildTables S inv img) u = some r ∧ r < img.y ∧
      (buildTables S inv img).rowIndices[r]? = some row ∧ row < img.y ∧
      bokehColumnPosition (buildTables S inv img) row v = some c ∧
      row * img.x ≤ c ∧ c < row * img.x + img.x ∧
      (buildTables S inv img).columnIndices[c]? = some col ∧
      row * img.x ≤ col ∧ col - row * img.x < img.x ∧
      bokehSample (buildTables S inv img) u v
        = some (bokehCoordinates (buildTables S inv img) row col) := by
  obtain ⟨hx, hy⟩ := dims_pos_of_isValid img hv
  have hlenRow : (buildCdfRow S inv img).length = img.y := by
    rw [buildCdfRow_eq, length_cumulative, List.length_map, length_buildRowIndices]
  -- the row search
  have hrpos : bokehRowPosition (buildTables S inv img) u
      = some (if upper_bound (buildCdfRow S inv img) u ≥ img.y then img.y - 1
          else upper_bound (buildCdfRow S inv img) u) := by
    unfold bokehRowPosition
    show (slice (buildCdfRow S inv img) 0 img.y).bind _ = _
    rw [slice_self _ _ hlenRow]
    rfl
  generalize hrdef : (if upper_bound (buildCdfRow S inv img) u ≥ img.y then img.y - 1
    else upper_bound (buildCdfRow S inv img) u) = r at hrpos
  have hr : r < img.y := by
    rw [← hrdef]
    split <;> omega
  have hrlen : r < (buildRowIndices S inv img).length := by
    rw [length_buildRowIndices]
    exact hr
  have hrow : (buildRowIndices S inv img)[r]? = some ((buildRowIndices S inv img)[r]) :=
    List.getElem?_eq_getElem hrlen
  generalize hrowdef : (buildRowIndices S inv img)[r] = row at hrow
  have hrowlt : row < img.y := by
    have hmem : row ∈ buildRowIndices S inv img := List.getElem?_mem hrow
    exact List.mem_range.mp ((perm_buildRowIndices S inv img).mem_iff.mp hmem)
  -- the column search
  have hsl : row * img.x + img.x ≤ (buildCdfColumn S inv img).length := by
    rw [length_buildCdfColumn]
    have h1 : (row + 1) * img.x ≤ img.y * img.x := Nat.mul_le_mul_right _ hrowlt
    have h2 : (row + 1) * img.x = row * img.x + img.x := by ring
    omega
  have hcpos : bokehColumnPosition (buildTables S inv img) row v
      = some (if row * img.x
            + upper_bound (((buildCdfColumn S inv img).drop (row * img.x)).take img.x) v
            ≥ row * img.x + img.x then row * img.x + img.x - 1
          else row * img.x
            + upper_bound (((buildCdfColumn S inv img).drop (row * img.x)).take img.x) v) := by
    unfold bokehColumnPosition slice
    show (if row * img.x + img.x ≤ (buildCdfColumn S inv img).length then
      some (((buildCdfColumn S inv img).drop (row * img.x)).take img.x) else none).bind _ = _
    rw [if_pos hsl]
    rfl
  have hub := upper_bound_le (((buildCdfColumn S inv img).drop (row * img.x)).take img.x) v
  generalize upper_bound (((buildCdfColumn S inv img).drop (row * img.x)).take img.x) v = p
    at hcpos hub
  generalize hcdef : (if row * img.x + p ≥ row * img.x + img.x then row * img.x + img.x - 1
    else row * img.x + p) = c at hcpos
  have hc : row * img.x ≤ c ∧ c < row * img.x + img.x := by
    rw [← hcdef]
    split <;> omega
  have hLlen := length_sortedRow S inv img row
  have hcol0 : (buildColumnIndices S inv img)[row * img.x + (c - row * img.x)]?
      = (S.sort (normalizedValuesPerRow inv img)
          (List.range' (row * img.x) img.x))[c - row * img.x]? :=
    getElem?_of_slice _ _ (row * img.x) img.x (c - row * img.x)
      (slice_buildColumnIndices S inv img row hrowlt) (by rw [hLlen]; omega)
  rw [Nat.add_sub_cancel' hc.1,
    List.getElem?_eq_getElem (show c - row * img.x < _ by rw [hLlen]; omega)] at hcol0
  generalize hcoldef : (S.sort (normalizedValuesPerRow inv img)
    (List.range' (row * img.x) img.x))[c - row * img.x] = col at hcol0
  have hcol : row * img.x ≤ col ∧ col - row * img.x < img.x := by
    have hmem : col ∈ S.sort (normalizedValuesPerRow inv img)
        (List.range' (row * img.x) img.x) := by
      rw [← hcoldef]
      exact List.getElem_mem _
    obtain ⟨k, hk, rfl⟩ := List.mem_map.mp ((perm_sortedRow S inv img row).mem_iff.mp hmem)
    have hk2 := List.mem_range.mp hk
    omega
  refine ⟨r, row, c, col, hrpos, hr, hrow, hrowlt, hcpos, hc.1, hc.2, hcol0, hcol.1, hcol.2, ?_⟩
  apply bokehSample_of_pixel _ _ _ _ _ (by rw [isValid_buildTables]; exact hv)
  rw [bokehSamplePixel_eq_some_iff, bokehSampleRow_eq_bind, bokehSampleColumn_eq_bind, hrpos,
    hcpos]
  exact ⟨hrow, hcol0⟩

/-- Claim C29 (table reads in range).  For a valid image (`x * y * nchannels > 0`
and `nchannels ≥ 3`), the tables `bokehProbability` returns are those of
`buildTables` with the factor `1 / totalValue`; and on the tables built with
any factor, for every pair of random numbers, also outside `[0, 1)`: both
searches read inside the CDF tables, the row position `r` is below `y`,
`rowIndices[r]` exists and is a row below `y`, the column position `c` lies in
that row's slice `[row * x, row * x + x)`, `columnIndices[c]` exists and is a
pixel of the same row, so the relative column is below `x`, and `bokehSample`
returns the coordinates of that pixel. -/
theorem C29_table_reads_in_range (S : StdSort) (img : imageData)
    (hv : img.isValid = true) (inv u v : ℚ) :
    (∀ d, bokehProbability S img = some d → d = buildTables S (1 / totalValue img) img) ∧
    (buildTables S inv img).cdfRow.length = img.y ∧
    (buildTables S inv img).rowIndices.length = img.y ∧
    (buildTables S inv img).cdfColumn.length = img.y * img.x ∧
    ∃ r row c col : Nat,
      bokehRowPosition (buildTables S inv img) u = some r ∧ r < img.y ∧
      (buildTables S inv img).rowIndices[r]? = some row ∧ row < img.y ∧
      bokehColumnPosition (buildTables S inv img) row v = some c ∧
      row * img.x ≤ c ∧ c < row * img.x + img.x ∧
      (buildTables S inv img).columnIndices[c]? = some col ∧
      row * img.x ≤ col ∧ col - row * img.x < img.x ∧
      bokehSample (buildTables S inv img) u v
        = some (bokehCoordinates (buildTables S inv img) row col) := by
  refine ⟨fun d h => bokehProbability_some S img hv d h, ?_, length_buildRowIndices S inv img,
    length_buildCdfColumn S inv img, buildTables_reads_in_range S img hv inv u v⟩
  show (buildCdfRow S inv img).length = img.y
  rw [buildCdfRow_eq, length_cumulative, List.length_map, length_buildRowIndices]

/-- Witness of C29 on the 3×2 grey ramp with random numbers `-3` and `7`. -/
theorem C29_table_reads_in_range_witness :
    greyRamp.isValid = true ∧
    ∃ r row c col : Nat,
      bokehRowPosition (buildTables insertionStdSort (1 / totalValue greyRamp) greyRamp) (-3)
        = some r ∧ r < greyRamp.y ∧
      (buildTables insertionStdSort (1 / totalValue greyRamp) greyRamp).rowIndices[r]?
        = some row ∧ row < greyRamp.y ∧
      bokehColumnPosition (buildTables insertionStdSort (1 / totalValue greyRamp) greyRamp)
        row 7 = some c ∧
      row * greyRamp.x ≤ c ∧ c < row * greyRamp.x + greyRamp.x ∧
      (buildTables insertionStdSort (1 / totalValue greyRamp) greyRamp).columnIndices[c]?
        = some col ∧
      row * greyRamp.x ≤ col ∧ col - row * greyRamp.x < greyRamp.x ∧
      bokehSample (buildTables insertionStdSort (1 / totalValue greyRamp) greyRamp) (-3) 7
        = some (bokehCoordinates
            (buildTables insertionStdSort (1 / totalValue greyRamp) greyRamp) row col) :=
  ⟨by decide,
    (C29_table_reads_in_range insertionStdSort greyRamp (by decide)
      (1 / totalValue greyRamp) (-3) 7).2.2.2.2⟩

end imageData

section LoaderReload

/-- What `readTabularLensData` returns on a well-formed file, for any incoming
`Lensdata`: three sequences hold the file only, `lensThickness` holds the
incoming entries as well. -/
theorem readTabularLensData_rows {K : Type} [LinearOrderedField K]
    (stod : String → Option K) (lines : List String) (rows : List (K × K × K × K))
    (ld : Lensdata K)
    (hrows : List.Forall₂ (IsDataLine stod)
      (lines.filter fun l => !isCommentOrEmpty l) rows) :
    ∃ ld2, readTabularLensData stod lines ld = some ld2 ∧
      ld2.lensRadiusCurvature = (rows.map fun r => r.1).reverse ∧
      ld2.lensThickness = (ld.lensThickness ++ rows.map fun r => r.2.1).reverse ∧
      ld2.lensIOR = (rows.map fun r => if r.2.2.1 = 0 then 1 else r.2.2.1).reverse ∧
      ld2.lensAperture = (rows.map fun r => r.2.2.2).reverse := by
  have hfold := foldlM_readLine stod lines rows
    { ld with lensAperture := [], lensIOR := [], lensRadiusCurvature := [] } hrows
  unfold readTabularLensData
  simp only [hfold, Option.bind_eq_bind, Option.some_bind]
  refine ⟨_, rfl, ?_, ?_, ?_, ?_⟩ <;> simp [Lensdata.appendRows]

theorem exampleLensFile_rows :
    List.Forall₂ (IsDataLine exampleStod)
      (exampleLensFile.filter fun l => !isCommentOrEmpty l)
      [(71 / 2, 5 / 4, 3 / 2, 23), (0, 4, 0, 18), (-40, 2, 1, 20)] := by
  have hf : (exampleLensFile.filter fun l => !isCommentOrEmpty l)
      = ["35.5\t1.25\t1.5\t23.0", "0.0\t4.0\t0.0\t18.0", "-40.0\t2.0\t1.0\t20.0"] := by
    decide
  rw [hf]
  exact List.Forall₂.cons ⟨"35.5", "1.25", "1.5", "23.0", by decide, rfl, rfl, rfl, rfl⟩
    (List.Forall₂.cons ⟨"0.0", "4.0", "0.0", "18.0", by decide, rfl, rfl, rfl, rfl⟩
      (List.Forall₂.cons ⟨"-40.0", "2.0", "1.0", "20.0", by decide, rfl, rfl, rfl, rfl⟩
        List.Forall₂.nil))

end LoaderReload

/-- Claim C30 (evaluation on a second load).  Loading the example file of three
data lines into an empty `Lensdata` gives sequences of length `3`.  Loading the
same file again into the `Lensdata` just obtained gives the same
`lensRadiusCurvature`, `lensIOR` and `lensAperture`, but a `lensThickness` of
length `6`, different from the one of the first load: the entries of the first
load are still in it. -/
theorem C30_reload_keeps_old_thickness :
    ∃ ld1 ld2 : Lensdata ℚ,
      readTabularLensData exampleStod exampleLensFile Lensdata.new = some ld1 ∧
      readTabularLensData exampleStod exampleLensFile ld1 = some ld2 ∧
      ld1.lensThickness = [2, 4, 5 / 4] ∧
      ld2.lensRadiusCurvature = ld1.lensRadiusCurvature ∧
      ld2.lensIOR = ld1.lensIOR ∧
      ld2.lensAperture = ld1.lensAperture ∧
      ld2.lensRadiusCurvature.length = 3 ∧
      ld2.lensThickness = [2, 4, 5 / 4, 5 / 4, 4, 2] ∧
      ld2.lensThickness ≠ ld1.lensThickness := by
  obtain ⟨ld1, h1, hr1, ht1, hi1, ha1⟩ :=
    readTabularLensData_rows exampleStod exampleLensFile _ Lensdata.new exampleLensFile_rows
  obtain ⟨ld2, h2, hr2, ht2, hi2, ha2⟩ :=
    readTabularLensData_rows exampleStod exampleLensFile _ ld1 exampleLensFile_rows
  have ht1b : ld1.lensThickness = [2, 4, 5 / 4] := by
    rw [ht1]
    simp [Lensdata.new]
  have ht2b : ld2.lensThickness = [2, 4, 5 / 4, 5 / 4, 4, 2] := by
    rw [ht2, ht1b]
    simp
  refine ⟨ld1, ld2, h1, h2, ht1b, by rw [hr1, hr2], by rw [hi1, hi2], by rw [ha1, ha2], ?_,
    ht2b, ?_⟩
  · rw [hr2]
    simp
  · rw [ht2b, ht1b]
    intro h
    have := congrArg List.length h
    simp at this

section CheckedReads

variable {K : Type} [LinearOrderedField K]

theorem traceBody_length (sqrt : K → K) (U : Indeterminate K) (i : Nat) (s : TraceState K) :
    (traceBody sqrt U i s).ld.lensRadiusCurvature.length = s.ld.lensRadiusCurvature.length := by
  rw [traceBody_lensRadiusCurvature]
  split
  · simp
  · rfl

theorem traceLoop_length (sqrt : K → K) (U : Indeterminate K) (s : TraceState K) :
    ∀ n, (traceLoop sqrt U n s).ld.lensRadiusCurvature.length
      = s.ld.lensRadiusCurvature.length := by
  intro n
  induction n with
  | zero => rfl
  | succ n ih => rw [traceLoop, traceBody_length, ih]

/-- The subscripts of iteration `i` are in range when `i + 1` is below the
common length of the sequences. -/
theorem traceBodyChecked_eq_some (sqrt : K → K) (U : Indeterminate K) (i : Nat)
    (s : TraceState K) (h1 : i < s.ld.lensThickness.length)
    (h2 : i < s.ld.lensRadiusCurvature.length) (h3 : i < s.ld.lensAperture.length)
    (h4 : i + 1 < s.ld.lensIOR.length) :
    traceBodyChecked sqrt U i s = some (traceBody sqrt U i s) := by
  unfold traceBodyChecked
  rw [List.getElem?_eq_getElem h1, List.getElem?_eq_getElem h2, List.getElem?_eq_getElem h3,
    List.getElem?_eq_getElem (show i < s.ld.lensIOR.length by omega),
    List.getElem?_eq_getElem h4]
  rfl

/-- The comparison `lensIOR[i] != lensIOR[i+1]` subscripts past the end when `i`
is the last index of `lensIOR`. -/
theorem traceBodyChecked_eq_none (sqrt : K → K) (U : Indeterminate K) (i : Nat)
    (s : TraceState K) (h : s.ld.lensIOR.length ≤ i + 1) :
    traceBodyChecked sqrt U i s = none := by
  unfold traceBodyChecked
  rw [List.getElem?_eq_none_iff.mpr h]
  cases s.ld.lensThickness[i]? <;> cases s.ld.lensRadiusCurvature[i]? <;>
    cases s.ld.lensAperture[i]? <;> cases s.ld.lensIOR[i]? <;> rfl

/-- Before the final surface every subscript is in range. -/
theorem traceLoopChecked_eq_some (sqrt : K → K) (U : Indeterminate K) (s : TraceState K)
    (n : Nat) (h1 : s.ld.lensThickness.length = n) (h2 : s.ld.lensRadiusCurvature.length = n)
    (h3 : s.ld.lensAperture.length = n) (h4 : s.ld.lensIOR.length = n) :
    ∀ k, k + 1 ≤ n → traceLoopChecked sqrt U k s = some (traceLoop sqrt U k s) := by
  intro k
  induction k with
  | zero => intro _; rfl
  | succ k ih =>
    intro hk
    obtain ⟨g1, g2, _, _, _⟩ := traceLoop_frame sqrt U s k
    rw [traceLoopChecked, ih (by omega), Option.some_bind, traceLoop]
    apply traceBodyChecked_eq_some
    · rw [g1]; omega
    · rw [traceLoop_length]; omega
    · rw [traceLoop_lensAperture]; omega
    · rw [g2]; omega

/-- At the final surface of any prescription with four sequences of the same
length `n ≥ 1`, the element `lensIOR[n]` is read. -/
theorem traceChecked_final (sqrt : K → K) (U : Indeterminate K)
    (ray_origin ray_direction : AtVector K) (weight : K) (ld : Lensdata K)
    (lensx lensy : K) (n : Nat) (hn : 1 ≤ n)
    (h1 : ld.lensThickness.length = n) (h2 : ld.lensRadiusCurvature.length = n)
    (h3 : ld.lensAperture.length = n) (h4 : ld.lensIOR.length = n) :
    traceLoopChecked sqrt U (n - 1) (traceInit U ray_origin ray_direction weight ld)
      = some (traceLoop sqrt U (n - 1) (traceInit U ray_origin ray_direction weight ld)) ∧
    (traceLoop sqrt U (n - 1)
      (traceInit U ray_origin ray_direction weight ld)).ld.lensIOR[n - 1 + 1]? = none ∧
    traceThroughLensElementsChecked sqrt U ray_origin ray_direction weight ld lensx lensy
      = none := by
  have hpre := traceLoopChecked_eq_some sqrt U
    (traceInit U ray_origin ray_direction weight ld) n h1 h2 h3 h4 (n - 1) (by omega)
  have hior : (traceLoop sqrt U (n - 1)
      (traceInit U ray_origin ray_direction weight ld)).ld.lensIOR.length = n := by
    rw [(traceLoop_frame sqrt U _ (n - 1)).2.1]
    exact h4
  refine ⟨hpre, List.getElem?_eq_none_iff.mpr (by omega), ?_⟩
  unfold traceThroughLensElementsChecked
  rw [h2]
  obtain ⟨m, rfl⟩ : ∃ m, n = m + 1 := ⟨n - 1, by omega⟩
  rw [traceLoopChecked]
  simp only [Nat.add_sub_cancel] at hpre hior
  rw [hpre, Option.some_bind]
  exact traceBodyChecked_eq_none sqrt U m _ (by omega)

end CheckedReads

/-- Claim C31 (evaluation at the final surface and at a surface without a change
of index).  For the prescription of one surface, whose four sequences have
length `1`, the only iteration subscripts `lensIOR[1]`, past the end of
`lensIOR`, so the bounds-checked tracer has no result, whatever the ray.  For
the prescription of two surfaces with equal indices, whose four sequences have
length `2`, every subscript of the first iteration is in range and the
direction it writes back to the ray is the never-assigned local
`tmpRayDirection`. -/
theorem C31_reads_past_end_and_unassigned_direction (sqrt : ℝ → ℝ) (U : Indeterminate ℝ)
    (ray_origin ray_direction : AtVector ℝ) (weight lensx lensy : ℝ) :
    ((singleLens : Lensdata ℝ).lensRadiusCurvature.length = 1 ∧
      (singleLens : Lensdata ℝ).lensThickness.length = 1 ∧
      (singleLens : Lensdata ℝ).lensIOR.length = 1 ∧
      (singleLens : Lensdata ℝ).lensAperture.length = 1) ∧
    (traceLoop sqrt U 0
      (traceInit U ray_origin ray_direction weight singleLens)).ld.lensIOR[0 + 1]? = none ∧
    traceBodyChecked sqrt U 0 (traceInit U ray_origin ray_direction weight singleLens)
      = none ∧
    traceThroughLensElementsChecked sqrt U ray_origin ray_direction weight singleLens lensx
      lensy = none ∧
    ((equalIndexPair : Lensdata ℝ).lensRadiusCurvature.length = 2 ∧
      (equalIndexPair : Lensdata ℝ).lensThickness.length = 2 ∧
      (equalIndexPair : Lensdata ℝ).lensIOR.length = 2 ∧
      (equalIndexPair : Lensdata ℝ).lensAperture.length = 2) ∧
    traceBodyChecked sqrt U 0 (traceInit U ray_origin ray_direction weight equalIndexPair)
      = some (traceBody sqrt U 0
          (traceInit U ray_origin ray_direction weight equalIndexPair)) ∧
    (traceBody sqrt U 0
        (traceInit U ray_origin ray_direction weight equalIndexPair)).ray_direction
      = U.tmpRayDirection 0 := by
  obtain ⟨_, hread, hnone⟩ := traceChecked_final sqrt U ray_origin ray_direction weight
    singleLens lensx lensy 1 (le_refl 1) rfl rfl rfl rfl
  refine ⟨⟨rfl, rfl, rfl, rfl⟩, hread, ?_, hnone, ⟨rfl, rfl, rfl, rfl⟩, ?_, ?_⟩
  · exact traceBodyChecked_eq_none sqrt U 0 _ (by simp [traceInit, singleLens])
  · exact traceBodyChecked_eq_some sqrt U 0 _ (by simp [traceInit, equalIndexPair])
      (by simp [traceInit, equalIndexPair]) (by simp [traceInit, equalIndexPair])
      (by simp [traceInit, equalIndexPair])
  · exact (traceBody_ray_direction sqrt U 0 _).2.2 (by simp [traceInit, equalIndexPair])
      (by simp [traceInit, equalIndexPair])

section SolverSentinel

variable {K : Type} [LinearOrderedField K]

/-- One test-and-replace step on a sequence whose first `k` entries have been
treated treats entry `k`. -/
theorem getElem?_replace_step (l0 l : List K) (k : Nat)
    (hk : ∀ j, l[j]? = if j < k then (l0[j]?).map (fun r => if r = 0 then 99999 else r)
      else l0[j]?) :
    ∀ j, (if l.getD k 0 = 0 then l.set k 99999 else l)[j]?
      = if j < k + 1 then (l0[j]?).map (fun r => if r = 0 then 99999 else r)
        else l0[j]? := by
  intro j
  have hkk := hk k
  simp only [lt_irrefl, if_false] at hkk
  by_cases hjk : j = k
  · subst hjk
    rw [if_pos (Nat.lt_succ_self j)]
    cases h0 : l0[j]? with
    | none =>
      rw [h0] at hkk
      have hlen : l.length ≤ j := List.getElem?_eq_none_iff.mp hkk
      split
      · rw [List.getElem?_set]
        simp [Nat.not_lt.mpr hlen]
      · simp [hkk]
    | some r =>
      rw [h0] at hkk
      have hr : l.getD j 0 = r := by
        rw [List.getD_eq_getElem?_getD, hkk]
        rfl
      have hlen : j < l.length := by
        by_contra hcon
        rw [List.getElem?_eq_none_iff.mpr (Nat.not_lt.mp hcon)] at hkk
        cases hkk
      rw [hr]
      by_cases hr0 : r = 0
      · rw [if_pos hr0, List.getElem?_set]
        simp [hlen, hr0]
      · rw [if_neg hr0, hkk]
        simp [hr0]
  · have hne : k ≠ j := fun h => hjk h.symm
    have hlt : j < k + 1 ↔ j < k := by omega
    have hstep : (if l.getD k 0 = 0 then l.set k 99999 else l)[j]? = l[j]? := by
      split
      · rw [List.getElem?_set_ne hne]
      · rfl
    rw [hstep, hk j]
    simp only [hlt]

theorem focusBody_lensRadiusCurvature (sqrt : K → K) (U : FocusIndeterminate K) (i : Nat)
    (s : FocusState K) :
    (focusBody sqrt U i s).ld.lensRadiusCurvature
      = if s.ld.lensRadiusCurvature.getD i 0 = 0 then s.ld.lensRadiusCurvature.set i 99999
        else s.ld.lensRadiusCurvature := by
  unfold focusBody
  simp only []
  by_cases hn : i = s.ld.lensRadiusCurvature.length - 1
  · rw [if_pos hn]
    by_cases hc : s.ld.lensRadiusCurvature.getD i 0 = 0
    · simp only [if_pos hc]
    · simp only [if_neg hc]
  · rw [if_neg hn]
    by_cases hc : s.ld.lensRadiusCurvature.getD i 0 = 0
    · simp only [if_pos hc]
    · simp only [if_neg hc]

/-- After `k` iterations of the solver the first `k` stored radii have had `0`
replaced by the flat sentinel and the others are as stored. -/
theorem focusLoop_lensRadiusCurvature (sqrt : K → K) (U : FocusIndeterminate K)
    (s : FocusState K) : ∀ k j : Nat,
    (focusLoop sqrt U k s).ld.lensRadiusCurvature[j]?
      = if j < k then (s.ld.lensRadiusCurvature[j]?).map (fun r => if r = 0 then 99999 else r)
        else s.ld.lensRadiusCurvature[j]? := by
  intro k
  induction k with
  | zero => intro j; simp [focusLoop]
  | succ k ih =>
    intro j
    rw [focusLoop, focusBody_lensRadiusCurvature]
    exact getElem?_replace_step _ _ k ih j

theorem focusLoop_length (sqrt : K → K) (U : FocusIndeterminate K) (s : FocusState K) :
    ∀ k, (focusLoop sqrt U k s).ld.lensRadiusCurvature.length
      = s.ld.lensRadiusCurvature.length := by
  intro k
  induction k with
  | zero => rfl
  | succ k ih =>
    rw [focusLoop, focusBody_lensRadiusCurvature]
    split
    · rw [List.length_set, ih]
    · exact ih

/-- The radius iteration `i` of the solver intersects with: the stored radius of
surface `n - 1 - i`, with `0` replaced by the sentinel only when that surface
lies at or below index `i`. -/
theorem focusRadius_eq (sqrt : K → K) (U : FocusIndeterminate K) (objectDistance : K)
    (ld : Lensdata K) (i : Nat) (hi : i < ld.lensRadiusCurvature.length) :
    focusRadius i (focusLoop sqrt U i (focusInit U objectDistance ld))
      = if ld.lensRadiusCurvature.length - 1 - i ≤ i then
          (if ld.lensRadiusCurvature.getD (ld.lensRadiusCurvature.length - 1 - i) 0 = 0
            then 99999
            else ld.lensRadiusCurvature.getD (ld.lensRadiusCurvature.length - 1 - i) 0)
        else ld.lensRadiusCurvature.getD (ld.lensRadiusCurvature.length - 1 - i) 0 := by
  have hstep := getElem?_replace_step ld.lensRadiusCurvature
    (focusLoop sqrt U i (focusInit U objectDistance ld)).ld.lensRadiusCurvature i
    (focusLoop_lensRadiusCurvature sqrt U (focusInit U objectDistance ld) i)
    (ld.lensRadiusCurvature.length - 1 - i)
  have hlen : (focusLoop sqrt U i (focusInit U objectDistance ld)).ld.lensRadiusCurvature.length
      = ld.lensRadiusCurvature.length := focusLoop_length sqrt U _ i
  have hj : ld.lensRadiusCurvature.length - 1 - i < ld.lensRadiusCurvature.length := by omega
  unfold focusRadius
  simp only [hlen]
  rw [List.getD_eq_getElem?_getD, hstep, List.getElem?_eq_getElem hj,
    List.getD_eq_getElem?_getD, List.getElem?_eq_getElem hj]
  have hiff : ld.lensRadiusCurvature.length - 1 - i < i + 1
      ↔ ld.lensRadiusCurvature.length - 1 - i ≤ i := Nat.lt_succ_iff
  by_cases hc : ld.lensRadiusCurvature.length - 1 - i ≤ i
  · rw [if_pos (hiff.mpr hc), if_pos hc]
    simp
  · rw [if_neg (fun h => hc (hiff.mp h)), if_neg hc]

end SolverSentinel

/-- Claim C32 (evaluation on a flat front surface).  In the prescription of two
surfaces with stored radii `[65, 0]`, iteration `0` of `calculateImageDistance`
processes surface `2 - 1 - 0 = 1`, whose stored radius is `0`.  The iteration
tests and replaces entry `0` and then reads entry `1`: the radius it
intersects with is `0`, not the sentinel.  Entry `1` is replaced only by
iteration `1`, after it was used: the call leaves the radii `[65, 99999]`. -/
theorem C32_flat_front_surface_read_as_zero (sqrt : ℝ → ℝ) (U : FocusIndeterminate ℝ)
    (objectDistance : ℝ) :
    (lensThenStop : Lensdata ℝ).lensRadiusCurvature = [65, 0] ∧
    focusRadius 0 (focusLoop sqrt U 0 (focusInit U objectDistance lensThenStop)) = 0 ∧
    focusRadius 1 (focusLoop sqrt U 1 (focusInit U objectDistance lensThenStop)) = 65 ∧
    (calculateImageDistance sqrt U objectDistance lensThenStop).2.lensRadiusCurvature
      = [65, 99999] := by
  refine ⟨rfl, ?_, ?_, ?_⟩
  · rw [focusRadius_eq sqrt U objectDistance lensThenStop 0 (by simp [lensThenStop])]
    simp [lensThenStop]
  · rw [focusRadius_eq sqrt U objectDistance lensThenStop 1 (by simp [lensThenStop])]
    simp [lensThenStop]
  · apply List.ext_getElem?
    intro j
    show (focusLoop sqrt U (lensThenStop : Lensdata ℝ).lensRadiusCurvature.length
      (focusInit U objectDistance lensThenStop)).ld.lensRadiusCurvature[j]? = _
    rw [focusLoop_lensRadiusCurvature]
    rcases j with _ | _ | j <;> simp [focusInit, lensThenStop]

namespace imageData

/-- On tables whose last row-CDF entry lies below `1`, as rounded `float`
arithmetic leaves them, a random number in `[0, 1)` at or above that entry is
clamped to the last position: on `roundedTables` the number `1 - 2^-24` selects
row `1`, which is black, although row `0` holds the only lit pixel. -/
theorem roundedTables_select_black_row :
    roundedTables.isValid = true ∧
    (0 : ℚ) ≤ 16777215 / 16777216 ∧ (16777215 / 16777216 : ℚ) < 1 ∧
    0 < luminance roundedTables 0 0 ∧ luminance roundedTables 1 0 = 0 ∧
    bokehRowPosition roundedTables (16777215 / 16777216) = some 1 ∧
    bokehSampleRow roundedTables (16777215 / 16777216) = some 1 := by
  have hub : upper_bound [(16777215 / 16777216 : ℚ), 16777215 / 16777216]
      (16777215 / 16777216) = 2 := by
    norm_num [upper_bound, upperBoundLoop]
  have hpos : bokehRowPosition roundedTables (16777215 / 16777216) = some 1 := by
    unfold bokehRowPosition
    rw [slice_self _ _ (by rfl)]
    show some (if upper_bound [(16777215 / 16777216 : ℚ), 16777215 / 16777216]
      (16777215 / 16777216) ≥ 2 then 2 - 1 else _) = some 1
    rw [hub]
    rfl
  refine ⟨by decide, by norm_num, by norm_num,
    by norm_num [luminance, pixelLuminance, roundedTables],
    by norm_num [luminance, pixelLuminance, roundedTables], hpos, ?_⟩
  rw [bokehSampleRow_eq_bind, hpos]
  rfl

end imageData

end Zoic
